import Mathlib

/-
  Verification development for the circuit-simulator core:
  the MNA engine (`solveLinearSystem`, `CircuitEngine.solve` in engine.js)
  and the topology builder (`rebuildCircuit` in the UI controller file).

  Shallow embedding conventions:
  * JS numbers are modelled as exact rationals (ℚ).
  * The JS heap of Node / Component objects is modelled as two grow-only
    stores (lists) indexed by natural-number references; JS object identity
    is reference equality on the index.  This is needed because removed
    components retain references to node objects from earlier rebuilds.
  * `null` / missing list entries are modelled with `Option`.
  * The unbounded recursion of the union-find `find` is modelled with
    explicit fuel equal to the store size (enough for every acyclic
    parent forest, which is the only shape the code ever builds).
-/

set_option maxRecDepth 1000000
set_option maxHeartbeats 4000000
set_option allowUnsafeReducibility true
attribute [semireducible] Rat.add Rat.mul Rat.inv Rat.sub Rat.neg Rat.div

namespace Circ

/-- Node record (class `Node` in engine.js).  The `connections` array of the
source is never read by the solver or the topology builder and is omitted.
`parent` is the union-find parent pointer installed by `rebuildCircuit`. -/
structure Node where
  id : String
  voltage : ℚ
  isGND : Bool
  parent : Nat
deriving Repr, DecidableEq

/-- Component record (class `Component` in engine.js plus the dynamic fields
the UI attaches: `spdtState`, `current`, `lightLevel`, `maxResistance`,
`wiperPos`).  `nodes` holds references into the node store; `none` models
JS `null`.  `spdtState` is `none` while the field is still `undefined`. -/
structure Component where
  id : String
  type : String
  x : ℚ
  y : ℚ
  rotation : Nat
  nodes : List (Option Nat)
  resistance : ℚ
  voltage : ℚ
  isOpen : Bool
  spdtState : Option Nat
  current : ℚ
  lightLevel : ℚ
  maxResistance : ℚ
  wiperPos : ℚ
deriving Repr, DecidableEq

def defaultNode : Node :=
  { id := "", voltage := 0, isGND := false, parent := 0 }

def defaultComponent : Component :=
  { id := "", type := "", x := 0, y := 0, rotation := 0, nodes := [],
    resistance := 10, voltage := 0, isOpen := false, spdtState := none,
    current := 0, lightLevel := 0, maxResistance := 0, wiperPos := 0 }

/-- A visual wire (connection edge): `{startComp, startTerm, endComp, endTerm}`
from the UI controller.  Component slots are references into the component
store (JS object references). -/
structure Wire where
  startComp : Nat
  startTerm : Nat
  endComp : Nat
  endTerm : Nat
deriving Repr, DecidableEq

/-- The whole mutable state: the two heaps plus the `CircuitEngine` fields
`components` and `nodes` (lists of references) and the global `visualWires`
list consumed by `rebuildCircuit`. -/
structure CircuitEngine where
  nodeStore : List Node
  compStore : List Component
  components : List Nat
  nodes : List Nat
  visualWires : List Wire
deriving Repr, DecidableEq

/-- `Component` defaults of `CircuitEngine.addComponent` for each kind. -/
def mkComponent (id ty : String) (x y : ℚ) : Component :=
  let c := { defaultComponent with
    id := id, type := ty, x := x, y := y, nodes := [none, none] }
  if ty = "battery" then { c with voltage := 9, resistance := 1/10 }
  else if ty = "bulb" then { c with resistance := 50 }
  else if ty = "switch" then { c with resistance := 1/1000, isOpen := true }
  else if ty = "resistor" then { c with resistance := 100 }
  else if ty = "voltmeter" then { c with resistance := 1000000000 }
  else if ty = "ammeter" then { c with resistance := 1/1000 }
  else if ty = "joint" then { c with resistance := 1/1000 }
  else if ty = "led" then { c with resistance := 10 }
  else if ty = "pushbutton" then { c with resistance := 1000000000, isOpen := true }
  else if ty = "buzzer" then { c with resistance := 100 }
  else if ty = "ldr" then { c with resistance := 250, lightLevel := 1/2 }
  else if ty = "potentiometer" then
    { c with resistance := 250, maxResistance := 500, wiperPos := 1/2 }
  else c

/-! ## Matrix and the Gaussian-elimination solver (`solveLinearSystem`) -/

/-- Dense matrix (class `Matrix` in engine.js). -/
structure Matrix where
  rows : Nat
  cols : Nat
  data : List (List ℚ)
deriving Repr, DecidableEq

/-- `new Matrix(r, c)`: an `r × c` all-zero matrix. -/
def Matrix.mk0 (r c : Nat) : Matrix :=
  ⟨r, c, List.replicate r (List.replicate c 0)⟩

/-- Raw read of entry `(r, c)` of a list-of-lists, with JS-style defaulting
(an in-range row is a real list; out-of-range reads never occur in the
executions the code performs, see the access-safety theorems). -/
def getE (m : List (List ℚ)) (r c : Nat) : ℚ :=
  (m.getD r []).getD c 0

/-- Raw in-place write of entry `(r, c)` (no-op when the row is absent). -/
def setE (m : List (List ℚ)) (r c : Nat) (v : ℚ) : List (List ℚ) :=
  m.set r ((m.getD r []).set c v)

/-- `Matrix.set` of the source: bounds-checked write. -/
def Matrix.set (A : Matrix) (r c : Nat) (v : ℚ) : Matrix :=
  if r < A.rows ∧ c < A.cols then ⟨A.rows, A.cols, setE A.data r c v⟩ else A

/-- `Matrix.get` of the source: unchecked read `this.data[r][c]`. -/
def Matrix.get (A : Matrix) (r c : Nat) : ℚ :=
  getE A.data r c

/-- The pivot scan of `solveLinearSystem`: starting from `maxRow = i`, take
`k` whenever `|M[k][i]| > |M[maxRow][i]|` for `k = i+1 .. n-1`. -/
def pivotSelect (M : List (List ℚ)) (i n : Nat) : Nat :=
  (List.range' (i+1) (n - (i+1))).foldl
    (fun maxRow k => if |getE M k i| > |getE M maxRow i| then k else maxRow) i

/-- Swap two list entries (the destructuring swap of the source); identity
when either index is out of range (never happens in the executions). -/
def swapL {α : Type} (l : List α) (i j : Nat) : List α :=
  match l[i]?, l[j]? with
  | some a, some b => (l.set i b).set j a
  | _, _ => l

/-- The elimination of one row `k` below pivot row `i`:
`factor = M[k][i]/M[i][i]`, `R[k] -= factor*R[i]`,
`M[k][j] -= factor*M[i][j]` for `j = i .. n-1`. -/
def elimStep (i n : Nat) (MR : List (List ℚ) × List ℚ) (k : Nat) :
    List (List ℚ) × List ℚ :=
  let M := MR.1
  let R := MR.2
  let factor := getE M k i / getE M i i
  let R1 := R.set k (R.getD k 0 - factor * R.getD i 0)
  let row1 := (List.range' i (n - i)).foldl
    (fun row j => row.set j (row.getD j 0 - factor * getE M i j))
    (M.getD k [])
  (M.set k row1, R1)

/-- Eliminate rows `i+1 .. n-1` below pivot row `i`. -/
def elimBelow (MR : List (List ℚ) × List ℚ) (i n : Nat) :
    List (List ℚ) × List ℚ :=
  (List.range' (i+1) (n - (i+1))).foldl (elimStep i n) MR

/-- One forward-elimination step for pivot column `i`: pivot scan, row swap,
then either skip (`|M[i][i]| < 1e-10`) or eliminate below. -/
def fwdStep (MR : List (List ℚ) × List ℚ) (i n : Nat) :
    List (List ℚ) × List ℚ :=
  let maxRow := pivotSelect MR.1 i n
  let M1 := swapL MR.1 i maxRow
  let R1 := swapL MR.2 i maxRow
  if |getE M1 i i| < 1/10000000000 then (M1, R1)
  else elimBelow (M1, R1) i n

/-- Full forward elimination over pivot columns `0 .. n-1`. -/
def forwardElim (M : List (List ℚ)) (R : List ℚ) (n : Nat) :
    List (List ℚ) × List ℚ :=
  (List.range n).foldl (fun MR i => fwdStep MR i n) (M, R)

/-- One backward-substitution step for row `i`: skip when
`|M[i][i]| < 1e-10` (the unknown keeps its zero initialisation), else
`x[i] = (R[i] - sum_{j>i} M[i][j]*x[j]) / M[i][i]`. -/
def backStep (M : List (List ℚ)) (R : List ℚ) (x : List ℚ) (i n : Nat) :
    List ℚ :=
  if |getE M i i| < 1/10000000000 then x
  else
    let sum := (List.range' (i+1) (n - (i+1))).foldl
      (fun s j => s + getE M i j * x.getD j 0) 0
    x.set i ((R.getD i 0 - sum) / getE M i i)

/-- Backward substitution from the last row upward, starting from the
all-zero vector. -/
def backSolve (M : List (List ℚ)) (R : List ℚ) (n : Nat) : List ℚ :=
  (List.range n).foldl (fun x t => backStep M R x (n - 1 - t) n)
    (List.replicate n 0)

/-- `solveLinearSystem(A, B)` of engine.js.  The source deep-copies `A.data`
and `B` and mutates the copies; in the pure embedding the copies are the
values themselves. -/
def solveLinearSystem (A : Matrix) (B : List ℚ) : List ℚ :=
  let n := A.rows
  let MR := forwardElim A.data B n
  backSolve MR.1 MR.2 n

/-- The forward-elimination state after the pivot columns `0 .. i-1` have
been processed (so `fwdUpTo A B A.rows = forwardElim A.data B A.rows`). -/
def fwdUpTo (A : Matrix) (B : List ℚ) (i : Nat) :
    List (List ℚ) × List ℚ :=
  (List.range i).foldl (fun MR k => fwdStep MR k A.rows) (A.data, B)

/-! ## `CircuitEngine.solve`: one pass (assemble, solve, update) -/

/-- `this.nodes.filter(n => !n.isGND)`. -/
def activeNodes (st : CircuitEngine) : List Nat :=
  st.nodes.filter (fun r => !(st.nodeStore.getD r defaultNode).isGND)

/-- Number of components of kind battery (`M` in the source). -/
def batCount (st : CircuitEngine) : Nat :=
  (st.components.filter
    (fun r => (st.compStore.getD r defaultComponent).type = "battery")).length

/-- The `nodeMap`: pairs `(node.id, index)` over the active nodes. -/
def nodePairs (st : CircuitEngine) (active : List Nat) : List (String × Nat) :=
  active.enum.map (fun p => ((st.nodeStore.getD p.2 defaultNode).id, p.1))

/-- JS `Map` lookup where later `set`s win: the last matching pair. -/
def lookupLast (l : List (String × Nat)) (k : String) : Option Nat :=
  l.foldl (fun acc p => if p.1 = k then some p.2 else acc) none

/-- `getIdx`: `-1` (here `none`) for a null node, a ground node, or an id
missing from the node map; otherwise the active-node index. -/
def getIdx (st : CircuitEngine) (pairs : List (String × Nat))
    (slot : Option Nat) : Option Nat :=
  match slot with
  | none => none
  | some r =>
    let nd := st.nodeStore.getD r defaultNode
    if nd.isGND then none else lookupLast pairs nd.id

/-- Voltage of the node in a terminal slot, `0` for a null slot
(`comp.nodes[k] ? comp.nodes[k].voltage : 0`). -/
def slotV (store : List Node) (slot : Option Nat) : ℚ :=
  match slot with
  | some r => (store.getD r defaultNode).voltage
  | none => 0

/-- The resistance value a standard (non-battery, non-spdt) component is
stamped with at pass `iter`: the stored resistance, overridden for
switch/pushbutton by the open/closed rule and for led (after the first
pass) by the 0.5 V threshold on the previous pass's terminal voltages,
then floor-clamped to 1e-6. -/
def stampR (st : CircuitEngine) (iter : Nat) (c : Component) : ℚ :=
  let R0 := c.resistance
  let R1 := if c.type = "switch" ∨ c.type = "pushbutton" then
      (if c.isOpen then 1000000000 else 1/1000) else R0
  let R2 := if c.type = "led" then
      (if iter > 0 then
        (let drop := slotV st.nodeStore (c.nodes.getD 0 none) -
                     slotV st.nodeStore (c.nodes.getD 1 none)
         if drop > 1/2 then 90 else 10000000)
       else R1)
    else R1
  if R2 < 1/1000000 then 1/1000000 else R2

/-- Two-terminal conductance stamp: add `g` to both diagonal entries and
subtract `g` from both off-diagonal entries, skipping ground (`none`)
terminals.  This is the stamping pattern the source repeats for spdt
targets and for standard components. -/
def stampG (A : Matrix) (i j : Option Nat) (g : ℚ) : Matrix :=
  let A1 := match i with
    | some ii => A.set ii ii (A.get ii ii + g)
    | none => A
  let A2 := match j with
    | some jj => A1.set jj jj (A1.get jj jj + g)
    | none => A1
  match i, j with
  | some ii, some jj =>
    let A3 := A2.set ii jj (A2.get ii jj - g)
    A3.set jj ii (A3.get jj ii - g)
  | _, _ => A2

/-- The body of the `--- Fill Matrix ---` `forEach`: stamp one component
into the accumulating `(A, Z, vSourceIndex)`. -/
def stampComponent (st : CircuitEngine) (pairs : List (String × Nat))
    (N : Nat) (iter : Nat) (acc : Matrix × List ℚ × Nat) (ref : Nat) :
    Matrix × List ℚ × Nat :=
  let c := st.compStore.getD ref defaultComponent
  let A := acc.1
  let Z := acc.2.1
  let vIdx := acc.2.2
  if c.type = "battery" then
    let i := getIdx st pairs (c.nodes.getD 0 none)
    let j := getIdx st pairs (c.nodes.getD 1 none)
    let row := N + vIdx
    let A1 := match i with
      | some ii => (A.set row ii 1).set ii row 1
      | none => A
    let A2 := match j with
      | some jj => (A1.set row jj (-1)).set jj row (-1)
      | none => A1
    (A2, Z.set row c.voltage, vIdx + 1)
  else if c.type = "spdt" then
    let cIdx := getIdx st pairs (c.nodes.getD 0 none)
    let step := fun (A : Matrix) (tidx : Nat) (closed : Bool) =>
      let R : ℚ := if closed then 1/1000 else 1000000000
      let g := 1/R
      let tIdx := getIdx st pairs (c.nodes.getD tidx none)
      stampG A cIdx tIdx g
    let A1 := step A 1 (c.spdtState = some 0)
    let A2 := step A1 2 (c.spdtState = some 1)
    (A2, Z, vIdx)
  else
    let R := stampR st iter c
    let g := 1/R
    let n1 := c.nodes.getD 0 none
    let n2 := c.nodes.getD 1 none
    if n1.isSome || n2.isSome then
      (stampG A (getIdx st pairs n1) (getIdx st pairs n2) g, Z, vIdx)
    else (A, Z, vIdx)

/-- Recursion over component references for the fill-matrix loop. -/
def stampFold (st : CircuitEngine) (pairs : List (String × Nat))
    (N : Nat) (iter : Nat) (acc : Matrix × List ℚ × Nat) :
    List Nat → Matrix × List ℚ × Nat
  | [] => acc
  | ref :: rest =>
    stampFold st pairs N iter (stampComponent st pairs N iter acc ref) rest

/-- Assemble the MNA system for one pass: the `size × size` matrix with the
1e-12 leakage diagonal, then every component's stamp. -/
def assembleSystem (st : CircuitEngine) (active : List Nat) (N size : Nat)
    (iter : Nat) : Matrix × List ℚ × Nat :=
  let A0 := (List.range N).foldl
    (fun A i => A.set i i (1/1000000000000)) (Matrix.mk0 size size)
  let pairs := nodePairs st active
  stampFold st pairs N iter (A0, List.replicate size 0, 0) st.components

/-- Body of `--- Update Voltages ---` over an already-enumerated list of
`(index, node reference)` pairs. -/
def updateVoltagesAux (result : List ℚ) (acc : List Node × ℚ) :
    List (Nat × Nat) → List Node × ℚ
  | [] => acc
  | p :: rest =>
    let nd := acc.1.getD p.2 defaultNode
    let newV := result.getD p.1 0
    let diff := |nd.voltage - newV|
    updateVoltagesAux result
      (acc.1.set p.2 { nd with voltage := newV },
       if diff > acc.2 then diff else acc.2) rest

/-- `--- Update Voltages ---`: write each solved voltage into its active
node and track the largest absolute change. -/
def updateVoltages (store : List Node) (active : List Nat)
    (result : List ℚ) : List Node × ℚ :=
  updateVoltagesAux result (store, 0) active.enum

/-- Force every ground node in `this.nodes` back to 0 V. -/
def forceGND (store : List Node) : List Nat → List Node
  | [] => store
  | r :: rest =>
    let nd := store.getD r defaultNode
    forceGND (if nd.isGND then store.set r { nd with voltage := 0 }
              else store) rest

/-- Number of batteries strictly before the first occurrence of `target`
in the component list (the `for c of this.components` scan). -/
def batIndexOf (store : List Component) : List Nat → Nat → Nat
  | [], _ => 0
  | r :: rest, target =>
    if r = target then 0
    else (if (store.getD r defaultComponent).type = "battery" then 1 else 0) +
      batIndexOf store rest target

/-- The current written for a non-battery component: the spdt active-path
rule, or `(v1 - v2)/R` with `R` recomputed from the freshly updated
voltages (switch/pushbutton open-closed rule, led 0.5 V threshold, and no
1e-6 floor clamp). -/
def nonBatteryCurrent (storeN : List Node) (c : Component) : ℚ :=
  let v1 := slotV storeN (c.nodes.getD 0 none)
  let v2 := slotV storeN (c.nodes.getD 1 none)
  if c.type = "spdt" then
    let idx := if c.spdtState = some 0 then 1 else 2
    let vTarget := slotV storeN (c.nodes.getD idx none)
    let vCommon := slotV storeN (c.nodes.getD 0 none)
    (vCommon - vTarget) / (1/1000)
  else
    let R0 := c.resistance
    let R1 := if c.type = "switch" ∨ c.type = "pushbutton" then
        (if c.isOpen then 1000000000 else 1/1000) else R0
    let R2 := if c.type = "led" then
        (if v1 - v2 > 1/2 then 90 else 10000000) else R1
    (v1 - v2) / R2

def updateOneCurrent (storeN : List Node) (comps : List Nat)
    (result : List ℚ) (N : Nat) (cs : List Component) (ref : Nat) :
    List Component :=
  let c := cs.getD ref defaultComponent
  let cur :=
    if c.type = "battery" then
      result.getD (N + batIndexOf cs comps ref) 0
    else nonBatteryCurrent storeN c
  cs.set ref { c with current := cur }

/-- Recursion over the remaining component references. -/
def updateCurrentsAux (storeN : List Node) (comps : List Nat)
    (result : List ℚ) (N : Nat) (cs : List Component) :
    List Nat → List Component
  | [] => cs
  | ref :: rest =>
    updateCurrentsAux storeN comps result N
      (updateOneCurrent storeN comps result N cs ref) rest

def updateCurrents (storeN : List Node) (comps : List Nat)
    (result : List ℚ) (N : Nat) (cs0 : List Component) : List Component :=
  updateCurrentsAux storeN comps result N cs0 comps

/-- One iteration of the solver loop: `none` when `size = 0` (the early
`return`), else the updated state together with that pass's `maxChange`. -/
def runPass (st : CircuitEngine) (iter : Nat) :
    Option (CircuitEngine × ℚ) :=
  let active := activeNodes st
  let N := active.length
  let M := batCount st
  let size := N + M
  if size = 0 then none
  else
    let AZ := assembleSystem st active N size iter
    let result := solveLinearSystem AZ.1 AZ.2.1
    let upd := updateVoltages st.nodeStore active result
    let storeG := forceGND upd.1 st.nodes
    let cs := updateCurrents storeG st.components result N st.compStore
    some ({ st with nodeStore := storeG, compStore := cs }, upd.2)

/-- The iteration loop with explicit fuel (`maxIterations = 10`).  Returns
the final state and the number of passes executed. -/
def solveAux : Nat → Nat → CircuitEngine → CircuitEngine × Nat
  | 0, iter, st => (st, iter)
  | fuel + 1, iter, st =>
    match runPass st iter with
    | none => (st, iter)
    | some (st1, mc) =>
      if iter > 0 ∧ mc < 1/1000 then (st1, iter + 1)
      else solveAux fuel (iter + 1) st1

/-- `CircuitEngine.solve` together with the executed pass count. -/
def solveCounted (st : CircuitEngine) : CircuitEngine × Nat :=
  solveAux 10 0 st

/-- `CircuitEngine.solve()`. -/
def solve (st : CircuitEngine) : CircuitEngine :=
  (solveCounted st).1

/-- The state after `k` passes when no early break fires (the pass
sequence the iteration controller walks through). -/
def passState (st : CircuitEngine) : Nat → CircuitEngine
  | 0 => st
  | k + 1 =>
    match runPass (passState st k) k with
    | some p => p.1
    | none => passState st k

/-- The `maxChange` produced by pass `k` of the pass sequence. -/
def passMC (st : CircuitEngine) (k : Nat) : ℚ :=
  match runPass (passState st k) k with
  | some p => p.2
  | none => 0

/-! ## `rebuildCircuit`: union-find over the node store -/

/-- Path-compressing `find` on the node store, with fuel.  Mirrors
`find(n){ if (n.parent !== n) n.parent = find(n.parent); return n.parent }`:
on any parent forest (the only shape the code builds, since `union` only
re-parents a root to a different root) a fuel of the store size is enough
to reach the root. -/
def findN : Nat → List Node → Nat → List Node × Nat
  | 0, s, x => (s, x)
  | fuel + 1, s, x =>
    let nd := s.getD x defaultNode
    if nd.parent = x then (s, x)
    else
      let res := findN fuel s nd.parent
      let s1 := res.1
      let r := res.2
      (s1.set x { s1.getD x defaultNode with parent := r }, r)

/-- `union(n1, n2)`: find both roots; re-parent the first root onto the
second when they differ. -/
def unionN (s : List Node) (a b : Nat) : List Node :=
  let f1 := findN s.length s a
  let f2 := findN f1.1.length f1.1 b
  let s2 := f2.1
  let r1 := f1.2
  let r2 := f2.2
  if r1 ≠ r2 then s2.set r1 { s2.getD r1 defaultNode with parent := r2 }
  else s2

/-- The fresh nodes created for one component's terminals: self-parented,
0 V, not ground, ids `n_<cid>_<i>`. -/
def freshNodesFor (cid : String) (base termCount : Nat) : List Node :=
  (List.range termCount).map
    (fun i => { id := "n_" ++ cid ++ "_" ++ toString i, voltage := 0,
                isGND := false, parent := base + i })

/-- Step 1 of `rebuildCircuit`: for every component in the engine's list,
clear its terminal slots and allocate one fresh node per terminal (3 for
spdt, 2 otherwise).  Components not in the list keep their old slots. -/
def phase1Step (s : CircuitEngine) (ref : Nat) : CircuitEngine :=
  let c := s.compStore.getD ref defaultComponent
  let termCount := if c.type = "spdt" then 3 else 2
  let base := s.nodeStore.length
  let slots := (List.range termCount).map (fun i => some (base + i))
  { s with
    nodeStore := s.nodeStore ++ freshNodesFor c.id base termCount,
    compStore := s.compStore.set ref { c with nodes := slots } }

def phase1Aux (s : CircuitEngine) : List Nat → CircuitEngine
  | [] => s
  | ref :: rest => phase1Aux (phase1Step s ref) rest

def phase1 (st : CircuitEngine) : CircuitEngine :=
  phase1Aux st st.components

/-- Step 3: process one visual wire.  The source's guard
`w.startComp && w.startComp.nodes[w.startTerm] && …` skips the union only
when a terminal slot holds no node object (missing index or null); a
removed component that still carries node references passes the guard. -/
def wireStep (cs : List Component) (s : List Node) (w : Wire) :
    List Node :=
  let sc := cs.getD w.startComp defaultComponent
  let ec := cs.getD w.endComp defaultComponent
  match sc.nodes.getD w.startTerm none, ec.nodes.getD w.endTerm none with
  | some a, some b => unionN s a b
  | _, _ => s

/-- Step 3 over the whole wire list. -/
def processWires (cs : List Component) (s : List Node) :
    List Wire → List Node
  | [] => s
  | w :: rest => processWires cs (wireStep cs s w) rest

/-- The inner loop of step 4: find the root of each terminal slot in turn,
threading the path-compressed store. -/
def findSlots (acc : List Node × List (Option Nat)) :
    List (Option Nat) → List Node × List (Option Nat)
  | [] => acc
  | slot :: rest =>
    match slot with
    | some x =>
      let fr := findN acc.1.length acc.1 x
      findSlots (fr.1, acc.2 ++ [some fr.2]) rest
    | none => findSlots (acc.1, acc.2 ++ [none]) rest

def phase4Step (s : CircuitEngine) (ref : Nat) : CircuitEngine :=
  let c := s.compStore.getD ref defaultComponent
  let res := findSlots (s.nodeStore, []) c.nodes
  { s with nodeStore := res.1,
           compStore := s.compStore.set ref { c with nodes := res.2 } }

def phase4Aux (s : CircuitEngine) : List Nat → CircuitEngine
  | [] => s
  | ref :: rest => phase4Aux (phase4Step s ref) rest

/-- Step 4: replace every terminal slot of every listed component by the
union-find root of its node (path compression updates the store). -/
def phase4 (st : CircuitEngine) : CircuitEngine :=
  phase4Aux st st.components

/-- Insert the references of one slot list into the accumulating set. -/
def collectSlots (acc : List Nat) : List (Option Nat) → List Nat
  | [] => acc
  | slot :: rest =>
    match slot with
    | some r => collectSlots (if r ∈ acc then acc else acc ++ [r]) rest
    | none => collectSlots acc rest

def collectNodesAux (cs : List Component) (acc : List Nat) :
    List Nat → List Nat
  | [] => acc
  | ref :: rest =>
    collectNodesAux cs
      (collectSlots acc (cs.getD ref defaultComponent).nodes) rest

/-- Step 5a: collect the distinct node references still held by any listed
component, in first-insertion order (the JS `Set`). -/
def collectNodes (st : CircuitEngine) : List Nat :=
  collectNodesAux st.compStore [] st.components

/-- Step 5b over enumerated `(position, reference)` pairs. -/
def assignIdsAux (store : List Node) : List (Nat × Nat) → List Node
  | [] => store
  | p :: rest =>
    let nd := store.getD p.2 defaultNode
    assignIdsAux (store.set p.2 { nd with id := "node_" ++ toString p.1 })
      rest

/-- Step 5b: reassign debug ids `node_<i>` along the collected list. -/
def assignIds (store : List Node) (nodes : List Nat) : List Node :=
  assignIdsAux store nodes.enum

/-- Step 6: ground the node in terminal slot 1 of the first battery. -/
def phase6 (st : CircuitEngine) : CircuitEngine :=
  match st.components.find?
      (fun r => (st.compStore.getD r defaultComponent).type = "battery") with
  | some bref =>
    match (st.compStore.getD bref defaultComponent).nodes.getD 1 none with
    | some nref =>
      let nd := st.nodeStore.getD nref defaultNode
      { st with nodeStore := st.nodeStore.set nref { nd with isGND := true } }
    | none => st
  | none => st

/-- `rebuildCircuit()` up to (but not including) the final
`engine.solve()`: fresh nodes, wire unions, root rewriting, node-list
collection, id assignment, grounding. -/
def rebuildPre (st : CircuitEngine) : CircuitEngine :=
  let s1 := phase1 st
  let s3 := { s1 with
    nodeStore := processWires s1.compStore s1.nodeStore s1.visualWires }
  let s4 := phase4 s3
  let s5 := { s4 with nodes := collectNodes s4 }
  let s5b := { s5 with nodeStore := assignIds s5.nodeStore s5.nodes }
  phase6 s5b

/-- `rebuildCircuit()` of the UI controller, ending in `engine.solve()`. -/
def rebuildCircuit (st : CircuitEngine) : CircuitEngine :=
  solve (rebuildPre st)

/-- `rebuildPre` with the component list and wire list the phases consult
made explicit parameters (they are invariant across the phases, so this
is the same function — a staging device for relating two runs). -/
def rebuildStaged (e : CircuitEngine) (c : List Nat) (ws : List Wire) :
    CircuitEngine :=
  let s1 := phase1Aux e c
  let s3 := { s1 with
    nodeStore := processWires s1.compStore s1.nodeStore ws }
  let s4 := phase4Aux s3 c
  let nodesl := collectNodesAux s4.compStore [] c
  let s5b := { s4 with nodes := nodesl, nodeStore := assignIds s4.nodeStore nodesl }
  phase6 s5b

/-! ## Frame relations and reachability side conditions -/

/-- `b` equals `a` on every field except possibly `voltage`. -/
def nodeFrame (a b : Node) : Prop :=
  b = { a with voltage := b.voltage }

/-- `b` equals `a` on every field except possibly `current`. -/
def compFrame (a b : Component) : Prop :=
  b = { a with current := b.current }

/-- Every visual wire names components that are still in the engine's
component list.  The UI maintains this invariant: deleting a component also
filters `visualWires`, and wires are only ever created between live
components. -/
def wiresLive (st : CircuitEngine) : Prop :=
  ∀ w ∈ st.visualWires,
    w.startComp ∈ st.components ∧ w.endComp ∈ st.components

/-- The solver's frame: `b` differs from `a` at most in node voltages and
component currents; the stores keep their lengths and the three reference
lists are untouched. -/
def engineFrame (a b : CircuitEngine) : Prop :=
  b.components = a.components ∧ b.nodes = a.nodes ∧
  b.visualWires = a.visualWires ∧
  b.nodeStore.length = a.nodeStore.length ∧
  (∀ r, nodeFrame (a.nodeStore.getD r defaultNode)
    (b.nodeStore.getD r defaultNode)) ∧
  b.compStore.length = a.compStore.length ∧
  (∀ r, compFrame (a.compStore.getD r defaultComponent)
    (b.compStore.getD r defaultComponent))

/-! ## Concrete example states -/

/-- A battery and an LED in a closed loop, in post-rebuild shape (two
canonical nodes, the battery's negative node grounded), voltages fresh. -/
def exLED : CircuitEngine :=
  { nodeStore := [⟨"node_0", 0, false, 0⟩, ⟨"node_1", 0, true, 1⟩],
    compStore :=
      [{ mkComponent "c0" "battery" 0 0 with nodes := [some 0, some 1] },
       { mkComponent "c1" "led" 0 0 with nodes := [some 0, some 1] }],
    components := [0, 1], nodes := [0, 1], visualWires := [] }

/-- A state whose only node is ground and whose only component is a
resistor: zero unknowns, so `solve` must leave it untouched. -/
def exZeroSize : CircuitEngine :=
  { nodeStore := [⟨"node_0", 5, true, 0⟩],
    compStore := [{ mkComponent "c0" "resistor" 0 0 with
                    nodes := [some 0, some 0], current := 7 }],
    components := [0], nodes := [0], visualWires := [] }

/-- Pre-rebuild state: a battery and a resistor wired into a loop. -/
def exLoop : CircuitEngine :=
  { nodeStore := [],
    compStore := [mkComponent "c0" "battery" 0 0,
                  mkComponent "c1" "resistor" 0 0],
    components := [0, 1], nodes := [],
    visualWires := [⟨0, 0, 1, 0⟩, ⟨0, 1, 1, 1⟩] }

/-- Three resistors with two wires chaining terminal 0 of A and of B
through terminal 0 of C. -/
def exChain : CircuitEngine :=
  { nodeStore := [],
    compStore := [mkComponent "cA" "resistor" 0 0,
                  mkComponent "cB" "resistor" 0 0,
                  mkComponent "cC" "resistor" 0 0],
    components := [0, 1, 2], nodes := [],
    visualWires := [⟨0, 0, 2, 0⟩, ⟨2, 0, 1, 0⟩] }

/-- `exChain` after one rebuild (this literal state is exactly
`rebuildCircuit exChain`: six allocated nodes, terminals rewritten to the
union-find roots 2, 1, 3, 5, all voltages and currents 0), with component
`cC` removed from the component list but the two wires naming it left in
place: the scenario the spec calls a "connection edge naming a removed
component".  `cC` still holds its stale node references `[some 2, some 5]`
from the rebuild. -/
def exStale : CircuitEngine :=
  { nodeStore :=
      [⟨"n_cA_0", 0, false, 2⟩, ⟨"node_1", 0, false, 1⟩,
       ⟨"node_0", 0, false, 2⟩, ⟨"node_2", 0, false, 3⟩,
       ⟨"n_cC_0", 0, false, 2⟩, ⟨"node_3", 0, false, 5⟩],
    compStore :=
      [{ mkComponent "cA" "resistor" 0 0 with nodes := [some 2, some 1] },
       { mkComponent "cB" "resistor" 0 0 with nodes := [some 2, some 3] },
       { mkComponent "cC" "resistor" 0 0 with nodes := [some 2, some 5] }],
    components := [0, 1], nodes := [2, 1, 3, 5],
    visualWires := [⟨0, 0, 2, 0⟩, ⟨2, 0, 1, 0⟩] }

/-- `exStale` with the two offending edges dropped instead: what the
silently-skipped reading of the spec predicts `exStale` behaves like. -/
def exStaleNoWires : CircuitEngine :=
  { exStale with visualWires := [] }

/-- The result of the first pass on the battery-LED loop. -/
def exLEDpass : CircuitEngine × ℚ :=
  (runPass exLED 0).getD (exLED, 0)

/-! ## Checked evaluation (C9)

A mirror of the solver in the `Except` monad that raises an explicit
error at every raw row-indexing site — the only places where the
JavaScript could throw (`this.data[r][c]` in `Matrix.get`, and the
`M[k][i]`-style accesses of `solveLinearSystem`; all other nullable
accesses in `solve` are guarded by the source itself and are modelled
with `Option`).  Proving the mirror always returns `Except.ok` of the
total model's value formalises "solve() never throws". -/

/-- Read entry `(r, c)` with the JS `TypeError` made explicit: a missing
row is an error; a present row is read totally (a column read of a
present row yields `undefined`, which JS arithmetic absorbs without
throwing — and stays in range in these executions anyway). -/
def getEC (m : List (List ℚ)) (r c : Nat) : Except Unit ℚ :=
  if r < m.length then Except.ok (getE m r c) else Except.error ()

/-- Read row `r` (`M[k]` used as the base of compound assignments). -/
def rowC (m : List (List ℚ)) (r : Nat) : Except Unit (List ℚ) :=
  if r < m.length then Except.ok (m.getD r []) else Except.error ()

def pivotSelectC (M : List (List ℚ)) (i n : Nat) : Except Unit Nat :=
  (List.range' (i+1) (n - (i+1))).foldlM
    (fun maxRow k => do
      let a ← getEC M k i
      let b ← getEC M maxRow i
      pure (if |a| > |b| then k else maxRow)) i

def elimStepC (i n : Nat) (MR : List (List ℚ) × List ℚ) (k : Nat) :
    Except Unit (List (List ℚ) × List ℚ) := do
  let M := MR.1
  let R := MR.2
  let mki ← getEC M k i
  let mii ← getEC M i i
  let factor := mki / mii
  let R1 := R.set k (R.getD k 0 - factor * R.getD i 0)
  let row0 ← rowC M k
  let row1 ← (List.range' i (n - i)).foldlM
    (fun row j => do
      let mij ← getEC M i j
      pure (row.set j (row.getD j 0 - factor * mij))) row0
  pure (M.set k row1, R1)

def fwdStepC (MR : List (List ℚ) × List ℚ) (i n : Nat) :
    Except Unit (List (List ℚ) × List ℚ) := do
  let maxRow ← pivotSelectC MR.1 i n
  let M1 := swapL MR.1 i maxRow
  let R1 := swapL MR.2 i maxRow
  let piv ← getEC M1 i i
  if |piv| < 1/10000000000 then pure (M1, R1)
  else (List.range' (i+1) (n - (i+1))).foldlM (elimStepC i n) (M1, R1)

def backStepC (M : List (List ℚ)) (R : List ℚ) (x : List ℚ) (i n : Nat) :
    Except Unit (List ℚ) := do
  let mii ← getEC M i i
  if |mii| < 1/10000000000 then pure x
  else do
    let sum ← (List.range' (i+1) (n - (i+1))).foldlM
      (fun s j => do
        let mij ← getEC M i j
        pure (s + mij * x.getD j 0)) (0 : ℚ)
    pure (x.set i ((R.getD i 0 - sum) / mii))

def solveLinearSystemC (A : Matrix) (B : List ℚ) :
    Except Unit (List ℚ) := do
  let n := A.rows
  let MR ← (List.range n).foldlM (fun MR i => fwdStepC MR i n) (A.data, B)
  (List.range n).foldlM (fun x t => backStepC MR.1 MR.2 x (n - 1 - t) n)
    (List.replicate n 0)

/-- `Matrix.get` with the missing-row throw made explicit. -/
def MgetC (A : Matrix) (r c : Nat) : Except Unit ℚ :=
  getEC A.data r c

def stampGC (A : Matrix) (i j : Option Nat) (g : ℚ) :
    Except Unit Matrix := do
  let A1 ← match i with
    | some ii => do
      let v ← MgetC A ii ii
      pure (A.set ii ii (v + g))
    | none => pure A
  let A2 ← match j with
    | some jj => do
      let v ← MgetC A1 jj jj
      pure (A1.set jj jj (v + g))
    | none => pure A1
  match i, j with
  | some ii, some jj => do
    let v3 ← MgetC A2 ii jj
    let A3 := A2.set ii jj (v3 - g)
    let v4 ← MgetC A3 jj ii
    pure (A3.set jj ii (v4 - g))
  | _, _ => pure A2

def stampComponentC (st : CircuitEngine) (pairs : List (String × Nat))
    (N : Nat) (iter : Nat) (acc : Matrix × List ℚ × Nat) (ref : Nat) :
    Except Unit (Matrix × List ℚ × Nat) := do
  let c := st.compStore.getD ref defaultComponent
  let A := acc.1
  let Z := acc.2.1
  let vIdx := acc.2.2
  if c.type = "battery" then
    let i := getIdx st pairs (c.nodes.getD 0 none)
    let j := getIdx st pairs (c.nodes.getD 1 none)
    let row := N + vIdx
    let A1 := match i with
      | some ii => (A.set row ii 1).set ii row 1
      | none => A
    let A2 := match j with
      | some jj => (A1.set row jj (-1)).set jj row (-1)
      | none => A1
    pure (A2, Z.set row c.voltage, vIdx + 1)
  else if c.type = "spdt" then do
    let cIdx := getIdx st pairs (c.nodes.getD 0 none)
    let stepC := fun (A : Matrix) (tidx : Nat) (closed : Bool) =>
      let R : ℚ := if closed then 1/1000 else 1000000000
      let g := 1/R
      let tIdx := getIdx st pairs (c.nodes.getD tidx none)
      stampGC A cIdx tIdx g
    let A1 ← stepC A 1 (c.spdtState = some 0)
    let A2 ← stepC A1 2 (c.spdtState = some 1)
    pure (A2, Z, vIdx)
  else
    let R := stampR st iter c
    let g := 1/R
    let n1 := c.nodes.getD 0 none
    let n2 := c.nodes.getD 1 none
    if n1.isSome || n2.isSome then do
      let A1 ← stampGC A (getIdx st pairs n1) (getIdx st pairs n2) g
      pure (A1, Z, vIdx)
    else pure (A, Z, vIdx)

def assembleSystemC (st : CircuitEngine) (active : List Nat)
    (N size : Nat) (iter : Nat) : Except Unit (Matrix × List ℚ × Nat) :=
  let A0 := (List.range N).foldl
    (fun A i => A.set i i (1/1000000000000)) (Matrix.mk0 size size)
  let pairs := nodePairs st active
  st.components.foldlM (stampComponentC st pairs N iter)
    (A0, List.replicate size 0, 0)

def runPassC (st : CircuitEngine) (iter : Nat) :
    Except Unit (Option (CircuitEngine × ℚ)) :=
  let active := activeNodes st
  let N := active.length
  let M := batCount st
  let size := N + M
  if size = 0 then pure none
  else do
    let AZ ← assembleSystemC st active N size iter
    let result ← solveLinearSystemC AZ.1 AZ.2.1
    let upd := updateVoltages st.nodeStore active result
    let storeG := forceGND upd.1 st.nodes
    let cs := updateCurrents storeG st.components result N st.compStore
    pure (some ({ st with nodeStore := storeG, compStore := cs }, upd.2))

def solveAuxC : Nat → Nat → CircuitEngine →
    Except Unit (CircuitEngine × Nat)
  | 0, iter, st => pure (st, iter)
  | fuel + 1, iter, st => do
    match ← runPassC st iter with
    | none => pure (st, iter)
    | some (st1, mc) =>
      if iter > 0 ∧ mc < 1/1000 then pure (st1, iter + 1)
      else solveAuxC fuel (iter + 1) st1

/-- `CircuitEngine.solve` in the checked mirror. -/
def solveC (st : CircuitEngine) : Except Unit (CircuitEngine × Nat) :=
  solveAuxC 10 0 st

/-- Shape invariant carried through assembly: the matrix is `size × size`
and its row list really has `size` rows. -/
def Mdims (A : Matrix) (size : Nat) : Prop :=
  A.rows = size ∧ A.cols = size ∧ A.data.length = size

/-! ## Union-find well-formedness (C6)

The parent pointers of every store the program ever builds form a forest:
fresh nodes are self-parented, `union` re-parents one root onto another,
and `find` re-parents non-roots straight onto their root.  `WFstore`
captures this with a strictly-decreasing measure whose value always
leaves room for the root count — the exact budget `union` pays for
(one root disappears each time the forest deepens by one). -/

/-- `n.parent === n`: the node is a union-find root. -/
def isRoot (s : List Node) (x : Nat) : Prop :=
  (s.getD x defaultNode).parent = x

/-- Number of root nodes in the store. -/
def countRoots (s : List Node) : Nat :=
  (List.range s.length).countP
    (fun x => (s.getD x defaultNode).parent == x)

/-- `d` is a union-find measure for the store: every non-root's parent is
in range and strictly smaller in measure. -/
def measOK (s : List Node) (d : Nat → Nat) : Prop :=
  ∀ x, x < s.length → (s.getD x defaultNode).parent ≠ x →
    (s.getD x defaultNode).parent < s.length ∧
    d ((s.getD x defaultNode).parent) < d x

/-- Union-find well-formedness of a node store. -/
def WFstore (s : List Node) : Prop :=
  ∃ d : Nat → Nat, measOK s d ∧
    ∀ x, x < s.length → d x + countRoots s ≤ s.length

/-- Every component record's terminal slots point into the node store (in
the JS heap a non-null slot holds a real `Node` object). -/
def slotsWF (st : CircuitEngine) : Prop :=
  ∀ c ∈ st.compStore, ∀ r : Nat, some r ∈ c.nodes →
    r < st.nodeStore.length

/-- Heap well-formedness of an engine state. -/
def engineWF (st : CircuitEngine) : Prop :=
  WFstore st.nodeStore ∧ slotsWF st

/-! ## Shift simulation (C7)

A second `rebuildCircuit` run allocates its fresh node block at a higher
base address but otherwise replays the first run move for move.  The
relations below connect the two runs: positions `L0 + i` of the first
run's store correspond to positions `L1 + i` of the second run's store,
node references shift by `x ↦ x - L0 + L1`, and everything the solver
reads (ids, voltages, ground flags, component fields) is equal across
the correspondence. -/

/-- Shift a terminal slot from the first run's block to the second's. -/
def slotShift (L0 L1 : Nat) (sl : Option Nat) : Option Nat :=
  sl.map (fun x => x - L0 + L1)

/-- The two stores agree on their blocks `[L0, L0+F)` / `[L1, L1+F)`:
equal ids, voltages and ground flags, and parent pointers that stay in
the block and shift with it. -/
def blockSim (L0 L1 F : Nat) (s1 s2 : List Node) : Prop :=
  s1.length = L0 + F ∧ s2.length = L1 + F ∧
  ∀ i, i < F →
    (s2.getD (L1 + i) defaultNode).id =
      (s1.getD (L0 + i) defaultNode).id ∧
    (s2.getD (L1 + i) defaultNode).voltage =
      (s1.getD (L0 + i) defaultNode).voltage ∧
    (s2.getD (L1 + i) defaultNode).isGND =
      (s1.getD (L0 + i) defaultNode).isGND ∧
    L0 ≤ (s1.getD (L0 + i) defaultNode).parent ∧
    (s1.getD (L0 + i) defaultNode).parent < L0 + F ∧
    (s2.getD (L1 + i) defaultNode).parent =
      (s1.getD (L0 + i) defaultNode).parent - L0 + L1

/-- The two component records agree on every field the solver reads;
terminal slots shift with the block (currents are solver output and are
not compared). -/
def compSim (L0 L1 : Nat) (a b : Component) : Prop :=
  b.id = a.id ∧ b.type = a.type ∧ b.resistance = a.resistance ∧
  b.voltage = a.voltage ∧ b.isOpen = a.isOpen ∧
  b.spdtState = a.spdtState ∧ b.nodes = a.nodes.map (slotShift L0 L1)

/-- All of a component's non-null terminal slots lie in the block. -/
def slotsInBlock (L0 F : Nat) (c : Component) : Prop :=
  ∀ x : Nat, some x ∈ c.nodes → L0 ≤ x ∧ x < L0 + F

/-- Two engine states replaying each other up to the block shift. -/
def engineSim (L0 L1 F : Nat) (a b : CircuitEngine) : Prop :=
  blockSim L0 L1 F a.nodeStore b.nodeStore ∧
  b.components = a.components ∧
  b.visualWires = a.visualWires ∧
  b.nodes = a.nodes.map (fun x => x - L0 + L1) ∧
  b.compStore.length = a.compStore.length ∧
  (∀ ref ∈ a.components,
    compSim L0 L1 (a.compStore.getD ref defaultComponent)
      (b.compStore.getD ref defaultComponent) ∧
    slotsInBlock L0 F (a.compStore.getD ref defaultComponent)) ∧
  (∀ r ∈ a.nodes, L0 ≤ r ∧ r < L0 + F)

/-- Agreement on the fields `rebuildCircuit`'s phase 1 reads. -/
def compIdType (a b : Component) : Prop :=
  b.id = a.id ∧ b.type = a.type

/-- Agreement on every solver-read component field (terminal slots and
the solver-output current excluded). -/
def compPre (a b : Component) : Prop :=
  b.id = a.id ∧ b.type = a.type ∧ b.resistance = a.resistance ∧
  b.voltage = a.voltage ∧ b.isOpen = a.isOpen ∧
  b.spdtState = a.spdtState

/-! # Theorems -/

/-! ## List access helpers -/

theorem getD_set {α : Type} (l : List α) (i j : Nat) (v d : α) :
    (l.set i v).getD j d = if j = i ∧ i < l.length then v else l.getD j d := by
  rcases Nat.lt_or_ge i l.length with h | h
  · by_cases hj : j = i
    · subst hj
      simp [List.getD_eq_getElem?_getD, List.getElem?_set, h]
    · simp [List.getD_eq_getElem?_getD,
        List.getElem?_set_ne (fun he => hj he.symm), hj]
  · rw [List.set_eq_of_length_le h, if_neg (by omega)]

theorem getD_of_length_le {α : Type} (l : List α) (d : α) (i : Nat)
    (h : l.length ≤ i) : l.getD i d = d := by
  simp [List.getD_eq_getElem?_getD, List.getElem?_eq_none h]

/-! ## Frame lemmas: `solve` writes only voltages and currents -/

theorem nodeFrame_rfl (a : Node) : nodeFrame a a := rfl

theorem nodeFrame_trans {a b c : Node} (h1 : nodeFrame a b)
    (h2 : nodeFrame b c) : nodeFrame a c := by
  unfold nodeFrame at *
  exact h2.trans (by rw [h1])

theorem compFrame_rfl (a : Component) : compFrame a a := rfl

theorem compFrame_trans {a b c : Component} (h1 : compFrame a b)
    (h2 : compFrame b c) : compFrame a c := by
  unfold compFrame at *
  exact h2.trans (by rw [h1])

theorem engineFrame_rfl (a : CircuitEngine) : engineFrame a a :=
  ⟨rfl, rfl, rfl, rfl, fun _ => nodeFrame_rfl _, rfl,
   fun _ => compFrame_rfl _⟩

theorem engineFrame_trans {a b c : CircuitEngine} (h1 : engineFrame a b)
    (h2 : engineFrame b c) : engineFrame a c := by
  obtain ⟨c1, n1, w1, ln1, pn1, lc1, pc1⟩ := h1
  obtain ⟨c2, n2, w2, ln2, pn2, lc2, pc2⟩ := h2
  exact ⟨c2.trans c1, n2.trans n1, w2.trans w1, ln2.trans ln1,
    fun r => nodeFrame_trans (pn1 r) (pn2 r), lc2.trans lc1,
    fun r => compFrame_trans (pc1 r) (pc2 r)⟩

theorem updateVoltagesAux_length (result : List ℚ) :
    ∀ (l : List (Nat × Nat)) (store : List Node) (mc : ℚ),
      (updateVoltagesAux result (store, mc) l).1.length = store.length
  | [], _, _ => rfl
  | p :: rest, store, mc => by
    rw [updateVoltagesAux, updateVoltagesAux_length result rest]
    exact List.length_set _ _ _

theorem updateVoltagesAux_frame (result : List ℚ) :
    ∀ (l : List (Nat × Nat)) (store : List Node) (mc : ℚ) (r : Nat),
      nodeFrame (store.getD r defaultNode)
        ((updateVoltagesAux result (store, mc) l).1.getD r defaultNode)
  | [], _, _, _ => nodeFrame_rfl _
  | p :: rest, store, mc, r => by
    rw [updateVoltagesAux]
    refine nodeFrame_trans ?_ (updateVoltagesAux_frame result rest _ _ r)
    rw [getD_set]
    split
    · next h => rw [h.1]; rfl
    · exact nodeFrame_rfl _

theorem forceGND_length :
    ∀ (nodes : List Nat) (store : List Node),
      (forceGND store nodes).length = store.length
  | [], _ => rfl
  | n :: rest, store => by
    rw [forceGND, forceGND_length rest]
    split
    · exact List.length_set _ _ _
    · rfl

theorem forceGND_frame :
    ∀ (nodes : List Nat) (store : List Node) (r : Nat),
      nodeFrame (store.getD r defaultNode)
        ((forceGND store nodes).getD r defaultNode)
  | [], _, _ => nodeFrame_rfl _
  | n :: rest, store, r => by
    rw [forceGND]
    refine nodeFrame_trans ?_ (forceGND_frame rest _ r)
    split
    · rw [getD_set]
      split
      · next h => rw [h.1]; rfl
      · exact nodeFrame_rfl _
    · exact nodeFrame_rfl _

theorem updateCurrentsAux_length (storeN : List Node) (comps : List Nat)
    (result : List ℚ) (N : Nat) :
    ∀ (l : List Nat) (cs : List Component),
      (updateCurrentsAux storeN comps result N cs l).length = cs.length
  | [], _ => rfl
  | ref :: rest, cs => by
    rw [updateCurrentsAux, updateCurrentsAux_length storeN comps result N rest]
    exact List.length_set _ _ _

theorem updateCurrentsAux_frame (storeN : List Node) (comps : List Nat)
    (result : List ℚ) (N : Nat) :
    ∀ (l : List Nat) (cs : List Component) (r : Nat),
      compFrame (cs.getD r defaultComponent)
        ((updateCurrentsAux storeN comps result N cs l).getD r
          defaultComponent)
  | [], _, _ => compFrame_rfl _
  | ref :: rest, cs, r => by
    rw [updateCurrentsAux]
    refine compFrame_trans ?_
      (updateCurrentsAux_frame storeN comps result N rest _ r)
    rw [updateOneCurrent, getD_set]
    split
    · next h => rw [h.1]; rfl
    · exact compFrame_rfl _

theorem runPass_frame {st : CircuitEngine} {iter : Nat}
    {st1 : CircuitEngine} {mc : ℚ}
    (h : runPass st iter = some (st1, mc)) : engineFrame st st1 := by
  rw [runPass] at h
  split at h
  · exact absurd h (by simp)
  · simp only [Option.some.injEq, Prod.mk.injEq] at h
    obtain ⟨h1, _⟩ := h
    subst h1
    refine ⟨rfl, rfl, rfl, ?_, ?_, ?_, ?_⟩
    · rw [forceGND_length, updateVoltages, updateVoltagesAux_length]
    · intro r
      refine nodeFrame_trans ?_ (forceGND_frame _ _ r)
      rw [updateVoltages]
      exact updateVoltagesAux_frame _ _ _ _ r
    · rw [updateCurrents, updateCurrentsAux_length]
    · intro r
      exact updateCurrentsAux_frame _ _ _ _ _ _ r

theorem solveAux_frame :
    ∀ (fuel iter : Nat) (st : CircuitEngine),
      engineFrame st (solveAux fuel iter st).1
  | 0, _, st => engineFrame_rfl st
  | fuel + 1, iter, st => by
    rw [solveAux]
    rcases hp : runPass st iter with _ | ⟨st1, mc⟩
    · exact engineFrame_rfl st
    · have hf := runPass_frame hp
      simp only []
      split
      · exact hf
      · exact engineFrame_trans hf (solveAux_frame fuel (iter + 1) st1)

theorem solve_frame (st : CircuitEngine) : engineFrame st (solve st) :=
  solveAux_frame 10 0 st

/-- Claim C10: `solve()` mutates only node voltage fields and component
current fields — the component list, the node list, the wire list, both
store sizes, and every other node/component field (in particular
`resistance`, `voltage`, `isOpen`, `spdtState`, `isGND`) are unchanged.
(The non-mutation of `solveLinearSystem`'s inputs holds by construction in
this embedding: the source deep-copies `A.data` and `B` and the embedding
is pure, so `A` and `B` are never written.) -/
theorem c10_solve_mutates_only_voltage_and_current (st : CircuitEngine) :
    (solve st).components = st.components ∧
    (solve st).nodes = st.nodes ∧
    (solve st).visualWires = st.visualWires ∧
    (solve st).nodeStore.length = st.nodeStore.length ∧
    (∀ r, (solve st).nodeStore.getD r defaultNode =
      { st.nodeStore.getD r defaultNode with
        voltage := ((solve st).nodeStore.getD r defaultNode).voltage }) ∧
    (solve st).compStore.length = st.compStore.length ∧
    (∀ r, (solve st).compStore.getD r defaultComponent =
      { st.compStore.getD r defaultComponent with
        current := ((solve st).compStore.getD r
          defaultComponent).current }) :=
  solve_frame st

/-- Claim C8: with zero non-ground nodes and zero batteries the solver
returns immediately and the state is untouched. -/
theorem c8_zero_unknowns_no_solve (st : CircuitEngine)
    (h1 : activeNodes st = []) (h2 : batCount st = 0) : solve st = st := by
  have hp : runPass st 0 = none := by
    rw [runPass]
    simp [h1, h2]
  rw [solve, solveCounted, solveAux, hp]

/-- Witness for C8 at a concrete one-ground-node state. -/
theorem c8_zero_unknowns_no_solve_witness :
    activeNodes exZeroSize = [] ∧ batCount exZeroSize = 0 ∧
      solve exZeroSize = exZeroSize :=
  ⟨by decide, by decide,
   c8_zero_unknowns_no_solve exZeroSize (by decide) (by decide)⟩

/-! ## The iteration controller (C5) -/

theorem activeNodes_of_frame {a b : CircuitEngine} (h : engineFrame a b) :
    activeNodes b = activeNodes a := by
  obtain ⟨_, hn, _, _, pn, _, _⟩ := h
  rw [activeNodes, activeNodes, hn]
  refine List.filter_congr ?_
  intro r _
  rw [pn r]

theorem batCount_of_frame {a b : CircuitEngine} (h : engineFrame a b) :
    batCount b = batCount a := by
  obtain ⟨hc, _, _, _, _, _, pc⟩ := h
  rw [batCount, batCount, hc]
  congr 1
  refine List.filter_congr ?_
  intro r _
  rw [pc r]

theorem runPass_eq_none_iff (st : CircuitEngine) (iter : Nat) :
    runPass st iter = none ↔
      (activeNodes st).length + batCount st = 0 := by
  rw [runPass]
  split
  · simp_all
  · simp_all

theorem passState_frame (st : CircuitEngine) :
    ∀ k, engineFrame st (passState st k)
  | 0 => engineFrame_rfl st
  | k + 1 => by
    rw [passState]
    rcases hp : runPass (passState st k) k with _ | p
    · exact passState_frame st k
    · exact engineFrame_trans (passState_frame st k) (runPass_frame hp)

theorem passState_size (st : CircuitEngine) (k : Nat) :
    (activeNodes (passState st k)).length + batCount (passState st k) =
      (activeNodes st).length + batCount st := by
  rw [activeNodes_of_frame (passState_frame st k),
    batCount_of_frame (passState_frame st k)]

theorem runPass_passState_some (st : CircuitEngine) (k : Nat)
    (hsz : (activeNodes st).length + batCount st ≠ 0) :
    runPass (passState st k) k = some (passState st (k + 1), passMC st k) := by
  rcases hp : runPass (passState st k) k with _ | p
  · rw [runPass_eq_none_iff, passState_size] at hp
    exact absurd hp hsz
  · rw [passState, passMC, hp]

theorem solveAux_count_le :
    ∀ (fuel iter : Nat) (st : CircuitEngine),
      (solveAux fuel iter st).2 ≤ iter + fuel
  | 0, iter, st => Nat.le_refl _
  | fuel + 1, iter, st => by
    rw [solveAux]
    rcases runPass st iter with _ | ⟨st1, mc⟩
    · exact Nat.le_add_right _ _
    · simp only []
      split
      · omega
      · have := solveAux_count_le fuel (iter + 1) st1
        omega

theorem solveAux_early_stop :
    ∀ (fuel iter k : Nat) (st : CircuitEngine),
      (activeNodes st).length + batCount st ≠ 0 →
      iter ≤ k → 1 ≤ k → k + 1 ≤ iter + fuel →
      (∀ j, 1 ≤ j → iter ≤ j → j < k → ¬ passMC st j < 1/1000) →
      passMC st k < 1/1000 →
      solveAux fuel iter (passState st iter) = (passState st (k + 1), k + 1)
  | 0, iter, k, st, _, hik, _, hkf, _, _ => by omega
  | fuel + 1, iter, k, st, hsz, hik, hk1, hkf, hno, hyes => by
    rw [solveAux, runPass_passState_some st iter hsz]
    simp only []
    rcases Nat.eq_or_lt_of_le hik with hik' | hik'
    · subst hik'
      rw [if_pos ⟨by omega, hyes⟩]
    · rw [if_neg]
      · exact solveAux_early_stop fuel (iter + 1) k st hsz hik' hk1
          (by omega) (fun j h1 h2 h3 => hno j h1 (by omega) h3) hyes
      · rintro ⟨hgt, hlt⟩
        exact hno iter (by omega) (Nat.le_refl _) hik' hlt

theorem solveAux_exhaust :
    ∀ (fuel iter : Nat) (st : CircuitEngine),
      (activeNodes st).length + batCount st ≠ 0 →
      (∀ j, 1 ≤ j → iter ≤ j → j < iter + fuel → ¬ passMC st j < 1/1000) →
      solveAux fuel iter (passState st iter) =
        (passState st (iter + fuel), iter + fuel)
  | 0, iter, st, _, _ => rfl
  | fuel + 1, iter, st, hsz, hno => by
    rw [solveAux, runPass_passState_some st iter hsz]
    simp only []
    rw [if_neg]
    · have hno2 : ∀ j, 1 ≤ j → iter + 1 ≤ j → j < iter + 1 + fuel →
          ¬ passMC st j < 1/1000 := by
        intro j h1 h2 h3
        exact hno j h1 (by omega) (by omega)
      have harith : iter + (fuel + 1) = iter + 1 + fuel := by omega
      rw [harith]
      exact solveAux_exhaust fuel (iter + 1) st hsz hno2
    · rintro ⟨hgt, hlt⟩
      exact hno iter (by omega) (Nat.le_refl _) (by omega) hlt

/-- Claim C5: the solver loop executes at most 10 passes (and, being a
total function of fuel 10, always terminates); when the system has
unknowns, it stops right after the first pass `k ≥ 1` whose largest
absolute node-voltage change is below 1e-3, and does all 10 passes when no
such pass occurs. -/
theorem c5_pass_cap_and_early_stop (st : CircuitEngine) :
    (solveCounted st).2 ≤ 10 ∧
    (∀ k, 1 ≤ k → k + 1 ≤ 10 →
      (activeNodes st).length + batCount st ≠ 0 →
      (∀ j, 1 ≤ j → j < k → ¬ passMC st j < 1/1000) →
      passMC st k < 1/1000 →
      solveCounted st = (passState st (k + 1), k + 1)) ∧
    ((activeNodes st).length + batCount st ≠ 0 →
      (∀ j, 1 ≤ j → j < 10 → ¬ passMC st j < 1/1000) →
      solveCounted st = (passState st 10, 10)) := by
  refine ⟨solveAux_count_le 10 0 st, ?_, ?_⟩
  · intro k hk1 hk10 hsz hno hyes
    exact solveAux_early_stop 10 0 k st hsz (by omega) hk1 (by omega)
      (fun j h1 _ h3 => hno j h1 h3) hyes
  · intro hsz hno
    exact solveAux_exhaust 10 0 st hsz (fun j h1 _ h3 => hno j h1 h3)

/-- Witness for C5: the battery-LED loop converges at pass 1 and the loop
stops after exactly 2 passes. -/
theorem c5_pass_cap_and_early_stop_witness :
    passMC exLED 1 < 1/1000 ∧
      solveCounted exLED = (passState exLED 2, 2) := by
  refine ⟨by decide, ?_⟩
  exact (c5_pass_cap_and_early_stop exLED).2.1 1 (by omega) (by omega)
    (by decide) (fun j h1 h2 => absurd h2 (by omega))
    (by decide)

/-! ## LED stamping (C1) -/

/-- Counterexample to C1 as stated: on the very first pass (`iter = 0`)
the LED of the battery-LED loop is stamped with its stored resistance
10 Ω, not with 1e7 Ω — the assembled diagonal entry of its node is
`1e-12 + 1/10`, which differs from the `1e-12 + 1/1e7` the claim
predicts. -/
theorem c1_counterexample :
    stampR exLED 0 (exLED.compStore.getD 1 defaultComponent) = 10 ∧
    ((10 : ℚ) ≠ 10000000) ∧
    (assembleSystem exLED (activeNodes exLED) (activeNodes exLED).length
        ((activeNodes exLED).length + batCount exLED) 0).1.get 0 0 =
      1/1000000000000 + 1/10 ∧
    (assembleSystem exLED (activeNodes exLED) (activeNodes exLED).length
        ((activeNodes exLED).length + batCount exLED) 0).1.get 0 0 ≠
      1/1000000000000 + 1/10000000 := by
  refine ⟨?_, ?_, ?_, ?_⟩ <;> decide

/-- Amended C1: an led is stamped as a two-terminal conductance stamp
whose resistance is the component's stored resistance floor-clamped to
1e-6 on the very first pass (`iter = 0`), and on every later pass 90 Ω
when the previous pass's terminal-0-minus-terminal-1 voltage exceeds
0.5 V, else 1e7 Ω.  The source vector and the battery branch counter are
untouched. -/
theorem c1_led_stamp_amended (st : CircuitEngine)
    (pairs : List (String × Nat)) (N iter : Nat)
    (acc : Matrix × List ℚ × Nat) (ref : Nat)
    (hled : (st.compStore.getD ref defaultComponent).type = "led") :
    stampComponent st pairs N iter acc ref =
      (let c := st.compStore.getD ref defaultComponent
       let n1 := c.nodes.getD 0 none
       let n2 := c.nodes.getD 1 none
       let R : ℚ :=
         if iter = 0 then
           (if c.resistance < 1/1000000 then 1/1000000 else c.resistance)
         else if slotV st.nodeStore n1 - slotV st.nodeStore n2 > 1/2 then 90
         else 10000000
       if n1.isSome || n2.isSome then
         (stampG acc.1 (getIdx st pairs n1) (getIdx st pairs n2) (1/R),
          acc.2.1, acc.2.2)
       else acc) := by
  have key : ∀ (c : Component), c.type = "led" →
      stampR st iter c =
        (if iter = 0 then
           (if c.resistance < 1/1000000 then (1/1000000 : ℚ)
            else c.resistance)
         else if slotV st.nodeStore (c.nodes.getD 0 none) -
             slotV st.nodeStore (c.nodes.getD 1 none) > 1/2 then 90
         else 10000000) := by
    intro c hc
    rcases Nat.eq_zero_or_pos iter with hi | hi
    · subst hi
      simp [stampR, hc]
    · by_cases hd : slotV st.nodeStore (c.nodes.getD 0 none) -
          slotV st.nodeStore (c.nodes.getD 1 none) > 1/2
      · norm_num [stampR, hc, hi, hi.ne', hd]
        intro habs
        split at habs <;> norm_num at habs
      · norm_num [stampR, hc, hi, hi.ne', hd]
        intro habs
        split at habs <;> norm_num at habs
  have hR := key (st.compStore.getD ref defaultComponent) hled
  simp only [stampComponent, hled, String.reduceEq, reduceIte, hR]

/-- Witness for the amended C1 at the battery-LED loop, pass 0. -/
theorem c1_led_stamp_amended_witness :
    (exLED.compStore.getD 1 defaultComponent).type = "led" ∧
    stampComponent exLED (nodePairs exLED (activeNodes exLED)) 1 0
        (Matrix.mk0 2 2, [0, 0], 0) 1 =
      (let c := exLED.compStore.getD 1 defaultComponent
       let n1 := c.nodes.getD 0 none
       let n2 := c.nodes.getD 1 none
       let R : ℚ :=
         if 0 = 0 then
           (if c.resistance < 1/1000000 then 1/1000000 else c.resistance)
         else if slotV exLED.nodeStore n1 - slotV exLED.nodeStore n2 > 1/2
           then 90
         else 10000000
       if n1.isSome || n2.isSome then
         (stampG (Matrix.mk0 2 2)
            (getIdx exLED (nodePairs exLED (activeNodes exLED)) n1)
            (getIdx exLED (nodePairs exLED (activeNodes exLED)) n2) (1/R),
          [0, 0], 0)
       else (Matrix.mk0 2 2, [0, 0], 0)) :=
  ⟨by decide,
   c1_led_stamp_amended exLED (nodePairs exLED (activeNodes exLED)) 1 0
     (Matrix.mk0 2 2, [0, 0], 0) 1 (by decide)⟩

/-! ## Currents of the update step (C2) -/

theorem updateOneCurrent_length (storeN : List Node) (comps : List Nat)
    (result : List ℚ) (N : Nat) (cs : List Component) (ref : Nat) :
    (updateOneCurrent storeN comps result N cs ref).length = cs.length :=
  List.length_set _ _ _

theorem updateOneCurrent_frame (storeN : List Node) (comps : List Nat)
    (result : List ℚ) (N : Nat) (cs : List Component) (ref q : Nat) :
    compFrame (cs.getD q defaultComponent)
      ((updateOneCurrent storeN comps result N cs ref).getD q
        defaultComponent) := by
  rw [updateOneCurrent, getD_set]
  split
  · next h => rw [h.1]; rfl
  · exact compFrame_rfl _

theorem nonBatteryCurrent_congr {a b : Component} (h : compFrame a b)
    (s : List Node) : nonBatteryCurrent s b = nonBatteryCurrent s a := by
  rw [h]
  rfl

theorem updateCurrentsAux_not_mem (storeN : List Node) (comps : List Nat)
    (result : List ℚ) (N : Nat) :
    ∀ (l : List Nat) (cs : List Component) (ref : Nat), ref ∉ l →
      (updateCurrentsAux storeN comps result N cs l).getD ref
          defaultComponent = cs.getD ref defaultComponent
  | [], _, _, _ => rfl
  | a :: rest, cs, ref, hmem => by
    have hne : ¬ (ref = a ∧ a < cs.length) := by
      rintro ⟨h1, _⟩
      exact hmem (by rw [h1]; exact List.mem_cons_self a rest)
    rw [updateCurrentsAux,
      updateCurrentsAux_not_mem storeN comps result N rest _ ref
        (fun hc => hmem (List.mem_cons_of_mem a hc)),
      updateOneCurrent, getD_set, if_neg hne]

theorem updateCurrentsAux_mem (storeN : List Node) (comps : List Nat)
    (result : List ℚ) (N : Nat) :
    ∀ (l : List Nat) (cs : List Component) (ref : Nat), ref ∈ l →
      ref < cs.length →
      (cs.getD ref defaultComponent).type ≠ "battery" →
      (updateCurrentsAux storeN comps result N cs l).getD ref
          defaultComponent =
        { cs.getD ref defaultComponent with
          current := nonBatteryCurrent storeN
            (cs.getD ref defaultComponent) }
  | [], _, _, hmem, _, _ => absurd hmem (List.not_mem_nil _)
  | a :: rest, cs, ref, hmem, hlen, hb => by
    rw [updateCurrentsAux]
    by_cases hr : ref ∈ rest
    · have hf := updateOneCurrent_frame storeN comps result N cs a ref
      have hlen2 : ref < (updateOneCurrent storeN comps result N cs a).length := by
        rw [updateOneCurrent_length]; exact hlen
      have hb2 : ((updateOneCurrent storeN comps result N cs a).getD ref
          defaultComponent).type ≠ "battery" := by
        rw [hf]; exact hb
      rw [updateCurrentsAux_mem storeN comps result N rest _ ref hr hlen2 hb2,
        nonBatteryCurrent_congr hf, hf]
    · have ha : ref = a := by
        rcases List.mem_cons.mp hmem with h | h
        · exact h
        · exact absurd h hr
      subst ha
      rw [updateCurrentsAux_not_mem storeN comps result N rest _ ref hr,
        updateOneCurrent, getD_set, if_pos ⟨rfl, hlen⟩, if_neg hb]

/-- Counterexample to C2 as stated: on the first pass of the battery-LED
loop, the LED is stamped with R = 10 Ω, the pass computes terminal
voltages 9 V and 0 V, so the claim predicts a current of
`(9 − 0)/10 = 9/10` A — but the update step recomputes R from the fresh
voltages (9 V > 0.5 V gives 90 Ω) and writes `1/10` A. -/
theorem c2_counterexample :
    runPass exLED 0 = some exLEDpass ∧
    (exLEDpass.1.compStore.getD 1 defaultComponent).current = 1/10 ∧
    slotV exLEDpass.1.nodeStore
        ((exLEDpass.1.compStore.getD 1 defaultComponent).nodes.getD 0 none) -
      slotV exLEDpass.1.nodeStore
        ((exLEDpass.1.compStore.getD 1 defaultComponent).nodes.getD 1 none) = 9 ∧
    stampR exLED 0 (exLED.compStore.getD 1 defaultComponent) = 10 ∧
    ((1 : ℚ)/10 ≠ 9/10) := by
  refine ⟨?_, ?_, ?_, ?_, ?_⟩ <;> decide

/-- Amended C2: in the update step of a pass, the current of a component
that is neither a battery nor an spdt is `(v1 − v2)/R` where `v1`, `v2`
are the freshly updated terminal voltages and `R` is recomputed from them
by the update-step rule (switch/pushbutton open-closed resistance, led
0.5 V threshold on the new voltage drop, otherwise the stored resistance,
with no 1e-6 floor clamp) — not the resistance used during that same
pass's matrix assembly. -/
theorem c2_update_current_amended (st : CircuitEngine) (iter : Nat)
    (st1 : CircuitEngine) (mc : ℚ) (h : runPass st iter = some (st1, mc))
    (ref : Nat) (hmem : ref ∈ st.components)
    (hlen : ref < st.compStore.length)
    (hb : (st.compStore.getD ref defaultComponent).type ≠ "battery")
    (hs : (st.compStore.getD ref defaultComponent).type ≠ "spdt") :
    (st1.compStore.getD ref defaultComponent).current =
      (let c := st.compStore.getD ref defaultComponent
       let v1 := slotV st1.nodeStore (c.nodes.getD 0 none)
       let v2 := slotV st1.nodeStore (c.nodes.getD 1 none)
       (v1 - v2) /
         (if c.type = "led" then
            (if v1 - v2 > 1/2 then 90 else 10000000)
          else if c.type = "switch" ∨ c.type = "pushbutton" then
            (if c.isOpen then 1000000000 else 1/1000)
          else c.resistance)) := by
  rw [runPass] at h
  split at h
  · exact absurd h (by simp)
  · simp only [Option.some.injEq, Prod.mk.injEq] at h
    obtain ⟨h1, _⟩ := h
    subst h1
    simp only [updateCurrents]
    rw [updateCurrentsAux_mem _ _ _ _ st.components _ ref hmem hlen hb]
    simp only [nonBatteryCurrent, if_neg hs]

/-- Witness for the amended C2 at the battery-LED loop, pass 0, on the
LED. -/
theorem c2_update_current_amended_witness :
    runPass exLED 0 = some (exLEDpass.1, exLEDpass.2) ∧
    (exLEDpass.1.compStore.getD 1 defaultComponent).current =
      (let c := exLED.compStore.getD 1 defaultComponent
       let v1 := slotV exLEDpass.1.nodeStore (c.nodes.getD 0 none)
       let v2 := slotV exLEDpass.1.nodeStore (c.nodes.getD 1 none)
       (v1 - v2) /
         (if c.type = "led" then
            (if v1 - v2 > 1/2 then 90 else 10000000)
          else if c.type = "switch" ∨ c.type = "pushbutton" then
            (if c.isOpen then 1000000000 else 1/1000)
          else c.resistance)) :=
  ⟨by decide,
   c2_update_current_amended exLED 0 exLEDpass.1 exLEDpass.2
     (by decide) 1 (by decide) (by decide) (by decide)
     (by decide)⟩

/-! ## Skipping of invalid connection edges (C3) -/

theorem compFrame_nodes {a b : Component} (h : compFrame a b) :
    b.nodes = a.nodes := by
  rw [h]

/-- Counterexample to C3 as stated: in `exStale`, component `cC` has been
removed from the component list but the two edges naming it remain, and
`cC` still carries node references from the earlier rebuild.  The claim
says those edges perform no union and have no effect on the topology —
yet rebuilding merges terminal 0 of `cA` with terminal 0 of `cB` through
the removed component's stale nodes (3 resulting nodes), while dropping
the two edges yields 4 separate nodes. -/
theorem c3_counterexample :
    ((rebuildCircuit exStale).compStore.getD 0 defaultComponent).nodes.getD
        0 none =
      ((rebuildCircuit exStale).compStore.getD 1
        defaultComponent).nodes.getD 0 none ∧
    (rebuildCircuit exStale).nodes.length = 3 ∧
    (rebuildCircuit exStaleNoWires).nodes.length = 4 := by
  refine ⟨?_, ?_, ?_⟩
  · rw [rebuildCircuit,
      compFrame_nodes ((solve_frame (rebuildPre exStale)).2.2.2.2.2.2 0),
      compFrame_nodes ((solve_frame (rebuildPre exStale)).2.2.2.2.2.2 1)]
    decide
  · rw [rebuildCircuit, (solve_frame (rebuildPre exStale)).2.1]
    decide
  · rw [rebuildCircuit, (solve_frame (rebuildPre exStaleNoWires)).2.1]
    decide

theorem wireStep_skip (cs : List Component) (s : List Node) (w : Wire)
    (h : ¬ (((cs.getD w.startComp defaultComponent).nodes.getD w.startTerm
        none).isSome ∧
      ((cs.getD w.endComp defaultComponent).nodes.getD w.endTerm
        none).isSome)) :
    wireStep cs s w = s := by
  rw [wireStep]
  rcases h1 : (cs.getD w.startComp defaultComponent).nodes.getD w.startTerm
      none with _ | a
  · rfl
  · rcases h2 : (cs.getD w.endComp defaultComponent).nodes.getD w.endTerm
        none with _ | b
    · rfl
    · exact absurd ⟨by rw [h1]; rfl, by rw [h2]; rfl⟩ h

/-- Amended C3: an edge contributes nothing to the union-find — it is as
if it were deleted from the edge list — exactly when one of its two named
terminal slots holds no node object (an out-of-range terminal index, a
null slot, or a component whose slots were never filled).  This is the
actual guard of the source; a removed component that still carries node
references from an earlier rebuild passes the guard, so an edge naming it
is not skipped and can change the resulting topology (see the
counterexample). -/
theorem c3_edges_skipped_amended (cs : List Component) :
    ∀ (ws : List Wire) (s : List Node),
      processWires cs s ws = processWires cs s (ws.filter (fun w =>
        ((cs.getD w.startComp defaultComponent).nodes.getD w.startTerm
            none).isSome &&
        ((cs.getD w.endComp defaultComponent).nodes.getD w.endTerm
            none).isSome))
  | [], _ => rfl
  | w :: rest, s => by
    by_cases hw : (((cs.getD w.startComp defaultComponent).nodes.getD
        w.startTerm none).isSome &&
      ((cs.getD w.endComp defaultComponent).nodes.getD w.endTerm
        none).isSome) = true
    · rw [List.filter_cons, if_pos hw, processWires, processWires,
        c3_edges_skipped_amended cs rest (wireStep cs s w)]
    · rw [List.filter_cons, if_neg hw, processWires,
        wireStep_skip cs s w (by simpa [Bool.and_eq_true] using hw),
        c3_edges_skipped_amended cs rest s]

/-! ## The linear solver (C4) -/

theorem swapL_length {α : Type} (l : List α) (i j : Nat) :
    (swapL l i j).length = l.length := by
  rw [swapL]
  rcases l[i]? with _ | a <;> rcases l[j]? with _ | b <;> simp

theorem swapL_getD_ne {α : Type} (l : List α) (i j r : Nat) (d : α)
    (h1 : r ≠ i) (h2 : r ≠ j) : (swapL l i j).getD r d = l.getD r d := by
  rw [swapL]
  rcases l[i]? with _ | a <;> rcases l[j]? with _ | b
  · rfl
  · rfl
  · rfl
  · rw [getD_set, if_neg (fun hc => h2 hc.1), getD_set,
      if_neg (fun hc => h1 hc.1)]

theorem swapL_getD_left {α : Type} (l : List α) (i j : Nat) (d : α)
    (hi : i < l.length) (hj : j < l.length) :
    (swapL l i j).getD i d = l.getD j d := by
  rw [swapL]
  rcases hgi : l[i]? with _ | a
  · exact absurd hgi (by simp [List.getElem?_eq_getElem hi])
  · rcases hgj : l[j]? with _ | b
    · exact absurd hgj (by simp [List.getElem?_eq_getElem hj])
    · by_cases hij : i = j
      · subst hij
        rw [hgi] at hgj
        simp only [Option.some.injEq] at hgj
        subst hgj
        simp [getD_set, hi, List.getD_eq_getElem?_getD, hgi]
      · rw [getD_set, if_neg (by simp [hij]), getD_set,
          if_pos ⟨rfl, hi⟩]
        simp [List.getD_eq_getElem?_getD, hgj]

theorem swapL_getD_right {α : Type} (l : List α) (i j : Nat) (d : α)
    (hi : i < l.length) (hj : j < l.length) :
    (swapL l i j).getD j d = l.getD i d := by
  rw [swapL]
  rcases hgi : l[i]? with _ | a
  · exact absurd hgi (by simp [List.getElem?_eq_getElem hi])
  · rcases hgj : l[j]? with _ | b
    · exact absurd hgj (by simp [List.getElem?_eq_getElem hj])
    · rw [getD_set, if_pos ⟨rfl, by simp [hj]⟩]
      simp [List.getD_eq_getElem?_getD, hgi]

theorem pivotFold_bounds (M : List (List ℚ)) (i : Nat) :
    ∀ (l : List Nat) (mr : Nat) (lo hi : Nat), lo ≤ mr → mr < hi →
      (∀ k ∈ l, lo ≤ k ∧ k < hi) →
      lo ≤ (l.foldl (fun maxRow k =>
          if |getE M k i| > |getE M maxRow i| then k else maxRow) mr) ∧
      (l.foldl (fun maxRow k =>
          if |getE M k i| > |getE M maxRow i| then k else maxRow) mr) < hi
  | [], mr, lo, hi, h1, h2, _ => ⟨h1, h2⟩
  | a :: rest, mr, lo, hi, h1, h2, hl => by
    rw [List.foldl_cons]
    have ha := hl a (List.mem_cons_self a rest)
    have hrest : ∀ k ∈ rest, lo ≤ k ∧ k < hi :=
      fun k hk => hl k (List.mem_cons_of_mem a hk)
    split
    · exact pivotFold_bounds M i rest a lo hi ha.1 ha.2 hrest
    · exact pivotFold_bounds M i rest mr lo hi h1 h2 hrest

theorem pivotSelect_ge (M : List (List ℚ)) (i n : Nat) :
    i ≤ pivotSelect M i n := by
  rw [pivotSelect]
  refine (pivotFold_bounds M i _ i i (i + 1 + (n - (i+1))) (Nat.le_refl i)
    (by omega) ?_).1
  intro k hk
  rw [List.mem_range'_1] at hk
  omega

theorem pivotSelect_lt (M : List (List ℚ)) (i n : Nat) (h : i < n) :
    pivotSelect M i n < n := by
  rw [pivotSelect]
  have := pivotFold_bounds M i (List.range' (i+1) (n - (i+1))) i i n
    (Nat.le_refl i) h (fun k hk => by
      rw [List.mem_range'_1] at hk
      omega)
  exact this.2

theorem pivotFold_mono (M : List (List ℚ)) (i : Nat) :
    ∀ (l : List Nat) (mr : Nat),
      |getE M mr i| ≤ |getE M (l.foldl (fun maxRow k =>
        if |getE M k i| > |getE M maxRow i| then k else maxRow) mr) i|
  | [], mr => le_refl _
  | a :: rest, mr => by
    rw [List.foldl_cons]
    split
    · next h => exact le_trans (le_of_lt h) (pivotFold_mono M i rest a)
    · exact pivotFold_mono M i rest mr

theorem pivotFold_mem (M : List (List ℚ)) (i : Nat) :
    ∀ (l : List Nat) (mr : Nat) (k : Nat), k ∈ l →
      |getE M k i| ≤ |getE M (l.foldl (fun maxRow k =>
        if |getE M k i| > |getE M maxRow i| then k else maxRow) mr) i|
  | [], _, _, hk => absurd hk (List.not_mem_nil _)
  | a :: rest, mr, k, hk => by
    rw [List.foldl_cons]
    by_cases hkr : k ∈ rest
    · split
      · exact pivotFold_mem M i rest a k hkr
      · exact pivotFold_mem M i rest mr k hkr
    · have hka : k = a := by
        rcases List.mem_cons.mp hk with h | h
        · exact h
        · exact absurd h hkr
      subst hka
      split
      · exact pivotFold_mono M i rest k
      · next h =>
        exact le_trans (le_of_not_lt h) (pivotFold_mono M i rest mr)

theorem pivotSelect_max (M : List (List ℚ)) (i n : Nat) :
    ∀ k, i ≤ k → k < n → |getE M k i| ≤ |getE M (pivotSelect M i n) i| := by
  intro k h1 h2
  rw [pivotSelect]
  rcases Nat.eq_or_lt_of_le h1 with h | h
  · subst h
    exact pivotFold_mono M i _ i
  · refine pivotFold_mem M i _ i k ?_
    rw [List.mem_range'_1]
    omega

theorem setFold_getD_ne (g : List ℚ → Nat → ℚ) :
    ∀ (l : List Nat) (row : List ℚ) (q : Nat), (∀ j ∈ l, j ≠ q) →
      (l.foldl (fun row j => row.set j (g row j)) row).getD q 0 =
        row.getD q 0
  | [], _, _, _ => rfl
  | a :: rest, row, q, h => by
    rw [List.foldl_cons,
      setFold_getD_ne g rest _ q (fun j hj => h j (List.mem_cons_of_mem a hj)),
      getD_set,
      if_neg (fun hc => h a (List.mem_cons_self a rest) hc.1.symm)]

theorem elimStep_untouched (i n : Nat) (MR : List (List ℚ) × List ℚ)
    (k r : Nat) (h : r ≠ k) :
    (elimStep i n MR k).1.getD r [] = MR.1.getD r [] ∧
    (elimStep i n MR k).2.getD r 0 = MR.2.getD r 0 := by
  constructor
  · rw [elimStep]
    exact (getD_set _ _ _ _ _).trans (if_neg (fun hc => h hc.1))
  · rw [elimStep]
    exact (getD_set _ _ _ _ _).trans (if_neg (fun hc => h hc.1))

theorem elimStep_lengths (i n : Nat) (MR : List (List ℚ) × List ℚ)
    (k : Nat) :
    (elimStep i n MR k).1.length = MR.1.length ∧
    (elimStep i n MR k).2.length = MR.2.length := by
  rw [elimStep]
  exact ⟨List.length_set _ _ _, List.length_set _ _ _⟩

theorem elimFold_untouched (i n : Nat) :
    ∀ (l : List Nat) (MR : List (List ℚ) × List ℚ) (r : Nat), r ∉ l →
      (l.foldl (elimStep i n) MR).1.getD r [] = MR.1.getD r [] ∧
      (l.foldl (elimStep i n) MR).2.getD r 0 = MR.2.getD r 0
  | [], _, _, _ => ⟨rfl, rfl⟩
  | a :: rest, MR, r, h => by
    rw [List.foldl_cons]
    have h1 := elimFold_untouched i n rest (elimStep i n MR a) r
      (fun hc => h (List.mem_cons_of_mem a hc))
    have h2 := elimStep_untouched i n MR a r
      (fun hc => h (hc ▸ List.mem_cons_self a rest))
    exact ⟨h1.1.trans h2.1, h1.2.trans h2.2⟩

theorem getE_row_eq {M1 M2 : List (List ℚ)} {r : Nat}
    (h : M1.getD r [] = M2.getD r []) (c : Nat) :
    getE M1 r c = getE M2 r c := by
  rw [getE, getE, h]

theorem elimStep_zero (i n : Nat) (MR : List (List ℚ) × List ℚ) (k : Nat)
    (_hik : i < k) (hin : i < n) (hpiv : getE MR.1 i i ≠ 0) :
    getE (elimStep i n MR k).1 k i = 0 := by
  by_cases hk : k < MR.1.length
  · rw [elimStep, getE]
    simp only []
    rw [getD_set, if_pos ⟨rfl, hk⟩]
    have hni : n - i = (n - (i+1)) + 1 := by omega
    rw [hni, List.range'_succ, List.foldl_cons,
      setFold_getD_ne _ _ _ i (fun j hj => by
        rw [List.mem_range'_1] at hj
        omega),
      getD_set]
    split
    · rw [div_mul_cancel₀ _ hpiv]
      show getE MR.1 k i - getE MR.1 k i = 0
      ring
    · next hc =>
      rcases Nat.lt_or_ge i (MR.1.getD k []).length with hlt | hge
      · exact absurd ⟨rfl, hlt⟩ hc
      · exact getD_of_length_le _ _ _ hge
  · rw [elimStep, getE]
    simp only []
    rw [List.set_eq_of_length_le (Nat.le_of_not_lt hk),
      getD_of_length_le _ _ _ (Nat.le_of_not_lt hk)]
    rfl

theorem elimFold_zero (i n : Nat) :
    ∀ (l : List Nat) (MR : List (List ℚ) × List ℚ) (k : Nat), k ∈ l →
      (∀ m ∈ l, i < m) → i < n → getE MR.1 i i ≠ 0 →
      getE ((l.foldl (elimStep i n) MR)).1 k i = 0
  | [], _, _, hk, _, _, _ => absurd hk (List.not_mem_nil _)
  | a :: rest, MR, k, hk, hmem, hin, hpiv => by
    rw [List.foldl_cons]
    have hia : i ≠ a := Nat.ne_of_lt (hmem a (List.mem_cons_self a rest))
    by_cases hkr : k ∈ rest
    · refine elimFold_zero i n rest _ k hkr
        (fun m hm => hmem m (List.mem_cons_of_mem a hm)) hin ?_
      rw [getE_row_eq (elimStep_untouched i n MR a i hia).1]
      exact hpiv
    · have hka : k = a := by
        rcases List.mem_cons.mp hk with h | h
        · exact h
        · exact absurd h hkr
      subst hka
      rw [getE_row_eq (elimFold_untouched i n rest _ k hkr).1]
      exact elimStep_zero i n MR k (hmem k (List.mem_cons_self k rest))
        hin hpiv

theorem elimFold_lengths (i n : Nat) :
    ∀ (l : List Nat) (MR : List (List ℚ) × List ℚ),
      (l.foldl (elimStep i n) MR).1.length = MR.1.length ∧
      (l.foldl (elimStep i n) MR).2.length = MR.2.length
  | [], _ => ⟨rfl, rfl⟩
  | a :: rest, MR => by
    rw [List.foldl_cons]
    have h1 := elimFold_lengths i n rest (elimStep i n MR a)
    have h2 := elimStep_lengths i n MR a
    exact ⟨h1.1.trans h2.1, h1.2.trans h2.2⟩

theorem fwdStep_lengths (MR : List (List ℚ) × List ℚ) (c n : Nat) :
    (fwdStep MR c n).1.length = MR.1.length ∧
    (fwdStep MR c n).2.length = MR.2.length := by
  rw [fwdStep]
  split
  · exact ⟨swapL_length _ _ _, swapL_length _ _ _⟩
  · rw [elimBelow]
    have h := elimFold_lengths c n (List.range' (c+1) (n - (c+1)))
      (swapL MR.1 c (pivotSelect MR.1 c n),
       swapL MR.2 c (pivotSelect MR.1 c n))
    exact ⟨h.1.trans (swapL_length _ _ _), h.2.trans (swapL_length _ _ _)⟩

theorem fwdUpTo_succ (A : Matrix) (B : List ℚ) (m : Nat) :
    fwdUpTo A B (m+1) = fwdStep (fwdUpTo A B m) m A.rows := by
  rw [fwdUpTo, fwdUpTo, List.range_succ, List.foldl_append,
    List.foldl_cons, List.foldl_nil]

theorem fwdUpTo_lengths (A : Matrix) (B : List ℚ) :
    ∀ (m : Nat), (fwdUpTo A B m).1.length = A.data.length ∧
      (fwdUpTo A B m).2.length = B.length
  | 0 => ⟨rfl, rfl⟩
  | m + 1 => by
    rw [fwdUpTo_succ]
    have h1 := fwdStep_lengths (fwdUpTo A B m) m A.rows
    have h2 := fwdUpTo_lengths A B m
    exact ⟨h1.1.trans h2.1, h1.2.trans h2.2⟩

theorem fwdStep_stable (MR : List (List ℚ) × List ℚ) (c n r : Nat)
    (hrc : r < c) :
    (fwdStep MR c n).1.getD r [] = MR.1.getD r [] ∧
    (fwdStep MR c n).2.getD r 0 = MR.2.getD r 0 := by
  rw [fwdStep]
  have hmr := pivotSelect_ge MR.1 c n
  have h1 : r ≠ c := by omega
  have h2 : r ≠ pivotSelect MR.1 c n := by omega
  split
  · exact ⟨swapL_getD_ne _ _ _ _ _ h1 h2, swapL_getD_ne _ _ _ _ _ h1 h2⟩
  · rw [elimBelow]
    have hu := elimFold_untouched c n (List.range' (c+1) (n - (c+1)))
      (swapL MR.1 c (pivotSelect MR.1 c n),
       swapL MR.2 c (pivotSelect MR.1 c n)) r
      (fun hc => by
        rw [List.mem_range'_1] at hc
        omega)
    exact ⟨hu.1.trans (swapL_getD_ne _ _ _ _ _ h1 h2),
      hu.2.trans (swapL_getD_ne _ _ _ _ _ h1 h2)⟩

theorem fwdUpTo_stable (A : Matrix) (B : List ℚ) (i m₁ : Nat)
    (h1 : i < m₁) :
    ∀ (m₂ : Nat), m₁ ≤ m₂ →
      (fwdUpTo A B m₂).1.getD i [] = (fwdUpTo A B m₁).1.getD i [] ∧
      (fwdUpTo A B m₂).2.getD i 0 = (fwdUpTo A B m₁).2.getD i 0
  | 0, h2 => by
    have : m₁ = 0 := Nat.le_zero.mp h2
    subst this
    exact ⟨rfl, rfl⟩
  | m₂ + 1, h2 => by
    rcases Nat.eq_or_lt_of_le h2 with h | h
    · rw [h]
      exact ⟨rfl, rfl⟩
    · have hle : m₁ ≤ m₂ := by omega
      rw [fwdUpTo_succ]
      have hs := fwdStep_stable (fwdUpTo A B m₂) m₂ A.rows i (by omega)
      have hih := fwdUpTo_stable A B i m₁ h1 m₂ hle
      exact ⟨hs.1.trans hih.1, hs.2.trans hih.2⟩

theorem backStep_getD_ne (M : List (List ℚ)) (R x : List ℚ) (r n q : Nat)
    (h : q ≠ r) : (backStep M R x r n).getD q 0 = x.getD q 0 := by
  rw [backStep]
  split
  · rfl
  · exact (getD_set _ _ _ _ _).trans (if_neg (fun hc => h hc.1))

theorem backFold_stable (M : List (List ℚ)) (R : List ℚ) (n : Nat) :
    ∀ (ts : List Nat) (x : List ℚ) (q : Nat),
      (∀ t ∈ ts, n - 1 - t ≠ q) →
      ((ts.foldl (fun x t => backStep M R x (n - 1 - t) n) x)).getD q 0 =
        x.getD q 0
  | [], _, _, _ => rfl
  | a :: rest, x, q, h => by
    rw [List.foldl_cons,
      backFold_stable M R n rest _ q
        (fun t ht => h t (List.mem_cons_of_mem a ht)),
      backStep_getD_ne M R x _ n q
        (fun hc => h a (List.mem_cons_self a rest) hc.symm)]

theorem backFold_skip (M : List (List ℚ)) (R : List ℚ) (n i : Nat)
    (hpiv : |getE M i i| < 1/10000000000) :
    ∀ (ts : List Nat) (x : List ℚ),
      ((ts.foldl (fun x t => backStep M R x (n - 1 - t) n) x)).getD i 0 =
        x.getD i 0
  | [], _ => rfl
  | a :: rest, x => by
    rw [List.foldl_cons, backFold_skip M R n i hpiv rest]
    by_cases ht : n - 1 - a = i
    · rw [ht, backStep, if_pos hpiv]
    · exact backStep_getD_ne M R x _ n i (fun hc => ht hc.symm)

theorem backFold_length (M : List (List ℚ)) (R : List ℚ) (n : Nat) :
    ∀ (ts : List Nat) (x : List ℚ),
      ((ts.foldl (fun x t => backStep M R x (n - 1 - t) n) x)).length =
        x.length
  | [], _ => rfl
  | a :: rest, x => by
    rw [List.foldl_cons, backFold_length M R n rest]
    rw [backStep]
    split
    · rfl
    · exact List.length_set _ _ _

theorem sumFold_congr (f g : Nat → ℚ) :
    ∀ (l : List Nat) (s : ℚ), (∀ j ∈ l, f j = g j) →
      l.foldl (fun s j => s + f j) s = l.foldl (fun s j => s + g j) s
  | [], _, _ => rfl
  | a :: rest, s, h => by
    rw [List.foldl_cons, List.foldl_cons,
      h a (List.mem_cons_self a rest),
      sumFold_congr f g rest _ (fun j hj => h j (List.mem_cons_of_mem a hj))]

theorem solveLinearSystem_eq_fwdUpTo (A : Matrix) (B : List ℚ) :
    solveLinearSystem A B =
      backSolve (fwdUpTo A B A.rows).1 (fwdUpTo A B A.rows).2 A.rows := rfl

theorem fwdUpTo_row_i (A : Matrix) (B : List ℚ) (i : Nat) :
    (fwdUpTo A B (i+1)).1.getD i [] =
      (swapL (fwdUpTo A B i).1 i
        (pivotSelect (fwdUpTo A B i).1 i A.rows)).getD i [] ∧
    (fwdUpTo A B (i+1)).2.getD i 0 =
      (swapL (fwdUpTo A B i).2 i
        (pivotSelect (fwdUpTo A B i).1 i A.rows)).getD i 0 := by
  rw [fwdUpTo_succ, fwdStep]
  split
  · exact ⟨rfl, rfl⟩
  · rw [elimBelow]
    exact elimFold_untouched i A.rows _ _ i (fun hc => by
      rw [List.mem_range'_1] at hc
      omega)

/-- Claim C4: `solveLinearSystem` is Gaussian elimination with partial
pivoting.  For every pivot column `i`: (a) the selected row lies in
`[i, n)`; (b) after the swap the pivot has the largest magnitude in
column `i` among rows `i .. n-1`; (c) if the selected pivot's magnitude
is below 1e-10, elimination and back-substitution skip that row and the
unknown keeps its zero initialisation; (d,e) otherwise the step zeroes
column `i` below the pivot and the returned vector satisfies row `i`'s
back-substitution equation over the eliminated system. -/
theorem c4_gaussian_elimination (A : Matrix) (B : List ℚ) (i : Nat)
    (hi : i < A.rows) (hA : A.data.length = A.rows) :
    (i ≤ pivotSelect (fwdUpTo A B i).1 i A.rows ∧
      pivotSelect (fwdUpTo A B i).1 i A.rows < A.rows) ∧
    (∀ k, i ≤ k → k < A.rows →
      |getE (swapL (fwdUpTo A B i).1 i
          (pivotSelect (fwdUpTo A B i).1 i A.rows)) k i| ≤
      |getE (swapL (fwdUpTo A B i).1 i
          (pivotSelect (fwdUpTo A B i).1 i A.rows)) i i|) ∧
    ((|getE (swapL (fwdUpTo A B i).1 i
          (pivotSelect (fwdUpTo A B i).1 i A.rows)) i i| <
        1/10000000000 →
      (solveLinearSystem A B).getD i 0 = 0) ∧
     (¬ |getE (swapL (fwdUpTo A B i).1 i
          (pivotSelect (fwdUpTo A B i).1 i A.rows)) i i| <
        1/10000000000 →
      (∀ k, i < k → k < A.rows → getE (fwdUpTo A B (i+1)).1 k i = 0) ∧
      getE (fwdUpTo A B A.rows).1 i i *
          (solveLinearSystem A B).getD i 0 +
        (List.range' (i+1) (A.rows - (i+1))).foldl
          (fun s j => s + getE (fwdUpTo A B A.rows).1 i j *
            (solveLinearSystem A B).getD j 0) 0 =
        (fwdUpTo A B A.rows).2.getD i 0)) := by
  set n := A.rows with hn
  set MR := fwdUpTo A B i with hMR
  set mr := pivotSelect MR.1 i n with hmr
  have hMlen : MR.1.length = n := (fwdUpTo_lengths A B i).1.trans hA
  have hmr1 : i ≤ mr := pivotSelect_ge MR.1 i n
  have hmr2 : mr < n := pivotSelect_lt MR.1 i n hi
  have hM1ii : getE (swapL MR.1 i mr) i i = getE MR.1 mr i := by
    rw [getE, getE, swapL_getD_left MR.1 i mr [] (hMlen ▸ hi) (hMlen ▸ hmr2)]
  have hpivstable : getE (fwdUpTo A B n).1 i i =
      getE (swapL MR.1 i mr) i i := by
    rw [getE, getE,
      (fwdUpTo_stable A B i (i+1) (Nat.lt_succ_self i) n hi).1,
      (fwdUpTo_row_i A B i).1]
  refine ⟨⟨hmr1, hmr2⟩, ?_, ?_, ?_⟩
  · intro k hk1 hk2
    rw [hM1ii]
    by_cases hki : k = i
    · rw [hki, hM1ii]
    · by_cases hkmr : k = mr
      · rw [hkmr, getE, getE, swapL_getD_right MR.1 i mr [] (hMlen ▸ hi)
          (hMlen ▸ hmr2)]
        exact pivotSelect_max MR.1 i n i (Nat.le_refl i) hi
      · rw [getE, getE, swapL_getD_ne MR.1 i mr k [] hki hkmr]
        exact pivotSelect_max MR.1 i n k hk1 hk2
  · intro hsmall
    rw [solveLinearSystem_eq_fwdUpTo, backSolve]
    rw [backFold_skip _ _ _ i (hpivstable.symm ▸ hsmall)]
    simp
  · intro hnp
    have hpivne : getE MR.1 mr i ≠ 0 := by
      rw [← hM1ii]
      intro h
      rw [h] at hnp
      norm_num at hnp
    constructor
    · intro k hk1 hk2
      rw [fwdUpTo_succ, fwdStep, if_neg (hM1ii ▸ hnp), elimBelow]
      refine elimFold_zero i n _ _ k ?_ ?_ (by omega) ?_
      · rw [List.mem_range'_1]
        omega
      · intro m hm
        rw [List.mem_range'_1] at hm
        omega
      · rw [hM1ii]
        exact hpivne
    · have hpivfne : getE (fwdUpTo A B n).1 i i ≠ 0 := by
        rw [hpivstable, hM1ii]
        exact hpivne
      set Mf := (fwdUpTo A B n).1 with hMf
      set Rf := (fwdUpTo A B n).2 with hRf
      have ha : n - 1 - (n - 1 - i) = i := by omega
      have hsplitr : List.range n =
          List.range' 0 (n - 1 - i) ++
            ((n - 1 - i) :: List.range' (n - 1 - i + 1) (i)) := by
        have happ := List.range'_append 0 (n - 1 - i) (i + 1) 1
        simp only [Nat.zero_add, Nat.one_mul] at happ
        rw [List.range_eq_range']
        conv_lhs => rw [show n = i + 1 + (n - 1 - i) by omega]
        rw [← happ, List.range'_succ]
      have hxlen : ∀ (ts : List Nat),
          ((ts.foldl (fun x t => backStep Mf Rf x (n - 1 - t) n)
            (List.replicate n 0))).length = n := by
        intro ts
        rw [backFold_length, List.length_replicate]
      set xPre := (List.range' 0 (n - 1 - i)).foldl
        (fun x t => backStep Mf Rf x (n - 1 - t) n)
        (List.replicate n 0) with hxPre
      have hx : solveLinearSystem A B =
          (List.range' (n - 1 - i + 1) i).foldl
            (fun x t => backStep Mf Rf x (n - 1 - t) n)
            (backStep Mf Rf xPre i n) := by
        rw [solveLinearSystem_eq_fwdUpTo, backSolve, hsplitr,
          List.foldl_append, List.foldl_cons, ha]
      have hstab : ∀ q, i ≤ q →
          (solveLinearSystem A B).getD q 0 =
            (backStep Mf Rf xPre i n).getD q 0 := by
        intro q hq
        rw [hx]
        refine backFold_stable Mf Rf n _ _ q ?_
        intro t ht
        rw [List.mem_range'_1] at ht
        omega
      have hbs : backStep Mf Rf xPre i n =
          xPre.set i ((Rf.getD i 0 -
            (List.range' (i+1) (n - (i+1))).foldl
              (fun s j => s + getE Mf i j * xPre.getD j 0) 0) /
            getE Mf i i) := by
        rw [backStep, if_neg (hpivstable.symm ▸ hnp)]
      have hxi : (solveLinearSystem A B).getD i 0 =
          (Rf.getD i 0 -
            (List.range' (i+1) (n - (i+1))).foldl
              (fun s j => s + getE Mf i j * xPre.getD j 0) 0) /
            getE Mf i i := by
        rw [hstab i (Nat.le_refl i), hbs, getD_set,
          if_pos ⟨rfl, by rw [hxPre, hxlen]; exact hi⟩]
      have hxj : ∀ j, i < j →
          (solveLinearSystem A B).getD j 0 = xPre.getD j 0 := by
        intro j hj
        rw [hstab j (Nat.le_of_lt hj), backStep_getD_ne Mf Rf xPre i n j
          (Nat.ne_of_gt hj)]
      have hsum : (List.range' (i+1) (n - (i+1))).foldl
          (fun s j => s + getE Mf i j * (solveLinearSystem A B).getD j 0)
            0 =
          (List.range' (i+1) (n - (i+1))).foldl
            (fun s j => s + getE Mf i j * xPre.getD j 0) 0 := by
        refine sumFold_congr _ _ _ 0 ?_
        intro j hj
        rw [List.mem_range'_1] at hj
        rw [hxj j (by omega)]
      rw [hsum, hxi, mul_comm, div_mul_cancel₀ _ hpivfne]
      ring

/-! ## C9: the checked mirror never errors -/

theorem ok_bind {α β : Type} (a : α) (f : α → Except Unit β) :
    (Except.ok a >>= f : Except Unit β) = f a := rfl

theorem pure_eq_ok {α : Type} (a : α) :
    (pure a : Except Unit α) = Except.ok a := rfl

theorem getEC_ok (m : List (List ℚ)) (r c : Nat) (h : r < m.length) :
    getEC m r c = Except.ok (getE m r c) := by
  rw [getEC, if_pos h]

theorem rowC_ok (m : List (List ℚ)) (r : Nat) (h : r < m.length) :
    rowC m r = Except.ok (m.getD r []) := by
  rw [rowC, if_pos h]

theorem pivotFoldC_ok (M : List (List ℚ)) (i n : Nat) (hn : n ≤ M.length) :
    ∀ (l : List Nat) (mr : Nat), mr < n → (∀ k ∈ l, k < n) →
      (l.foldlM (fun maxRow k => do
        let a ← getEC M k i
        let b ← getEC M maxRow i
        pure (if |a| > |b| then k else maxRow)) mr : Except Unit Nat) =
      Except.ok (l.foldl
        (fun maxRow k => if |getE M k i| > |getE M maxRow i| then k
          else maxRow) mr)
  | [], mr, _, _ => rfl
  | k :: rest, mr, hmr, hl => by
    rw [List.foldlM_cons, List.foldl_cons,
      getEC_ok M k i (Nat.lt_of_lt_of_le (hl k (List.mem_cons_self k rest)) hn),
      ok_bind, getEC_ok M mr i (Nat.lt_of_lt_of_le hmr hn), ok_bind,
      pure_eq_ok, ok_bind]
    have hlt : (if |getE M k i| > |getE M mr i| then k else mr) < n := by
      split
      · exact hl k (List.mem_cons_self k rest)
      · exact hmr
    exact pivotFoldC_ok M i n hn rest _ hlt
      (fun j hj => hl j (List.mem_cons_of_mem k hj))

theorem pivotSelectC_ok (M : List (List ℚ)) (i n : Nat)
    (hn : n ≤ M.length) (hi : i < n) :
    pivotSelectC M i n = Except.ok (pivotSelect M i n) := by
  rw [pivotSelectC, pivotSelect]
  refine pivotFoldC_ok M i n hn _ i hi ?_
  intro k hk
  rw [List.mem_range'_1] at hk
  omega

theorem rowFoldC_ok (M : List (List ℚ)) (i : Nat) (factor : ℚ)
    (hi : i < M.length) :
    ∀ (l : List Nat) (row : List ℚ),
      (l.foldlM (fun row j => do
        let mij ← getEC M i j
        pure (row.set j (row.getD j 0 - factor * mij))) row :
          Except Unit (List ℚ)) =
      Except.ok (l.foldl
        (fun row j => row.set j (row.getD j 0 - factor * getE M i j)) row)
  | [], _ => rfl
  | j :: rest, row => by
    rw [List.foldlM_cons, List.foldl_cons, getEC_ok M i j hi, ok_bind,
      pure_eq_ok, ok_bind]
    exact rowFoldC_ok M i factor hi rest _

theorem elimStepC_ok (i n : Nat) (MR : List (List ℚ) × List ℚ) (k : Nat)
    (hk : k < MR.1.length) (hi : i < MR.1.length) :
    elimStepC i n MR k = Except.ok (elimStep i n MR k) := by
  simp only [elimStepC, elimStep]
  rw [getEC_ok MR.1 k i hk, ok_bind, getEC_ok MR.1 i i hi, ok_bind,
    rowC_ok MR.1 k hk, ok_bind, rowFoldC_ok MR.1 i _ hi, ok_bind,
    pure_eq_ok]

theorem elimFoldC_ok (i n : Nat) :
    ∀ (l : List Nat) (MR : List (List ℚ) × List ℚ),
      (∀ k ∈ l, k < n) → i < n → n ≤ MR.1.length →
      (l.foldlM (elimStepC i n) MR :
          Except Unit (List (List ℚ) × List ℚ)) =
      Except.ok (l.foldl (elimStep i n) MR)
  | [], _, _, _, _ => rfl
  | k :: rest, MR, hl, hi, hn => by
    have hk : k < MR.1.length :=
      Nat.lt_of_lt_of_le (hl k (List.mem_cons_self k rest)) hn
    have hii : i < MR.1.length := Nat.lt_of_lt_of_le hi hn
    rw [List.foldlM_cons, List.foldl_cons, elimStepC_ok i n MR k hk hii,
      ok_bind]
    exact elimFoldC_ok i n rest (elimStep i n MR k)
      (fun j hj => hl j (List.mem_cons_of_mem k hj)) hi
      (by rw [(elimStep_lengths i n MR k).1]; exact hn)

theorem fwdStepC_ok (MR : List (List ℚ) × List ℚ) (i n : Nat)
    (hi : i < n) (hn : n ≤ MR.1.length) :
    fwdStepC MR i n = Except.ok (fwdStep MR i n) := by
  have hlen : i < (swapL MR.1 i (pivotSelect MR.1 i n)).length := by
    rw [swapL_length]; omega
  simp only [fwdStepC, fwdStep]
  rw [pivotSelectC_ok MR.1 i n hn hi, ok_bind, getEC_ok _ i i hlen,
    ok_bind]
  split
  · rfl
  · rw [elimBelow]
    refine elimFoldC_ok i n _ _ ?_ hi (by rw [swapL_length]; exact hn)
    intro k hk
    rw [List.mem_range'_1] at hk
    omega

theorem sumFoldC_ok (M : List (List ℚ)) (i : Nat) (x : List ℚ)
    (hi : i < M.length) :
    ∀ (l : List Nat) (s : ℚ),
      (l.foldlM (fun s j => do
        let mij ← getEC M i j
        pure (s + mij * x.getD j 0)) s : Except Unit ℚ) =
      Except.ok (l.foldl (fun s j => s + getE M i j * x.getD j 0) s)
  | [], _ => rfl
  | j :: rest, s => by
    rw [List.foldlM_cons, List.foldl_cons, getEC_ok M i j hi, ok_bind,
      pure_eq_ok, ok_bind]
    exact sumFoldC_ok M i x hi rest _

theorem backStepC_ok (M : List (List ℚ)) (R : List ℚ) (x : List ℚ)
    (i n : Nat) (hi : i < M.length) :
    backStepC M R x i n = Except.ok (backStep M R x i n) := by
  simp only [backStepC, backStep]
  rw [getEC_ok M i i hi, ok_bind]
  split
  · rfl
  · rw [sumFoldC_ok M i x hi, ok_bind, pure_eq_ok]

theorem fwdFoldC_ok (n : Nat) :
    ∀ (l : List Nat) (MR : List (List ℚ) × List ℚ),
      (∀ i ∈ l, i < n) → n ≤ MR.1.length →
      (l.foldlM (fun MR i => fwdStepC MR i n) MR :
          Except Unit (List (List ℚ) × List ℚ)) =
      Except.ok (l.foldl (fun MR i => fwdStep MR i n) MR)
  | [], _, _, _ => rfl
  | i :: rest, MR, hl, hn => by
    rw [List.foldlM_cons, List.foldl_cons,
      fwdStepC_ok MR i n (hl i (List.mem_cons_self i rest)) hn, ok_bind]
    exact fwdFoldC_ok n rest (fwdStep MR i n)
      (fun j hj => hl j (List.mem_cons_of_mem i hj))
      (by rw [(fwdStep_lengths MR i n).1]; exact hn)

theorem backFoldC_ok (M : List (List ℚ)) (R : List ℚ) (n : Nat) :
    ∀ (l : List Nat) (x : List ℚ),
      (∀ t ∈ l, n - 1 - t < M.length) →
      (l.foldlM (fun x t => backStepC M R x (n - 1 - t) n) x :
          Except Unit (List ℚ)) =
      Except.ok (l.foldl (fun x t => backStep M R x (n - 1 - t) n) x)
  | [], _, _ => rfl
  | t :: rest, x, hl => by
    rw [List.foldlM_cons, List.foldl_cons,
      backStepC_ok M R x (n - 1 - t) n (hl t (List.mem_cons_self t rest)),
      ok_bind]
    exact backFoldC_ok M R n rest _
      (fun u hu => hl u (List.mem_cons_of_mem t hu))

theorem solveLinearSystemC_ok (A : Matrix) (B : List ℚ)
    (hA : A.rows ≤ A.data.length) :
    solveLinearSystemC A B = Except.ok (solveLinearSystem A B) := by
  have hM : ((List.range A.rows).foldl
      (fun MR i => fwdStep MR i A.rows) (A.data, B)).1.length =
      A.data.length := (fwdUpTo_lengths A B A.rows).1
  simp only [solveLinearSystemC, solveLinearSystem, forwardElim, backSolve]
  rw [fwdFoldC_ok A.rows _ _ (fun i hi => List.mem_range.mp hi) hA,
    ok_bind]
  refine backFoldC_ok _ _ A.rows _ _ ?_
  intro t ht
  rw [List.mem_range] at ht
  rw [hM]
  omega

theorem MgetC_ok (A : Matrix) (r c : Nat) (h : r < A.data.length) :
    MgetC A r c = Except.ok (A.get r c) := by
  rw [MgetC, Matrix.get]
  exact getEC_ok A.data r c h

theorem Matrix.set_rows (A : Matrix) (r c : Nat) (v : ℚ) :
    (A.set r c v).rows = A.rows := by
  rw [Matrix.set]; split <;> rfl

theorem Matrix.set_cols (A : Matrix) (r c : Nat) (v : ℚ) :
    (A.set r c v).cols = A.cols := by
  rw [Matrix.set]; split <;> rfl

theorem Matrix.set_dlen (A : Matrix) (r c : Nat) (v : ℚ) :
    (A.set r c v).data.length = A.data.length := by
  rw [Matrix.set]
  split
  · show (setE A.data r c v).length = A.data.length
    rw [setE]
    exact List.length_set _ _ _
  · rfl

theorem Matrix.set_mdims (A : Matrix) (r c : Nat) (v : ℚ) (size : Nat)
    (h : Mdims A size) : Mdims (A.set r c v) size :=
  ⟨(Matrix.set_rows A r c v).trans h.1,
   (Matrix.set_cols A r c v).trans h.2.1,
   (Matrix.set_dlen A r c v).trans h.2.2⟩

theorem stampG_mdims (A : Matrix) (i j : Option Nat) (g : ℚ) (size : Nat)
    (h : Mdims A size) : Mdims (stampG A i j g) size := by
  rcases i with _ | ii <;> rcases j with _ | jj <;>
    simp only [stampG]
  · exact h
  · exact Matrix.set_mdims _ _ _ _ _ h
  · exact Matrix.set_mdims _ _ _ _ _ h
  · exact Matrix.set_mdims _ _ _ _ _ (Matrix.set_mdims _ _ _ _ _
      (Matrix.set_mdims _ _ _ _ _ (Matrix.set_mdims _ _ _ _ _ h)))

theorem stampGC_ok (A : Matrix) (i j : Option Nat) (g : ℚ) (size : Nat)
    (hd : A.data.length = size)
    (hi : ∀ ii, i = some ii → ii < size)
    (hj : ∀ jj, j = some jj → jj < size) :
    stampGC A i j g = Except.ok (stampG A i j g) := by
  rcases i with _ | ii <;> rcases j with _ | jj <;>
    simp only [stampGC, stampG]
  · rfl
  · have hjj : jj < A.data.length := by rw [hd]; exact hj jj rfl
    rw [pure_eq_ok, ok_bind, MgetC_ok A jj jj hjj, ok_bind, pure_eq_ok,
      ok_bind, pure_eq_ok]
  · have hii : ii < A.data.length := by rw [hd]; exact hi ii rfl
    rw [MgetC_ok A ii ii hii, ok_bind, pure_eq_ok, ok_bind, pure_eq_ok,
      ok_bind, pure_eq_ok]
  · have hii : ii < A.data.length := by rw [hd]; exact hi ii rfl
    have hjj1 : jj <
        (A.set ii ii (A.get ii ii + g)).data.length := by
      rw [Matrix.set_dlen, hd]; exact hj jj rfl
    rw [MgetC_ok A ii ii hii, ok_bind, pure_eq_ok, ok_bind,
      MgetC_ok _ jj jj hjj1, ok_bind, pure_eq_ok, ok_bind]
    have hii2 : ii <
        (((A.set ii ii (A.get ii ii + g)).set jj jj
          ((A.set ii ii (A.get ii ii + g)).get jj jj + g))).data.length := by
      rw [Matrix.set_dlen, Matrix.set_dlen, hd]; exact hi ii rfl
    rw [MgetC_ok _ ii jj hii2, ok_bind]
    have hjj3 : jj <
        ((((A.set ii ii (A.get ii ii + g)).set jj jj
          ((A.set ii ii (A.get ii ii + g)).get jj jj + g))).set ii jj
          ((((A.set ii ii (A.get ii ii + g)).set jj jj
            ((A.set ii ii (A.get ii ii + g)).get jj jj + g))).get ii jj -
            g)).data.length := by
      rw [Matrix.set_dlen, Matrix.set_dlen, Matrix.set_dlen, hd]
      exact hj jj rfl
    rw [MgetC_ok _ jj ii hjj3, ok_bind, pure_eq_ok]

theorem enumFrom_fst_lt {α : Type} :
    ∀ (l : List α) (s : Nat) (p : Nat × α), p ∈ l.enumFrom s →
      p.1 < s + l.length
  | [], _, p, h => absurd h (List.not_mem_nil p)
  | a :: rest, s, p, h => by
    rw [List.enumFrom_cons] at h
    rcases List.mem_cons.mp h with h1 | h1
    · rw [h1, List.length_cons]
      omega
    · have := enumFrom_fst_lt rest (s + 1) p h1
      rw [List.length_cons]
      omega

theorem lookupLast_src (k : String) (v : Nat) :
    ∀ (l : List (String × Nat)) (acc : Option Nat),
      l.foldl (fun acc p => if p.1 = k then some p.2 else acc) acc =
        some v →
      (∃ p ∈ l, p.2 = v) ∨ acc = some v
  | [], _, h => Or.inr h
  | p :: rest, acc, h => by
    rw [List.foldl_cons] at h
    rcases lookupLast_src k v rest _ h with h1 | h1
    · rcases h1 with ⟨q, hq, hqv⟩
      exact Or.inl ⟨q, List.mem_cons_of_mem p hq, hqv⟩
    · by_cases hc : p.1 = k
      · rw [if_pos hc] at h1
        exact Or.inl ⟨p, List.mem_cons_self p rest, Option.some.inj h1⟩
      · rw [if_neg hc] at h1
        exact Or.inr h1

theorem nodePairs_snd_lt (st : CircuitEngine) (active : List Nat) :
    ∀ p ∈ nodePairs st active, p.2 < active.length := by
  intro p hp
  rw [nodePairs] at hp
  rcases List.mem_map.mp hp with ⟨q, hq, hrfl⟩
  have hq1 : q.1 < 0 + active.length :=
    enumFrom_fst_lt active 0 q hq
  rw [← hrfl]
  omega

theorem getIdx_lt (st : CircuitEngine) (active : List Nat)
    (slot : Option Nat) (v : Nat)
    (h : getIdx st (nodePairs st active) slot = some v) :
    v < active.length := by
  rcases slot with _ | r
  · exact Option.noConfusion h
  · rw [getIdx] at h
    split at h
    · exact Option.noConfusion h
    · rw [lookupLast] at h
      rcases lookupLast_src _ v _ none h with ⟨p, hp, hpv⟩ | h1
      · rw [← hpv]
        exact nodePairs_snd_lt st active p hp
      · exact Option.noConfusion h1

theorem stampComponentC_ok (st : CircuitEngine) (active : List Nat)
    (N size iter : Nat) (acc : Matrix × List ℚ × Nat) (ref : Nat)
    (hN : N ≤ size) (hNA : N = active.length)
    (hacc : Mdims acc.1 size) :
    stampComponentC st (nodePairs st active) N iter acc ref =
      Except.ok (stampComponent st (nodePairs st active) N iter acc ref) ∧
    Mdims (stampComponent st (nodePairs st active) N iter acc ref).1
      size := by
  have hIdx : ∀ (slot : Option Nat) (v : Nat),
      getIdx st (nodePairs st active) slot = some v → v < size := by
    intro slot v hv
    have := getIdx_lt st active slot v hv
    omega
  simp only [stampComponentC, stampComponent]
  by_cases hb :
      (st.compStore.getD ref defaultComponent).type = "battery"
  · rw [if_pos hb, if_pos hb, pure_eq_ok]
    refine ⟨rfl, ?_⟩
    rcases hg0 : getIdx st (nodePairs st active)
        ((st.compStore.getD ref defaultComponent).nodes.getD 0 none)
      with _ | ii <;>
      rcases hg1 : getIdx st (nodePairs st active)
          ((st.compStore.getD ref defaultComponent).nodes.getD 1 none)
        with _ | jj
    · exact hacc
    · exact Matrix.set_mdims _ _ _ _ _ (Matrix.set_mdims _ _ _ _ _ hacc)
    · exact Matrix.set_mdims _ _ _ _ _ (Matrix.set_mdims _ _ _ _ _ hacc)
    · exact Matrix.set_mdims _ _ _ _ _ (Matrix.set_mdims _ _ _ _ _
        (Matrix.set_mdims _ _ _ _ _ (Matrix.set_mdims _ _ _ _ _ hacc)))
  · rw [if_neg hb, if_neg hb]
    by_cases hs :
        (st.compStore.getD ref defaultComponent).type = "spdt"
    · rw [if_pos hs, if_pos hs]
      constructor
      · rw [stampGC_ok _ _ _ _ _ hacc.2.2
            (fun ii hii => hIdx _ ii hii) (fun jj hjj => hIdx _ jj hjj),
          ok_bind,
          stampGC_ok _ _ _ _ _ ((stampG_mdims _ _ _ _ _ hacc).2.2)
            (fun ii hii => hIdx _ ii hii) (fun jj hjj => hIdx _ jj hjj),
          ok_bind, pure_eq_ok]
      · exact stampG_mdims _ _ _ _ _ (stampG_mdims _ _ _ _ _ hacc)
    · rw [if_neg hs, if_neg hs]
      split
      · have h1 := stampGC_ok acc.1
          (getIdx st (nodePairs st active)
            ((st.compStore.getD ref defaultComponent).nodes.getD 0 none))
          (getIdx st (nodePairs st active)
            ((st.compStore.getD ref defaultComponent).nodes.getD 1 none))
          (1 / stampR st iter (st.compStore.getD ref defaultComponent))
          size hacc.2.2
          (fun ii hii => hIdx _ ii hii) (fun jj hjj => hIdx _ jj hjj)
        rw [h1, ok_bind, pure_eq_ok]
        exact ⟨rfl, stampG_mdims _ _ _ _ _ hacc⟩
      · exact ⟨rfl, hacc⟩

theorem stampFoldC_ok (st : CircuitEngine) (active : List Nat)
    (N size iter : Nat) (hN : N ≤ size) (hNA : N = active.length) :
    ∀ (l : List Nat) (acc : Matrix × List ℚ × Nat), Mdims acc.1 size →
      (l.foldlM (stampComponentC st (nodePairs st active) N iter) acc :
          Except Unit (Matrix × List ℚ × Nat)) =
        Except.ok (stampFold st (nodePairs st active) N iter acc l) ∧
      Mdims (stampFold st (nodePairs st active) N iter acc l).1 size
  | [], acc, h => ⟨rfl, h⟩
  | ref :: rest, acc, h => by
    have hs := stampComponentC_ok st active N size iter acc ref hN hNA h
    rw [List.foldlM_cons, stampFold, hs.1, ok_bind]
    exact stampFoldC_ok st active N size iter hN hNA rest _ hs.2

theorem leakFold_mdims (c : ℚ) (size : Nat) :
    ∀ (l : List Nat) (A : Matrix), Mdims A size →
      Mdims (l.foldl (fun A i => A.set i i c) A) size
  | [], _, h => h
  | i :: rest, A, h => by
    rw [List.foldl_cons]
    exact leakFold_mdims c size rest _ (Matrix.set_mdims _ _ _ _ _ h)

theorem assembleSystemC_ok (st : CircuitEngine) (active : List Nat)
    (N size iter : Nat) (hN : N ≤ size) (hNA : N = active.length) :
    assembleSystemC st active N size iter =
      Except.ok (assembleSystem st active N size iter) ∧
    Mdims (assembleSystem st active N size iter).1 size := by
  have hA0 : Mdims ((List.range N).foldl
      (fun A i => A.set i i (1/1000000000000)) (Matrix.mk0 size size))
      size :=
    leakFold_mdims _ size (List.range N) _
      ⟨rfl, rfl, List.length_replicate _ _⟩
  simp only [assembleSystemC, assembleSystem]
  exact stampFoldC_ok st active N size iter hN hNA st.components _ hA0

theorem runPassC_ok (st : CircuitEngine) (iter : Nat) :
    runPassC st iter = Except.ok (runPass st iter) := by
  simp only [runPassC, runPass]
  split
  · rfl
  · have ha := assembleSystemC_ok st (activeNodes st)
      (activeNodes st).length
      ((activeNodes st).length + batCount st) iter
      (Nat.le_add_right _ _) rfl
    rw [ha.1, ok_bind]
    have hle : (assembleSystem st (activeNodes st)
        (activeNodes st).length
        ((activeNodes st).length + batCount st) iter).1.rows ≤
        (assembleSystem st (activeNodes st)
        (activeNodes st).length
        ((activeNodes st).length + batCount st) iter).1.data.length := by
      rw [ha.2.1, ha.2.2.2]
    rw [solveLinearSystemC_ok _ _ hle, ok_bind, pure_eq_ok]

theorem solveAuxC_ok :
    ∀ (fuel iter : Nat) (st : CircuitEngine),
      solveAuxC fuel iter st = Except.ok (solveAux fuel iter st)
  | 0, _, _ => rfl
  | fuel + 1, iter, st => by
    rw [solveAuxC, solveAux, runPassC_ok st iter, ok_bind]
    rcases hrp : runPass st iter with _ | ⟨st1, mc⟩
    · rfl
    · show (if iter > 0 ∧ mc < 1/1000 then
            (pure (st1, iter + 1) : Except Unit (CircuitEngine × Nat))
          else solveAuxC fuel (iter + 1) st1) =
        Except.ok (if iter > 0 ∧ mc < 1/1000 then (st1, iter + 1)
          else solveAux fuel (iter + 1) st1)
      split
      · rfl
      · exact solveAuxC_ok fuel (iter + 1) st1

/-- **C9.** `solve()` never throws for any node/component state: every raw
indexing site of the assembly and of `solveLinearSystem` (the only places
an exception could arise — all other nullable accesses are guarded by the
source itself) is in range, so the checked mirror `solveC`, which raises
an explicit error exactly where the JavaScript would throw, always
returns `Except.ok` of the state the total model computes. -/
theorem c9_solve_never_throws (st : CircuitEngine) :
    solveC st = Except.ok (solveCounted st) :=
  solveAuxC_ok 10 0 st

/-- Witness for C4: the 2×2 system `[[0,1],[2,3]] x = [1,2]` at pivot
column 0 (the scan selects row 1 and swaps it up). -/
theorem c4_gaussian_elimination_witness :
    (0 < (Matrix.mk 2 2 [[0, 1], [2, 3]]).rows ∧
      (Matrix.mk 2 2 [[0, 1], [2, 3]]).data.length =
        (Matrix.mk 2 2 [[0, 1], [2, 3]]).rows) ∧
    (0 ≤ pivotSelect (fwdUpTo (Matrix.mk 2 2 [[0, 1], [2, 3]])
        [1, 2] 0).1 0 2 ∧
      pivotSelect (fwdUpTo (Matrix.mk 2 2 [[0, 1], [2, 3]]) [1, 2] 0).1
        0 2 < 2) := by
  refine ⟨⟨by decide, by decide⟩, ?_⟩
  have h := c4_gaussian_elimination (Matrix.mk 2 2 [[0, 1], [2, 3]])
    [1, 2] 0 (by decide) (by decide)
  exact h.1

/-! ## C6: union-find facts -/

theorem countRoots_congr (s t : List Node) (hlen : t.length = s.length)
    (hiff : ∀ y, (t.getD y defaultNode).parent = y ↔
      (s.getD y defaultNode).parent = y) :
    countRoots t = countRoots s := by
  rw [countRoots, countRoots, hlen]
  refine List.countP_congr ?_
  intro a _
  have h := hiff a
  by_cases hs : (s.getD a defaultNode).parent = a
  · rw [beq_iff_eq.mpr hs, beq_iff_eq.mpr (h.mpr hs)]
  · have ht : (t.getD a defaultNode).parent ≠ a := fun hc => hs (h.mp hc)
    rw [beq_eq_false_iff_ne.mpr ht, beq_eq_false_iff_ne.mpr hs]

theorem countP_le_of_imp :
    ∀ (l : List Nat) (f g : Nat → Bool),
      (∀ a ∈ l, f a = true → g a = true) → l.countP f ≤ l.countP g
  | [], _, _, _ => Nat.le_refl _
  | b :: rest, f, g, h => by
    rw [List.countP_cons, List.countP_cons]
    have h1 := countP_le_of_imp rest f g
      (fun a ha => h a (List.mem_cons_of_mem b ha))
    cases hfb : f b
    · cases hgb : g b
      · rw [if_neg (by decide : ¬ (false = true))]
        omega
      · rw [if_neg (by decide : ¬ (false = true)), if_pos rfl]
        omega
    · rw [h b (List.mem_cons_self b rest) hfb, if_pos rfl]
      omega

theorem countP_lt_of_witness :
    ∀ (l : List Nat) (f g : Nat → Bool),
      (∀ a ∈ l, f a = true → g a = true) →
      ∀ a0 ∈ l, f a0 = false → g a0 = true → l.countP f < l.countP g
  | [], _, _, _, a0, ha0, _, _ => absurd ha0 (List.not_mem_nil a0)
  | b :: rest, f, g, h, a0, ha0, hf, hg => by
    rw [List.countP_cons, List.countP_cons]
    rcases List.mem_cons.mp ha0 with hb | hmem
    · have hfb : f b = false := hb ▸ hf
      have hgb : g b = true := hb ▸ hg
      rw [hfb, hgb, if_neg (by decide : ¬ (false = true)), if_pos rfl]
      have h1 := countP_le_of_imp rest f g
        (fun a ha => h a (List.mem_cons_of_mem b ha))
      omega
    · have hlt := countP_lt_of_witness rest f g
        (fun a ha => h a (List.mem_cons_of_mem b ha)) a0 hmem hf hg
      cases hfb : f b
      · rw [if_neg (by decide : ¬ (false = true))]
        have h2 : (0:Nat) ≤ if g b = true then 1 else 0 := Nat.zero_le _
        omega
      · rw [h b (List.mem_cons_self b rest) hfb, if_pos rfl]
        omega

theorem measOK_exists_root (s : List Node) (d : Nat → Nat)
    (hm : measOK s d) :
    ∀ (n x : Nat), d x ≤ n → x < s.length →
      ∃ ρ, ρ < s.length ∧ (s.getD ρ defaultNode).parent = ρ
  | 0, x, hd, hx => by
    by_cases hr : (s.getD x defaultNode).parent = x
    · exact ⟨x, hx, hr⟩
    · have h2 := hm x hx hr
      omega
  | n + 1, x, hd, hx => by
    by_cases hr : (s.getD x defaultNode).parent = x
    · exact ⟨x, hx, hr⟩
    · have h2 := hm x hx hr
      exact measOK_exists_root s d hm n _ (by omega) h2.1

theorem countRoots_pos (s : List Node) (ρ : Nat) (hρ : ρ < s.length)
    (hroot : (s.getD ρ defaultNode).parent = ρ) : 0 < countRoots s := by
  rw [countRoots]
  exact List.countP_pos_iff.mpr
    ⟨ρ, List.mem_range.mpr hρ, beq_iff_eq.mpr hroot⟩

theorem countRoots_le (s : List Node) : countRoots s ≤ s.length := by
  rw [countRoots]
  have h := List.countP_le_length
    (p := fun x => (s.getD x defaultNode).parent == x)
    (l := List.range s.length)
  rw [List.length_range] at h
  exact h

theorem WF_d_lt (s : List Node) (d : Nat → Nat) (hm : measOK s d)
    (hb : ∀ x, x < s.length → d x + countRoots s ≤ s.length)
    (x : Nat) (hx : x < s.length) : d x < s.length := by
  obtain ⟨ρ, hρ, hroot⟩ :=
    measOK_exists_root s d hm (d x) x (Nat.le_refl _) hx
  have hcr := countRoots_pos s ρ hρ hroot
  have := hb x hx
  omega

theorem findN_master (d : Nat → Nat) :
    ∀ (fuel : Nat) (s : List Node) (x : Nat),
      measOK s d → x < s.length → d x < fuel →
      (findN fuel s x).1.length = s.length ∧
      (findN fuel s x).2 < s.length ∧
      (s.getD (findN fuel s x).2 defaultNode).parent = (findN fuel s x).2 ∧
      d (findN fuel s x).2 ≤ d x ∧
      (∀ y, ((findN fuel s x).1.getD y defaultNode).parent = y ↔
        (s.getD y defaultNode).parent = y) ∧
      (∀ y, ((findN fuel s x).1.getD y defaultNode).id =
              (s.getD y defaultNode).id ∧
            ((findN fuel s x).1.getD y defaultNode).voltage =
              (s.getD y defaultNode).voltage ∧
            ((findN fuel s x).1.getD y defaultNode).isGND =
              (s.getD y defaultNode).isGND) ∧
      measOK (findN fuel s x).1 d
  | 0, s, x, _, _, hf => absurd hf (by omega)
  | fuel + 1, s, x, hm, hx, hf => by
    simp only [findN]
    by_cases hr : (s.getD x defaultNode).parent = x
    · rw [if_pos hr]
      exact ⟨rfl, hx, hr, Nat.le_refl _, fun y => Iff.rfl,
        fun y => ⟨rfl, rfl, rfl⟩, hm⟩
    · rw [if_neg hr]
      have hp := hm x hx hr
      have ih := findN_master d fuel s ((s.getD x defaultNode).parent) hm
        hp.1 (by omega)
      obtain ⟨ihlen, ihrlt, ihroot, ihdle, ihiff, ihflds, ihmeas⟩ := ih
      have hrx : (findN fuel s ((s.getD x defaultNode).parent)).2 ≠ x := by
        intro hc
        rw [hc] at ihroot
        exact hr ihroot
      have hxlen : x <
          (findN fuel s ((s.getD x defaultNode).parent)).1.length := by
        rw [ihlen]; exact hx
      refine ⟨?_, ihrlt, ihroot,
        Nat.le_trans ihdle (Nat.le_of_lt hp.2), ?_, ?_, ?_⟩
      · rw [List.length_set]; exact ihlen
      · intro y
        rw [getD_set]
        by_cases hyx : y = x
        · rw [if_pos ⟨hyx, hxlen⟩]
          constructor
          · intro hc
            exact absurd (hc.trans hyx) hrx
          · intro hc
            rw [hyx] at hc
            exact absurd hc hr
        · rw [if_neg (fun hc => hyx hc.1)]
          exact ihiff y
      · intro y
        rw [getD_set]
        by_cases hyx : y = x
        · rw [if_pos ⟨hyx, hxlen⟩, hyx]
          exact ⟨(ihflds x).1, (ihflds x).2.1, (ihflds x).2.2⟩
        · rw [if_neg (fun hc => hyx hc.1)]
          exact ihflds y
      · intro y hy hnr
        rw [List.length_set, ihlen] at hy
        rw [getD_set] at hnr ⊢
        by_cases hyx : y = x
        · rw [if_pos ⟨hyx, hxlen⟩] at hnr ⊢
          refine ⟨by rw [List.length_set, ihlen]; exact ihrlt, ?_⟩
          have h1 : d (findN fuel s ((s.getD x defaultNode).parent)).2 ≤
              d ((s.getD x defaultNode).parent) := ihdle
          rw [hyx]
          show d (findN fuel s ((s.getD x defaultNode).parent)).2 < d x
          omega
        · rw [if_neg (fun hc => hyx hc.1)] at hnr ⊢
          have h2 := ihmeas y (by rw [ihlen]; exact hy) hnr
          rw [List.length_set]
          exact h2

theorem findN_countRoots (d : Nat → Nat) (fuel : Nat) (s : List Node)
    (x : Nat) (hm : measOK s d) (hx : x < s.length) (hf : d x < fuel) :
    countRoots (findN fuel s x).1 = countRoots s := by
  have h := findN_master d fuel s x hm hx hf
  exact countRoots_congr s _ h.1 h.2.2.2.2.1

theorem unionN_master (s : List Node) (a b : Nat) (hwf : WFstore s)
    (ha : a < s.length) (hb : b < s.length) :
    (unionN s a b).length = s.length ∧ WFstore (unionN s a b) := by
  obtain ⟨d, hm, hbound⟩ := hwf
  have hda : d a < s.length := WF_d_lt s d hm hbound a ha
  have m1 := findN_master d s.length s a hm ha hda
  obtain ⟨m1len, m1rlt, m1root, _, m1iff, _, m1meas⟩ := m1
  have hcr1 : countRoots (findN s.length s a).1 = countRoots s :=
    findN_countRoots d s.length s a hm ha hda
  have hb1 : b < (findN s.length s a).1.length := by rw [m1len]; exact hb
  have hdb : d b < (findN s.length s a).1.length := by
    rw [m1len]
    exact WF_d_lt s d hm hbound b hb
  have m2 := findN_master d (findN s.length s a).1.length
    (findN s.length s a).1 b m1meas hb1 hdb
  obtain ⟨m2len, m2rlt, m2root, _, m2iff, _, m2meas⟩ := m2
  have hcr2 : countRoots (findN (findN s.length s a).1.length
      (findN s.length s a).1 b).1 = countRoots s := by
    rw [findN_countRoots d _ _ b m1meas hb1 hdb, hcr1]
  have hlen2 : (findN (findN s.length s a).1.length
      (findN s.length s a).1 b).1.length = s.length := by
    rw [m2len, m1len]
  simp only [unionN]
  split
  · -- the two roots differ: re-parent r1 onto r2
    rename_i hne
    set s1 := (findN s.length s a).1 with hs1
    set r1 := (findN s.length s a).2 with hr1
    set s2 := (findN s1.length s1 b).1 with hs2
    set r2 := (findN s1.length s1 b).2 with hr2
    have hroot1s2 : (s2.getD r1 defaultNode).parent = r1 := by
      rw [m2iff r1, m1iff r1]
      exact m1root
    have hroot2s2 : (s2.getD r2 defaultNode).parent = r2 := by
      rw [m2iff r2]
      exact m2root
    have hr1lt : r1 < s2.length := by rw [hlen2]; exact m1rlt
    have hr2lt : r2 < s2.length := by rw [m2len]; exact m2rlt
    constructor
    · rw [List.length_set, hlen2]
    · refine ⟨fun z => if z = r2 then 0 else d z + 1, ?_, ?_⟩
      · intro y hy hnr
        rw [List.length_set] at hy
        rw [getD_set] at hnr ⊢
        by_cases hyr1 : y = r1
        · rw [if_pos ⟨hyr1, hr1lt⟩] at hnr ⊢
          refine ⟨by rw [List.length_set]; exact hr2lt, ?_⟩
          show (if r2 = r2 then 0 else d r2 + 1) <
            if y = r2 then 0 else d y + 1
          rw [if_pos rfl, hyr1, if_neg hne]
          omega
        · rw [if_neg (fun hc => hyr1 hc.1)] at hnr ⊢
          have h2 := m2meas y hy hnr
          have hyr2 : y ≠ r2 := by
            intro hc
            rw [hc] at hnr
            exact hnr hroot2s2
          rw [List.length_set]
          refine ⟨h2.1, ?_⟩
          show (if (s2.getD y defaultNode).parent = r2 then 0
              else d ((s2.getD y defaultNode).parent) + 1) <
            if y = r2 then 0 else d y + 1
          rw [if_neg hyr2]
          by_cases hpr2 : (s2.getD y defaultNode).parent = r2
          · rw [if_pos hpr2]
            omega
          · rw [if_neg hpr2]
            have := h2.2
            omega
      · intro z hz
        rw [List.length_set] at hz
        have hcr3 : countRoots (s2.set r1
            { s2.getD r1 defaultNode with parent := r2 }) <
            countRoots s2 := by
          rw [countRoots, countRoots, List.length_set]
          refine countP_lt_of_witness _ _ _ ?_ r1
            (List.mem_range.mpr hr1lt) ?_ ?_
          · intro y _ hy
            rw [beq_iff_eq] at hy ⊢
            rw [getD_set] at hy
            by_cases hyr1 : y = r1
            · rw [if_pos ⟨hyr1, hr1lt⟩] at hy
              exact absurd (show r1 = r2 from (hy.trans hyr1).symm) hne
            · rw [if_neg (fun hc => hyr1 hc.1)] at hy
              exact hy
          · rw [beq_eq_false_iff_ne]
            rw [getD_set, if_pos ⟨rfl, hr1lt⟩]
            show r2 ≠ r1
            exact fun hc => hne hc.symm
          · exact beq_iff_eq.mpr hroot1s2
        have hz2 : z < s.length := by rw [← hlen2]; exact hz
        have hble := hbound z hz2
        have hcrle := countRoots_le s
        show (if z = r2 then 0 else d z + 1) +
            countRoots (s2.set r1
              { s2.getD r1 defaultNode with parent := r2 }) ≤
          (s2.set r1 { s2.getD r1 defaultNode with parent := r2 }).length
        rw [List.length_set, hlen2]
        by_cases hzr2 : z = r2
        · rw [if_pos hzr2]
          omega
        · rw [if_neg hzr2]
          omega
  · -- roots equal: no write
    constructor
    · exact hlen2
    · refine ⟨d, m2meas, ?_⟩
      intro z hz
      rw [hlen2] at hz
      rw [hlen2, hcr2]
      exact hbound z hz

theorem getD_some_mem {α : Type} (l : List (Option α)) (i : Nat) (a : α)
    (h : l.getD i none = some a) : some a ∈ l := by
  rcases Nat.lt_or_ge i l.length with hlt | hge
  · rw [List.getD_eq_getElem l none hlt] at h
    rw [← h]
    exact List.getElem_mem hlt
  · rw [getD_of_length_le l none i hge] at h
    exact absurd h (by intro hc; exact Option.noConfusion hc)

theorem getD_mem_or_default {α : Type} (l : List α) (i : Nat) (d : α) :
    l.getD i d ∈ l ∨ l.getD i d = d := by
  rcases Nat.lt_or_ge i l.length with hlt | hge
  · left
    rw [List.getD_eq_getElem l d hlt]
    exact List.getElem_mem hlt
  · right
    exact getD_of_length_le l d i hge

theorem wireStep_wf (cs : List Component) (s : List Node) (w : Wire)
    (hwf : WFstore s)
    (hsl : ∀ c ∈ cs, ∀ r : Nat, some r ∈ c.nodes → r < s.length) :
    (wireStep cs s w).length = s.length ∧ WFstore (wireStep cs s w) := by
  simp only [wireStep]
  rcases hsa : (cs.getD w.startComp defaultComponent).nodes.getD
      w.startTerm none with _ | a
  · exact ⟨rfl, hwf⟩
  · rcases hsb : (cs.getD w.endComp defaultComponent).nodes.getD
        w.endTerm none with _ | bb
    · exact ⟨rfl, hwf⟩
    · have hma := getD_some_mem _ _ _ hsa
      have hmb := getD_some_mem _ _ _ hsb
      have hal : a < s.length := by
        rcases getD_mem_or_default cs w.startComp defaultComponent with
          hmem | hdef
        · exact hsl _ hmem a hma
        · rw [hdef] at hma
          exact absurd hma (by intro hc; simp [defaultComponent] at hc)
      have hbl : bb < s.length := by
        rcases getD_mem_or_default cs w.endComp defaultComponent with
          hmem | hdef
        · exact hsl _ hmem bb hmb
        · rw [hdef] at hmb
          exact absurd hmb (by intro hc; simp [defaultComponent] at hc)
      exact unionN_master s a bb hwf hal hbl

theorem processWires_wf (cs : List Component) :
    ∀ (ws : List Wire) (s : List Node), WFstore s →
      (∀ c ∈ cs, ∀ r : Nat, some r ∈ c.nodes → r < s.length) →
      (processWires cs s ws).length = s.length ∧
      WFstore (processWires cs s ws)
  | [], _, hwf, _ => ⟨rfl, hwf⟩
  | w :: rest, s, hwf, hsl => by
    have h1 := wireStep_wf cs s w hwf hsl
    have h2 := processWires_wf cs rest (wireStep cs s w) h1.2
      (fun c hc r hr => by rw [h1.1]; exact hsl c hc r hr)
    rw [processWires]
    exact ⟨h2.1.trans h1.1, h2.2⟩

theorem findSlots_master (d : Nat → Nat) :
    ∀ (slots : List (Option Nat)) (acc : List Node × List (Option Nat)),
      measOK acc.1 d →
      (∀ x, x < acc.1.length → d x + countRoots acc.1 ≤ acc.1.length) →
      (∀ r : Nat, some r ∈ slots → r < acc.1.length) →
      (findSlots acc slots).1.length = acc.1.length ∧
      measOK (findSlots acc slots).1 d ∧
      countRoots (findSlots acc slots).1 = countRoots acc.1 ∧
      (∀ y, ((findSlots acc slots).1.getD y defaultNode).parent = y ↔
        (acc.1.getD y defaultNode).parent = y) ∧
      (∀ y, ((findSlots acc slots).1.getD y defaultNode).id =
              (acc.1.getD y defaultNode).id ∧
            ((findSlots acc slots).1.getD y defaultNode).voltage =
              (acc.1.getD y defaultNode).voltage ∧
            ((findSlots acc slots).1.getD y defaultNode).isGND =
              (acc.1.getD y defaultNode).isGND) ∧
      (∀ r : Nat, some r ∈ (findSlots acc slots).2 →
        some r ∈ acc.2 ∨
        (r < acc.1.length ∧
          ((findSlots acc slots).1.getD r defaultNode).parent = r))
  | [], acc, hm, hbd, _ =>
    ⟨rfl, hm, rfl, fun y => Iff.rfl, fun y => ⟨rfl, rfl, rfl⟩,
     fun r hr => Or.inl hr⟩
  | none :: rest, acc, hm, hbd, hsl => by
    rw [findSlots]
    have ih := findSlots_master d rest (acc.1, acc.2 ++ [none]) hm hbd
      (fun r hr => hsl r (List.mem_cons_of_mem none hr))
    dsimp only at ih
    obtain ⟨ihlen, ihm, ihcr, ihiff, ihflds, ihslots⟩ := ih
    refine ⟨ihlen, ihm, ihcr, ihiff, ihflds, ?_⟩
    intro r hr
    rcases ihslots r hr with hin | hroot
    · rcases List.mem_append.mp hin with h1 | h1
      · exact Or.inl h1
      · exact absurd (List.mem_singleton.mp h1)
          (by intro hc; exact Option.noConfusion hc)
    · exact Or.inr hroot
  | some x :: rest, acc, hm, hbd, hsl => by
    rw [findSlots]
    have hx : x < acc.1.length :=
      hsl x (List.mem_cons_self (some x) rest)
    have hdx : d x < acc.1.length := WF_d_lt acc.1 d hm hbd x hx
    have m := findN_master d acc.1.length acc.1 x hm hx hdx
    obtain ⟨mlen, mrlt, mroot, _, miff, mflds, mmeas⟩ := m
    have hcr : countRoots (findN acc.1.length acc.1 x).1 =
        countRoots acc.1 := findN_countRoots d acc.1.length acc.1 x hm hx hdx
    have ih := findSlots_master d rest
      ((findN acc.1.length acc.1 x).1,
        acc.2 ++ [some (findN acc.1.length acc.1 x).2]) mmeas
      (by intro z hz
          rw [mlen] at hz
          show d z + countRoots (findN acc.1.length acc.1 x).1 ≤
            (findN acc.1.length acc.1 x).1.length
          rw [mlen, hcr]
          exact hbd z hz)
      (fun r hr => by
        rw [mlen]
        exact hsl r (List.mem_cons_of_mem (some x) hr))
    dsimp only at ih
    obtain ⟨ihlen, ihm, ihcr, ihiff, ihflds, ihslots⟩ := ih
    refine ⟨ihlen.trans mlen, ihm, by rw [ihcr, hcr], ?_, ?_, ?_⟩
    · intro y
      rw [ihiff y, miff y]
    · intro y
      have h1 := ihflds y
      have h2 := mflds y
      exact ⟨h1.1.trans h2.1, h1.2.1.trans h2.2.1, h1.2.2.trans h2.2.2⟩
    · intro r hr
      rcases ihslots r hr with hin | hroot
      · rcases List.mem_append.mp hin with h1 | h1
        · exact Or.inl h1
        · have hreq : r = (findN acc.1.length acc.1 x).2 := by
            have := List.mem_singleton.mp h1
            exact Option.some.inj this
          refine Or.inr ⟨by rw [hreq]; exact mrlt, ?_⟩
          rw [ihiff r, hreq, miff]
          exact mroot
      · refine Or.inr ⟨by rw [← mlen]; exact hroot.1, hroot.2⟩

theorem freshNodesFor_length (cid : String) (base k : Nat) :
    (freshNodesFor cid base k).length = k := by
  rw [freshNodesFor, List.length_map, List.length_range]

theorem freshNodesFor_parent (cid : String) (base k i : Nat) (h : i < k) :
    ((freshNodesFor cid base k).getD i defaultNode).parent = base + i := by
  have hlen : i < (freshNodesFor cid base k).length := by
    rw [freshNodesFor_length]; exact h
  rw [freshNodesFor] at hlen ⊢
  rw [List.getD_eq_getElem _ _ hlen, List.getElem_map,
    List.getElem_range]

theorem countRoots_append (s t : List Node)
    (ht : ∀ i, i < t.length →
      (t.getD i defaultNode).parent = s.length + i) :
    countRoots (s ++ t) = countRoots s + t.length := by
  rw [countRoots, countRoots, List.length_append, List.range_add,
    List.countP_append]
  congr 1
  · refine List.countP_congr ?_
    intro a ha
    rw [List.mem_range] at ha
    rw [List.getD_append s t defaultNode a ha]
  · rw [List.countP_map]
    have hall : ∀ a ∈ List.range t.length,
        (((fun x => ((s ++ t).getD x defaultNode).parent == x) ∘
          (s.length + ·)) a) = true := by
      intro a ha
      rw [List.mem_range] at ha
      show (((s ++ t).getD (s.length + a) defaultNode).parent ==
        (s.length + a)) = true
      rw [List.getD_append_right s t defaultNode (s.length + a)
        (Nat.le_add_right _ _)]
      have h2 : s.length + a - s.length = a := by omega
      rw [h2]
      exact beq_iff_eq.mpr (ht a ha)
    rw [List.countP_eq_length.mpr hall, List.length_range]

theorem WFstore_append (s t : List Node) (hw : WFstore s)
    (ht : ∀ i, i < t.length →
      (t.getD i defaultNode).parent = s.length + i) :
    WFstore (s ++ t) := by
  obtain ⟨d, hm, hb⟩ := hw
  refine ⟨fun x => if x < s.length then d x else 0, ?_, ?_⟩
  · intro x hx hnr
    rw [List.length_append] at hx
    by_cases hxs : x < s.length
    · rw [List.getD_append s t defaultNode x hxs] at hnr ⊢
      have h1 := hm x hxs hnr
      rw [List.length_append]
      refine ⟨by omega, ?_⟩
      show (if (s.getD x defaultNode).parent < s.length then
          d ((s.getD x defaultNode).parent) else 0) <
        if x < s.length then d x else 0
      rw [if_pos h1.1, if_pos hxs]
      exact h1.2
    · exfalso
      have hxge : s.length ≤ x := Nat.le_of_not_lt hxs
      rw [List.getD_append_right s t defaultNode x hxge] at hnr
      have hi : x - s.length < t.length := by omega
      have h2 := ht (x - s.length) hi
      rw [h2] at hnr
      exact hnr (by omega)
  · intro x hx
    show (if x < s.length then d x else 0) + countRoots (s ++ t) ≤
      (s ++ t).length
    rw [List.length_append] at hx
    rw [countRoots_append s t ht, List.length_append]
    by_cases hxs : x < s.length
    · rw [if_pos hxs]
      have := hb x hxs
      omega
    · rw [if_neg hxs]
      have := countRoots_le s
      omega

theorem phase1Step_wf (s : CircuitEngine) (ref : Nat)
    (hw : WFstore s.nodeStore) (hsl : slotsWF s) :
    WFstore (phase1Step s ref).nodeStore ∧ slotsWF (phase1Step s ref) ∧
    (phase1Step s ref).components = s.components ∧
    (phase1Step s ref).nodes = s.nodes ∧
    (phase1Step s ref).visualWires = s.visualWires ∧
    (phase1Step s ref).compStore.length = s.compStore.length := by
  simp only [phase1Step]
  refine ⟨?_, ?_, trivial, trivial, trivial, List.length_set _ _ _⟩
  · refine WFstore_append _ _ hw ?_
    intro i hi
    rw [freshNodesFor_length] at hi
    exact freshNodesFor_parent _ _ _ i hi
  · intro c hc r hr
    show r < (s.nodeStore ++ freshNodesFor
      (s.compStore.getD ref defaultComponent).id s.nodeStore.length
      (if (s.compStore.getD ref defaultComponent).type = "spdt"
        then 3 else 2)).length
    rw [List.length_append, freshNodesFor_length]
    rcases List.mem_or_eq_of_mem_set hc with hmem | heq
    · have := hsl c hmem r hr
      omega
    · rw [heq] at hr
      simp only at hr
      rcases List.mem_map.mp hr with ⟨i, hi, hieq⟩
      rw [List.mem_range] at hi
      have : r = s.nodeStore.length + i := (Option.some.inj hieq).symm
      omega

theorem phase1Aux_wf :
    ∀ (refs : List Nat) (s : CircuitEngine),
      WFstore s.nodeStore → slotsWF s →
      WFstore (phase1Aux s refs).nodeStore ∧
      slotsWF (phase1Aux s refs) ∧
      (phase1Aux s refs).components = s.components ∧
      (phase1Aux s refs).nodes = s.nodes ∧
      (phase1Aux s refs).visualWires = s.visualWires ∧
      (phase1Aux s refs).compStore.length = s.compStore.length
  | [], _, hw, hsl => ⟨hw, hsl, rfl, rfl, rfl, rfl⟩
  | ref :: rest, s, hw, hsl => by
    have h1 := phase1Step_wf s ref hw hsl
    have h2 := phase1Aux_wf rest (phase1Step s ref) h1.1 h1.2.1
    rw [phase1Aux]
    exact ⟨h2.1, h2.2.1, h2.2.2.1.trans h1.2.2.1,
      h2.2.2.2.1.trans h1.2.2.2.1,
      h2.2.2.2.2.1.trans h1.2.2.2.2.1,
      h2.2.2.2.2.2.trans h1.2.2.2.2.2⟩

theorem phase4Step_master (s : CircuitEngine) (ref : Nat)
    (hw : WFstore s.nodeStore) (hsl : slotsWF s) :
    (phase4Step s ref).nodeStore.length = s.nodeStore.length ∧
    WFstore (phase4Step s ref).nodeStore ∧
    slotsWF (phase4Step s ref) ∧
    (phase4Step s ref).components = s.components ∧
    (phase4Step s ref).nodes = s.nodes ∧
    (phase4Step s ref).visualWires = s.visualWires ∧
    (phase4Step s ref).compStore.length = s.compStore.length ∧
    (∀ y, (((phase4Step s ref).nodeStore.getD y defaultNode).parent = y ↔
      (s.nodeStore.getD y defaultNode).parent = y)) ∧
    (∀ q, q ≠ ref → (phase4Step s ref).compStore.getD q defaultComponent =
      s.compStore.getD q defaultComponent) ∧
    (∀ r : Nat, some r ∈ ((phase4Step s ref).compStore.getD ref
        defaultComponent).nodes →
      r < (phase4Step s ref).nodeStore.length ∧
      ((phase4Step s ref).nodeStore.getD r defaultNode).parent = r) := by
  obtain ⟨d, hm, hb⟩ := hw
  have hcslots : ∀ r : Nat,
      some r ∈ (s.compStore.getD ref defaultComponent).nodes →
      r < s.nodeStore.length := by
    intro r hr
    rcases getD_mem_or_default s.compStore ref defaultComponent with
      hmem | hdef
    · exact hsl _ hmem r hr
    · rw [hdef] at hr
      exact absurd hr (by intro hc; simp [defaultComponent] at hc)
  have fm := findSlots_master d
    (s.compStore.getD ref defaultComponent).nodes (s.nodeStore, []) hm hb
    hcslots
  dsimp only at fm
  obtain ⟨fmlen, fmm, fmcr, fmiff, _, fmslots⟩ := fm
  simp only [phase4Step]
  refine ⟨fmlen, ?_, ?_, trivial, trivial, trivial,
    List.length_set _ _ _, fmiff, ?_, ?_⟩
  · refine ⟨d, fmm, ?_⟩
    intro x hx
    rw [fmlen] at hx
    rw [fmlen, fmcr]
    exact hb x hx
  · intro c hc r hr
    show r < (findSlots (s.nodeStore, [])
      (s.compStore.getD ref defaultComponent).nodes).1.length
    rw [fmlen]
    rcases List.mem_or_eq_of_mem_set hc with hmem | heq
    · exact hsl c hmem r hr
    · rw [heq] at hr
      simp only at hr
      rcases fmslots r hr with hin | hroot
      · exact absurd hin (List.not_mem_nil _)
      · exact hroot.1
  · intro q hq
    rw [getD_set, if_neg (fun hc => hq hc.1)]
  · intro r hr
    rw [getD_set] at hr
    by_cases href : ref < s.compStore.length
    · rw [if_pos ⟨rfl, href⟩] at hr
      simp only at hr
      rcases fmslots r hr with hin | hroot
      · exact absurd hin (List.not_mem_nil _)
      · exact ⟨by rw [fmlen]; exact hroot.1, hroot.2⟩
    · rw [if_neg (fun hc => href hc.2)] at hr
      have hdef : s.compStore.getD ref defaultComponent =
          defaultComponent :=
        getD_of_length_le _ _ _ (Nat.le_of_not_lt href)
      rw [hdef] at hr
      exact absurd hr (by intro hc; simp [defaultComponent] at hc)

theorem phase4Aux_master :
    ∀ (refs : List Nat) (s : CircuitEngine),
      WFstore s.nodeStore → slotsWF s →
      (phase4Aux s refs).nodeStore.length = s.nodeStore.length ∧
      WFstore (phase4Aux s refs).nodeStore ∧
      slotsWF (phase4Aux s refs) ∧
      (phase4Aux s refs).components = s.components ∧
      (phase4Aux s refs).nodes = s.nodes ∧
      (phase4Aux s refs).visualWires = s.visualWires ∧
      (phase4Aux s refs).compStore.length = s.compStore.length ∧
      (∀ y, (((phase4Aux s refs).nodeStore.getD y defaultNode).parent = y ↔
        (s.nodeStore.getD y defaultNode).parent = y)) ∧
      (∀ q, q ∉ refs →
        (phase4Aux s refs).compStore.getD q defaultComponent =
          s.compStore.getD q defaultComponent) ∧
      (∀ ref ∈ refs, ∀ r : Nat,
        some r ∈ ((phase4Aux s refs).compStore.getD ref
          defaultComponent).nodes →
        r < (phase4Aux s refs).nodeStore.length ∧
        (((phase4Aux s refs).nodeStore.getD r defaultNode).parent = r))
  | [], s, hw, hsl => ⟨rfl, hw, hsl, rfl, rfl, rfl, rfl,
      fun _ => Iff.rfl, fun _ _ => rfl,
      fun ref href => absurd href (List.not_mem_nil ref)⟩
  | ref :: rest, s, hw, hsl => by
    have h1 := phase4Step_master s ref hw hsl
    obtain ⟨l1, w1, sl1, c1, n1, v1, cl1, iff1, keep1, root1⟩ := h1
    have h2 := phase4Aux_master rest (phase4Step s ref) w1 sl1
    obtain ⟨l2, w2, sl2, c2, n2, v2, cl2, iff2, keep2, root2⟩ := h2
    rw [phase4Aux]
    refine ⟨l2.trans l1, w2, sl2, c2.trans c1, n2.trans n1, v2.trans v1,
      cl2.trans cl1, fun y => (iff2 y).trans (iff1 y), ?_, ?_⟩
    · intro q hq
      have hqref : q ≠ ref :=
        fun hc => hq (hc ▸ List.mem_cons_self ref rest)
      have hqrest : q ∉ rest := fun hc => hq (List.mem_cons_of_mem ref hc)
      rw [keep2 q hqrest, keep1 q hqref]
    · intro rf hrf r hr
      rcases List.mem_cons.mp hrf with heq | hmem
      · by_cases hrest : rf ∈ rest
        · exact root2 rf hrest r hr
        · rw [keep2 rf hrest, heq] at hr
          have h3 := root1 r hr
          refine ⟨by rw [l2]; exact h3.1, ?_⟩
          rw [iff2 r]
          exact h3.2
      · exact root2 rf hmem r hr

theorem collectSlots_mem :
    ∀ (slots : List (Option Nat)) (acc : List Nat) (r : Nat),
      r ∈ collectSlots acc slots ↔ r ∈ acc ∨ some r ∈ slots
  | [], acc, r => by
    simp only [collectSlots]
    constructor
    · exact fun h => Or.inl h
    · rintro (h | h)
      · exact h
      · exact absurd h (List.not_mem_nil _)
  | none :: rest, acc, r => by
    simp only [collectSlots]
    rw [collectSlots_mem rest acc r]
    constructor
    · rintro (h | h)
      · exact Or.inl h
      · exact Or.inr (List.mem_cons_of_mem none h)
    · rintro (h | h)
      · exact Or.inl h
      · rcases List.mem_cons.mp h with h1 | h1
        · exact absurd h1 (by intro hc; exact Option.noConfusion hc)
        · exact Or.inr h1
  | some x :: rest, acc, r => by
    simp only [collectSlots]
    rw [collectSlots_mem rest _ r]
    constructor
    · rintro (h | h)
      · by_cases hx : x ∈ acc
        · rw [if_pos hx] at h
          exact Or.inl h
        · rw [if_neg hx] at h
          rcases List.mem_append.mp h with h1 | h1
          · exact Or.inl h1
          · have hrx : r = x := List.mem_singleton.mp h1
            right
            rw [hrx]
            exact List.mem_cons_self (some x) rest
      · exact Or.inr (List.mem_cons_of_mem (some x) h)
    · rintro (h | h)
      · left
        by_cases hx : x ∈ acc
        · rw [if_pos hx]; exact h
        · rw [if_neg hx]
          exact List.mem_append.mpr (Or.inl h)
      · rcases List.mem_cons.mp h with h1 | h1
        · have hrx : r = x := Option.some.inj h1
          left
          by_cases hx : x ∈ acc
          · rw [if_pos hx, hrx]; exact hx
          · rw [if_neg hx]
            refine List.mem_append.mpr (Or.inr ?_)
            rw [hrx]
            exact List.mem_singleton.mpr rfl
        · exact Or.inr h1

theorem collectSlots_nodup :
    ∀ (slots : List (Option Nat)) (acc : List Nat), acc.Nodup →
      (collectSlots acc slots).Nodup
  | [], _, h => h
  | none :: rest, acc, h => by
    simp only [collectSlots]
    exact collectSlots_nodup rest acc h
  | some x :: rest, acc, h => by
    simp only [collectSlots]
    by_cases hx : x ∈ acc
    · rw [if_pos hx]
      exact collectSlots_nodup rest acc h
    · rw [if_neg hx]
      refine collectSlots_nodup rest _ ?_
      rw [List.nodup_append]
      refine ⟨h, List.nodup_singleton x, ?_⟩
      intro a ha hax
      rw [List.mem_singleton] at hax
      rw [hax] at ha
      exact hx ha

theorem collectNodesAux_mem (cs : List Component) :
    ∀ (refs : List Nat) (acc : List Nat) (r : Nat),
      r ∈ collectNodesAux cs acc refs ↔
        r ∈ acc ∨
        ∃ ref ∈ refs, some r ∈ (cs.getD ref defaultComponent).nodes
  | [], acc, r => by
    rw [collectNodesAux]
    constructor
    · exact fun h => Or.inl h
    · rintro (h | ⟨ref, href, _⟩)
      · exact h
      · exact absurd href (List.not_mem_nil _)
  | ref :: rest, acc, r => by
    rw [collectNodesAux, collectNodesAux_mem cs rest _ r,
      collectSlots_mem]
    constructor
    · rintro ((h | h) | ⟨q, hq, hqr⟩)
      · exact Or.inl h
      · exact Or.inr ⟨ref, List.mem_cons_self _ _, h⟩
      · exact Or.inr ⟨q, List.mem_cons_of_mem _ hq, hqr⟩
    · rintro (h | ⟨q, hq, hqr⟩)
      · exact Or.inl (Or.inl h)
      · rcases List.mem_cons.mp hq with h1 | h1
        · exact Or.inl (Or.inr (h1 ▸ hqr))
        · exact Or.inr ⟨q, h1, hqr⟩

theorem collectNodesAux_nodup (cs : List Component) :
    ∀ (refs : List Nat) (acc : List Nat), acc.Nodup →
      (collectNodesAux cs acc refs).Nodup
  | [], _, h => h
  | ref :: rest, acc, h => by
    rw [collectNodesAux]
    exact collectNodesAux_nodup cs rest _
      (collectSlots_nodup _ acc h)

theorem assignIdsAux_frame :
    ∀ (ps : List (Nat × Nat)) (store : List Node),
      (assignIdsAux store ps).length = store.length ∧
      (∀ y, ((assignIdsAux store ps).getD y defaultNode).parent =
          (store.getD y defaultNode).parent ∧
        ((assignIdsAux store ps).getD y defaultNode).voltage =
          (store.getD y defaultNode).voltage ∧
        ((assignIdsAux store ps).getD y defaultNode).isGND =
          (store.getD y defaultNode).isGND)
  | [], _ => ⟨rfl, fun _ => ⟨rfl, rfl, rfl⟩⟩
  | p :: rest, store => by
    simp only [assignIdsAux]
    have ih := assignIdsAux_frame rest
      (store.set p.2 { store.getD p.2 defaultNode with
        id := "node_" ++ toString p.1 })
    refine ⟨ih.1.trans (List.length_set _ _ _), ?_⟩
    intro y
    have h2 := ih.2 y
    have h3 : ((store.set p.2 { store.getD p.2 defaultNode with
          id := "node_" ++ toString p.1 }).getD y defaultNode).parent =
          (store.getD y defaultNode).parent ∧
        ((store.set p.2 { store.getD p.2 defaultNode with
          id := "node_" ++ toString p.1 }).getD y defaultNode).voltage =
          (store.getD y defaultNode).voltage ∧
        ((store.set p.2 { store.getD p.2 defaultNode with
          id := "node_" ++ toString p.1 }).getD y defaultNode).isGND =
          (store.getD y defaultNode).isGND := by
      rw [getD_set]
      by_cases hc : y = p.2 ∧ p.2 < store.length
      · rw [if_pos hc, hc.1]
        exact ⟨rfl, rfl, rfl⟩
      · rw [if_neg hc]
        exact ⟨rfl, rfl, rfl⟩
    exact ⟨h2.1.trans h3.1, h2.2.1.trans h3.2.1, h2.2.2.trans h3.2.2⟩

theorem phase6_frame (st : CircuitEngine) :
    (phase6 st).components = st.components ∧
    (phase6 st).nodes = st.nodes ∧
    (phase6 st).compStore = st.compStore ∧
    (phase6 st).nodeStore.length = st.nodeStore.length ∧
    (∀ y, ((phase6 st).nodeStore.getD y defaultNode).parent =
      (st.nodeStore.getD y defaultNode).parent) := by
  simp only [phase6]
  split
  · split
    · rename_i slotv nref heq2
      refine ⟨rfl, rfl, rfl, List.length_set _ _ _, ?_⟩
      intro y
      rw [getD_set]
      by_cases hc : y = nref ∧ nref < st.nodeStore.length
      · rw [if_pos hc, hc.1]
      · rw [if_neg hc]
    · exact ⟨rfl, rfl, rfl, rfl, fun _ => rfl⟩
  · exact ⟨rfl, rfl, rfl, rfl, fun _ => rfl⟩

theorem nodeFrame_keeps (a b : Node) (h : nodeFrame a b) :
    b.parent = a.parent ∧ b.id = a.id ∧ b.isGND = a.isGND := by
  rw [nodeFrame] at h
  rw [h]
  exact ⟨rfl, rfl, rfl⟩

/-- **C6.** After every run of `rebuildCircuit` (on a well-formed heap:
parent pointers form a forest and terminal slots reference real nodes),
every terminal slot of every listed component references a union-find
root node, and the engine's node list consists exactly of the distinct
node references still held by at least one listed component — so no
component in the list references a node absent from the node list,
including after a component removal. -/
theorem c6_terminal_roots_and_node_list (st : CircuitEngine)
    (hwf : engineWF st) :
    (∀ ref ∈ (rebuildCircuit st).components, ∀ r : Nat,
        some r ∈ ((rebuildCircuit st).compStore.getD ref
          defaultComponent).nodes →
        ((rebuildCircuit st).nodeStore.getD r defaultNode).parent = r ∧
        r ∈ (rebuildCircuit st).nodes) ∧
    (∀ r ∈ (rebuildCircuit st).nodes,
      ∃ ref ∈ (rebuildCircuit st).components,
        some r ∈ ((rebuildCircuit st).compStore.getD ref
          defaultComponent).nodes) ∧
    (rebuildCircuit st).nodes.Nodup := by
  obtain ⟨hw0, hsl0⟩ := hwf
  have h1 := phase1Aux_wf st.components st hw0 hsl0
  rw [← phase1] at h1
  obtain ⟨w1, sl1, c1, n1, v1, cl1⟩ := h1
  have h3 := processWires_wf (phase1 st).compStore (phase1 st).visualWires
    (phase1 st).nodeStore w1 (fun c hc r hr => sl1 c hc r hr)
  set s3 : CircuitEngine := { phase1 st with
    nodeStore := processWires (phase1 st).compStore
      (phase1 st).nodeStore (phase1 st).visualWires } with hs3
  have hw3 : WFstore s3.nodeStore := h3.2
  have hlen3 : s3.nodeStore.length = (phase1 st).nodeStore.length := h3.1
  have hsl3 : slotsWF s3 := by
    intro c hc r hr
    show r < s3.nodeStore.length
    rw [hlen3]
    exact sl1 c hc r hr
  have h4 := phase4Aux_master s3.components s3 hw3 hsl3
  rw [← phase4] at h4
  obtain ⟨l4, w4, sl4, c4, n4, v4, cl4, iff4, keep4, root4⟩ := h4
  have hP : rebuildPre st = phase6
      { phase4 s3 with
        nodes := collectNodes (phase4 s3),
        nodeStore := assignIds (phase4 s3).nodeStore
          (collectNodes (phase4 s3)) } := rfl
  have h6 := phase6_frame ({ phase4 s3 with
    nodes := collectNodes (phase4 s3),
    nodeStore := assignIds (phase4 s3).nodeStore
      (collectNodes (phase4 s3)) })
  have ha := assignIdsAux_frame (collectNodes (phase4 s3)).enum
    (phase4 s3).nodeStore
  rw [← assignIds] at ha
  obtain ⟨fc, fn, fv, flen, fnode, fclen, fcomp⟩ :=
    solve_frame (rebuildPre st)
  have hs3c : s3.components = st.components := by
    show (phase1 st).components = st.components
    exact c1
  have hcomps : (rebuildCircuit st).components = st.components := by
    show (solve (rebuildPre st)).components = st.components
    rw [fc, hP, h6.1]
    show (phase4 s3).components = st.components
    rw [c4, hs3c]
  have hnodes : (rebuildCircuit st).nodes = collectNodes (phase4 s3) := by
    show (solve (rebuildPre st)).nodes = collectNodes (phase4 s3)
    rw [fn, hP, h6.2.1]
  have hslots : ∀ ref,
      ((rebuildCircuit st).compStore.getD ref defaultComponent).nodes =
      ((phase4 s3).compStore.getD ref defaultComponent).nodes := by
    intro ref
    have e1 := compFrame_nodes (fcomp ref)
    show ((solve (rebuildPre st)).compStore.getD ref
      defaultComponent).nodes = _
    rw [e1, hP, h6.2.2.1]
  have hpar : ∀ y,
      ((rebuildCircuit st).nodeStore.getD y defaultNode).parent =
      ((phase4 s3).nodeStore.getD y defaultNode).parent := by
    intro y
    have e1 := (nodeFrame_keeps _ _ (fnode y)).1
    show ((solve (rebuildPre st)).nodeStore.getD y defaultNode).parent = _
    rw [e1, hP, h6.2.2.2.2 y]
    show ((assignIds (phase4 s3).nodeStore
      (collectNodes (phase4 s3))).getD y defaultNode).parent = _
    rw [(ha.2 y).1]
  refine ⟨?_, ?_, ?_⟩
  · intro ref href r hr
    rw [hcomps] at href
    have hrefs3 : ref ∈ s3.components := by rw [hs3c]; exact href
    rw [hslots ref] at hr
    have h5 := root4 ref hrefs3 r hr
    constructor
    · rw [hpar r]
      exact h5.2
    · rw [hnodes, collectNodes]
      refine (collectNodesAux_mem _ _ _ _).mpr (Or.inr ⟨ref, ?_, hr⟩)
      rw [c4]
      exact hrefs3
  · intro r hrm
    rw [hnodes, collectNodes] at hrm
    rcases (collectNodesAux_mem _ _ _ _).mp hrm with h | ⟨ref, href, hslot⟩
    · exact absurd h (List.not_mem_nil _)
    · refine ⟨ref, ?_, ?_⟩
      · rw [hcomps]
        rw [c4, hs3c] at href
        exact href
      · rw [hslots ref]
        exact hslot
  · rw [hnodes, collectNodes]
    exact collectNodesAux_nodup _ _ _ List.nodup_nil

/-- Witness for C6: the three-resistor chain `exChain` (empty node store,
all slots null) is a well-formed heap, and the theorem applies to it. -/
theorem c6_terminal_roots_and_node_list_witness :
    engineWF exChain ∧
    ((∀ ref ∈ (rebuildCircuit exChain).components, ∀ r : Nat,
        some r ∈ ((rebuildCircuit exChain).compStore.getD ref
          defaultComponent).nodes →
        ((rebuildCircuit exChain).nodeStore.getD r defaultNode).parent =
          r ∧
        r ∈ (rebuildCircuit exChain).nodes) ∧
    (∀ r ∈ (rebuildCircuit exChain).nodes,
      ∃ ref ∈ (rebuildCircuit exChain).components,
        some r ∈ ((rebuildCircuit exChain).compStore.getD ref
          defaultComponent).nodes) ∧
    (rebuildCircuit exChain).nodes.Nodup) := by
  have hwf : engineWF exChain := by
    constructor
    · exact ⟨fun _ => 0, fun x hx => absurd hx (Nat.not_lt_zero x),
        fun x hx => absurd hx (Nat.not_lt_zero x)⟩
    · intro c hc r hr
      have hnodes : c.nodes = [none, none] := by
        rcases List.mem_cons.mp hc with h | h
        · rw [h]; decide
        · rcases List.mem_cons.mp h with h2 | h2
          · rw [h2]; decide
          · rw [List.mem_singleton.mp h2]; decide
      rw [hnodes] at hr
      rcases List.mem_cons.mp hr with h | h
      · exact absurd h (fun hc2 => Option.noConfusion hc2)
      · rcases List.mem_cons.mp h with h2 | h2
        · exact absurd h2 (fun hc2 => Option.noConfusion hc2)
        · exact absurd h2 (List.not_mem_nil _)
  exact ⟨hwf, c6_terminal_roots_and_node_list exChain hwf⟩

/-! ## C7: the second rebuild replays the first, block-shifted -/

theorem findN_sim (L0 L1 F : Nat) (d : Nat → Nat) :
    ∀ (fuel1 fuel2 : Nat) (s1 s2 : List Node) (x : Nat),
      blockSim L0 L1 F s1 s2 → measOK s1 d →
      L0 ≤ x → x < L0 + F → d x < fuel1 → d x < fuel2 →
      (findN fuel2 s2 (x - L0 + L1)).2 =
        (findN fuel1 s1 x).2 - L0 + L1 ∧
      L0 ≤ (findN fuel1 s1 x).2 ∧ (findN fuel1 s1 x).2 < L0 + F ∧
      blockSim L0 L1 F (findN fuel1 s1 x).1
        (findN fuel2 s2 (x - L0 + L1)).1
  | 0, _, _, _, _, _, _, _, _, hf1, _ => absurd hf1 (Nat.not_lt_zero _)
  | _ + 1, 0, _, _, _, _, _, _, _, _, hf2 =>
    absurd hf2 (Nat.not_lt_zero _)
  | fuel1 + 1, fuel2 + 1, s1, s2, x, hsim, hm, hxl, hxu, hf1, hf2 => by
    obtain ⟨hl1, hl2, hblk⟩ := hsim
    have hi : x - L0 < F := by omega
    have hx0 : L0 + (x - L0) = x := by omega
    have hx2 : L1 + (x - L0) = x - L0 + L1 := by omega
    have hb := hblk (x - L0) hi
    rw [hx0, hx2] at hb
    obtain ⟨hid, hvol, hgnd, hpl, hpu, hpar⟩ := hb
    simp only [findN]
    by_cases hr : (s1.getD x defaultNode).parent = x
    · rw [if_pos hr]
      have hr2 : (s2.getD (x - L0 + L1) defaultNode).parent =
          x - L0 + L1 := by
        rw [hpar, hr]
      rw [if_pos hr2]
      exact ⟨rfl, hxl, hxu, ⟨hl1, hl2, hblk⟩⟩
    · rw [if_neg hr]
      have hr2 : ¬ (s2.getD (x - L0 + L1) defaultNode).parent =
          x - L0 + L1 := by
        rw [hpar]
        intro hc
        exact hr (by omega)
      rw [if_neg hr2]
      have hmx := hm x (by rw [hl1]; omega) hr
      have ih := findN_sim L0 L1 F d fuel1 fuel2 s1 s2
        ((s1.getD x defaultNode).parent) ⟨hl1, hl2, hblk⟩ hm hpl hpu
        (by omega) (by omega)
      obtain ⟨ihr, ihl, ihu, ihsim⟩ := ih
      obtain ⟨el1, el2, eblk⟩ := ihsim
      rw [hpar]
      refine ⟨ihr, ihl, ihu, ?_, ?_, ?_⟩
      · rw [List.length_set]; exact el1
      · rw [List.length_set]; exact el2
      · intro j hj
        by_cases hji : j = x - L0
        · have hLx : L0 + j = x := by omega
          have hLx2 : L1 + j = x - L0 + L1 := by omega
          rw [hLx, hLx2, getD_set, getD_set,
            if_pos ⟨rfl, by rw [el2]; omega⟩,
            if_pos ⟨rfl, by rw [el1]; omega⟩]
          have hbe := eblk (x - L0) hi
          rw [hx0, hx2] at hbe
          obtain ⟨eid, evol, egnd, _, _, _⟩ := hbe
          exact ⟨eid, evol, egnd, ihl, ihu, ihr⟩
        · have hne1 : L0 + j ≠ x := by omega
          have hne2 : L1 + j ≠ x - L0 + L1 := by omega
          rw [getD_set, getD_set, if_neg (fun hc => hne2 hc.1),
            if_neg (fun hc => hne1 hc.1)]
          exact eblk j hj

theorem unionN_sim (L0 L1 F : Nat) (s1 s2 : List Node) (a b : Nat)
    (hL : L0 ≤ L1)
    (hsim : blockSim L0 L1 F s1 s2) (hwf : WFstore s1)
    (hal : L0 ≤ a) (hau : a < L0 + F) (hbl : L0 ≤ b) (hbu : b < L0 + F) :
    blockSim L0 L1 F (unionN s1 a b)
      (unionN s2 (a - L0 + L1) (b - L0 + L1)) := by
  obtain ⟨d, hm, hbd⟩ := hwf
  obtain ⟨hl1, hl2, hblk⟩ := hsim
  have has : a < s1.length := by omega
  have hbs : b < s1.length := by omega
  have hda : d a < s1.length := WF_d_lt s1 d hm hbd a has
  have hda2 : d a < s2.length := by
    rw [hl2]
    rw [hl1] at hda
    omega
  have f1 := findN_sim L0 L1 F d s1.length s2.length s1 s2 a
    ⟨hl1, hl2, hblk⟩ hm hal hau hda hda2
  obtain ⟨f1r, f1l, f1u, f1sim⟩ := f1
  have m1 := findN_master d s1.length s1 a hm has hda
  have hdb0 : d b < s1.length := WF_d_lt s1 d hm hbd b hbs
  have hdb : d b < (findN s1.length s1 a).1.length := by
    rw [m1.1]
    exact hdb0
  have hdb2 : d b <
      (findN s2.length s2 (a - L0 + L1)).1.length := by
    rw [f1sim.2.1]
    rw [hl1] at hdb0
    omega
  have f2 := findN_sim L0 L1 F d (findN s1.length s1 a).1.length
    (findN s2.length s2 (a - L0 + L1)).1.length
    (findN s1.length s1 a).1 (findN s2.length s2 (a - L0 + L1)).1 b
    f1sim m1.2.2.2.2.2.2 hbl hbu hdb hdb2
  obtain ⟨f2r, f2l, f2u, f2sim⟩ := f2
  obtain ⟨g1, g2, gblk⟩ := f2sim
  simp only [unionN]
  by_cases hrr : (findN s1.length s1 a).2 =
      (findN (findN s1.length s1 a).1.length (findN s1.length s1 a).1 b).2
  · rw [if_neg (by intro hc; exact hc hrr), if_neg (by
      intro hc
      refine hc ?_
      rw [f1r, f2r, hrr])]
    exact ⟨g1, g2, gblk⟩
  · rw [if_pos hrr, if_pos (by
      rw [f1r, f2r]
      intro hc
      exact hrr (by omega))]
    constructor
    · rw [List.length_set]
      exact g1
    constructor
    · rw [List.length_set]
      exact g2
    intro j hj
    by_cases hji : j = (findN s1.length s1 a).2 - L0
    · have hLx : L0 + j = (findN s1.length s1 a).2 := by omega
      have hLx2 : L1 + j = (findN s1.length s1 a).2 - L0 + L1 := by
        omega
      have hbe := gblk j hj
      rw [hLx, hLx2] at hbe
      obtain ⟨eid, evol, egnd, _, _, _⟩ := hbe
      rw [hLx, hLx2, f1r, f2r, getD_set, getD_set,
        if_pos ⟨rfl, by rw [g2]; omega⟩,
        if_pos ⟨rfl, by rw [g1]; omega⟩]
      exact ⟨eid, evol, egnd, f2l, f2u, rfl⟩
    · have hne1 : L0 + j ≠ (findN s1.length s1 a).2 := by omega
      have hne2 : L1 + j ≠ (findN s1.length s1 a).2 - L0 + L1 := by
        omega
      rw [f1r, getD_set, getD_set,
        if_neg (fun hc => hne2 hc.1),
        if_neg (fun hc => hne1 hc.1)]
      exact gblk j hj

theorem slotShift_none (L0 L1 : Nat) : slotShift L0 L1 none = none := rfl

theorem slotShift_some (L0 L1 x : Nat) :
    slotShift L0 L1 (some x) = some (x - L0 + L1) := rfl

theorem getD_map_slotShift (L0 L1 : Nat) (l : List (Option Nat))
    (t : Nat) :
    (l.map (slotShift L0 L1)).getD t none =
      slotShift L0 L1 (l.getD t none) := by
  rcases Nat.lt_or_ge t l.length with h | h
  · rw [List.getD_eq_getElem _ none (by rw [List.length_map]; exact h),
      List.getElem_map, List.getD_eq_getElem _ none h]
  · rw [getD_of_length_le _ none t (by rw [List.length_map]; exact h),
      getD_of_length_le _ none t h]
    rfl

theorem wireStep_sim (L0 L1 F : Nat) (cs1 cs2 : List Component)
    (live : List Nat) (s1 s2 : List Node) (w : Wire) (hL : L0 ≤ L1)
    (hsim : blockSim L0 L1 F s1 s2) (hwf : WFstore s1)
    (hlive : w.startComp ∈ live ∧ w.endComp ∈ live)
    (hcomp : ∀ ref ∈ live,
      (cs2.getD ref defaultComponent).nodes =
        (cs1.getD ref defaultComponent).nodes.map (slotShift L0 L1) ∧
      slotsInBlock L0 F (cs1.getD ref defaultComponent)) :
    blockSim L0 L1 F (wireStep cs1 s1 w) (wireStep cs2 s2 w) := by
  have e2a : (cs2.getD w.startComp defaultComponent).nodes.getD
      w.startTerm none = slotShift L0 L1
      ((cs1.getD w.startComp defaultComponent).nodes.getD
        w.startTerm none) := by
    rw [(hcomp _ hlive.1).1, getD_map_slotShift]
  have e2b : (cs2.getD w.endComp defaultComponent).nodes.getD
      w.endTerm none = slotShift L0 L1
      ((cs1.getD w.endComp defaultComponent).nodes.getD
        w.endTerm none) := by
    rw [(hcomp _ hlive.2).1, getD_map_slotShift]
  rcases hs1a : (cs1.getD w.startComp defaultComponent).nodes.getD
      w.startTerm none with _ | a <;>
    rcases hs1b : (cs1.getD w.endComp defaultComponent).nodes.getD
      w.endTerm none with _ | b
  · have e1 : wireStep cs1 s1 w = s1 := by
      simp only [wireStep]
      rw [hs1a, hs1b]
    have e2 : wireStep cs2 s2 w = s2 := by
      simp only [wireStep]
      rw [e2a, e2b, hs1a, hs1b, slotShift_none]
    rw [e1, e2]
    exact hsim
  · have e1 : wireStep cs1 s1 w = s1 := by
      simp only [wireStep]
      rw [hs1a, hs1b]
    have e2 : wireStep cs2 s2 w = s2 := by
      simp only [wireStep]
      rw [e2a, e2b, hs1a, hs1b, slotShift_none, slotShift_some]
    rw [e1, e2]
    exact hsim
  · have e1 : wireStep cs1 s1 w = s1 := by
      simp only [wireStep]
      rw [hs1a, hs1b]
    have e2 : wireStep cs2 s2 w = s2 := by
      simp only [wireStep]
      rw [e2a, e2b, hs1a, hs1b, slotShift_none, slotShift_some]
    rw [e1, e2]
    exact hsim
  · have e1 : wireStep cs1 s1 w = unionN s1 a b := by
      simp only [wireStep]
      rw [hs1a, hs1b]
    have e2 : wireStep cs2 s2 w =
        unionN s2 (a - L0 + L1) (b - L0 + L1) := by
      simp only [wireStep]
      rw [e2a, e2b, hs1a, hs1b, slotShift_some, slotShift_some]
    rw [e1, e2]
    have hma := getD_some_mem _ _ _ hs1a
    have hmb := getD_some_mem _ _ _ hs1b
    have hab := (hcomp _ hlive.1).2 a hma
    have hbb := (hcomp _ hlive.2).2 b hmb
    exact unionN_sim L0 L1 F s1 s2 a b hL hsim hwf hab.1 hab.2 hbb.1
      hbb.2

theorem processWires_sim (L0 L1 F : Nat) (cs1 cs2 : List Component)
    (live : List Nat) (hL : L0 ≤ L1)
    (hcomp : ∀ ref ∈ live,
      (cs2.getD ref defaultComponent).nodes =
        (cs1.getD ref defaultComponent).nodes.map (slotShift L0 L1) ∧
      slotsInBlock L0 F (cs1.getD ref defaultComponent)) :
    ∀ (ws : List Wire) (s1 s2 : List Node),
      blockSim L0 L1 F s1 s2 → WFstore s1 →
      (∀ c ∈ cs1, ∀ r : Nat, some r ∈ c.nodes → r < s1.length) →
      (∀ w ∈ ws, w.startComp ∈ live ∧ w.endComp ∈ live) →
      blockSim L0 L1 F (processWires cs1 s1 ws) (processWires cs2 s2 ws)
  | [], _, _, hsim, _, _, _ => hsim
  | w :: rest, s1, s2, hsim, hwf, hsl, hws => by
    rw [processWires, processWires]
    have hstep := wireStep_sim L0 L1 F cs1 cs2 live s1 s2 w hL hsim hwf
      (hws w (List.mem_cons_self w rest)) hcomp
    have hwfs := wireStep_wf cs1 s1 w hwf hsl
    exact processWires_sim L0 L1 F cs1 cs2 live hL hcomp rest
      (wireStep cs1 s1 w) (wireStep cs2 s2 w) hstep hwfs.2
      (fun c hc r hr => by rw [hwfs.1]; exact hsl c hc r hr)
      (fun w2 hw2 => hws w2 (List.mem_cons_of_mem w hw2))

theorem findSlots_sim (L0 L1 F : Nat) (hL : L0 ≤ L1) :
    ∀ (slots : List (Option Nat))
      (acc1 acc2 : List Node × List (Option Nat)),
      blockSim L0 L1 F acc1.1 acc2.1 → WFstore acc1.1 →
      (∀ x : Nat, some x ∈ slots → L0 ≤ x ∧ x < L0 + F) →
      acc2.2 = acc1.2.map (slotShift L0 L1) →
      blockSim L0 L1 F (findSlots acc1 slots).1
        (findSlots acc2 (slots.map (slotShift L0 L1))).1 ∧
      (findSlots acc2 (slots.map (slotShift L0 L1))).2 =
        (findSlots acc1 slots).2.map (slotShift L0 L1) ∧
      (∀ x : Nat, some x ∈ (findSlots acc1 slots).2 →
        some x ∈ acc1.2 ∨ (L0 ≤ x ∧ x < L0 + F))
  | [], acc1, acc2, hsim, _, _, hacc => by
    rw [List.map_nil]
    exact ⟨hsim, hacc, fun x hx => Or.inl hx⟩
  | none :: rest, acc1, acc2, hsim, hwf, hsl, hacc => by
    rw [List.map_cons, slotShift_none]
    rw [findSlots, findSlots]
    have ih := findSlots_sim L0 L1 F hL rest (acc1.1, acc1.2 ++ [none])
      (acc2.1, acc2.2 ++ [none]) hsim hwf
      (fun x hx => hsl x (List.mem_cons_of_mem none hx))
      (by
        show acc2.2 ++ [none] = (acc1.2 ++ [none]).map (slotShift L0 L1)
        rw [List.map_append, hacc]
        rfl)
    refine ⟨ih.1, ih.2.1, ?_⟩
    intro x hx
    rcases ih.2.2 x hx with hin | hblk
    · rcases List.mem_append.mp hin with h1 | h1
      · exact Or.inl h1
      · exact absurd (List.mem_singleton.mp h1)
          (fun hc => Option.noConfusion hc)
    · exact Or.inr hblk
  | some x :: rest, acc1, acc2, hsim, hwf, hsl, hacc => by
    rw [List.map_cons, slotShift_some]
    rw [findSlots, findSlots]
    obtain ⟨d, hm, hbd⟩ := hwf
    have hxb := hsl x (List.mem_cons_self (some x) rest)
    have hxlen : x < acc1.1.length := by rw [hsim.1]; omega
    have hdx : d x < acc1.1.length := WF_d_lt acc1.1 d hm hbd x hxlen
    have hdx2 : d x < acc2.1.length := by
      rw [hsim.2.1]
      rw [hsim.1] at hdx
      omega
    have fs := findN_sim L0 L1 F d acc1.1.length acc2.1.length acc1.1
      acc2.1 x hsim hm hxb.1 hxb.2 hdx hdx2
    obtain ⟨fr, fl, fu, fsim⟩ := fs
    have m1 := findN_master d acc1.1.length acc1.1 x hm hxlen hdx
    have hcr := findN_countRoots d acc1.1.length acc1.1 x hm hxlen hdx
    have hwf1 : WFstore (findN acc1.1.length acc1.1 x).1 := by
      refine ⟨d, m1.2.2.2.2.2.2, ?_⟩
      intro z hz
      rw [m1.1] at hz
      rw [m1.1, hcr]
      exact hbd z hz
    have ih := findSlots_sim L0 L1 F hL rest
      ((findN acc1.1.length acc1.1 x).1,
        acc1.2 ++ [some (findN acc1.1.length acc1.1 x).2])
      ((findN acc2.1.length acc2.1 (x - L0 + L1)).1,
        acc2.2 ++ [some (findN acc2.1.length acc2.1 (x - L0 + L1)).2])
      fsim hwf1 (fun z hz => hsl z (List.mem_cons_of_mem (some x) hz))
      (by
        show acc2.2 ++ [some (findN acc2.1.length acc2.1
            (x - L0 + L1)).2] =
          (acc1.2 ++ [some (findN acc1.1.length acc1.1 x).2]).map
            (slotShift L0 L1)
        rw [List.map_append, hacc, fr]
        rfl)
    refine ⟨ih.1, ih.2.1, ?_⟩
    intro z hz
    rcases ih.2.2 z hz with hin | hblk
    · rcases List.mem_append.mp hin with h1 | h1
      · exact Or.inl h1
      · have hze : z = (findN acc1.1.length acc1.1 x).2 :=
          Option.some.inj (List.mem_singleton.mp h1)
        exact Or.inr ⟨by rw [hze]; exact fl, by rw [hze]; exact fu⟩
    · exact Or.inr hblk

theorem phase4Step_fields (s : CircuitEngine) (ref : Nat) :
    (phase4Step s ref).components = s.components ∧
    (phase4Step s ref).nodes = s.nodes ∧
    (phase4Step s ref).visualWires = s.visualWires ∧
    (phase4Step s ref).compStore.length = s.compStore.length := by
  simp only [phase4Step]
  exact ⟨trivial, trivial, trivial, List.length_set _ _ _⟩

theorem phase4Step_sim (L0 L1 F : Nat) (hL : L0 ≤ L1)
    (e1 e2 : CircuitEngine) (ref : Nat)
    (hsim : blockSim L0 L1 F e1.nodeStore e2.nodeStore)
    (hwf : WFstore e1.nodeStore)
    (hclen : e2.compStore.length = e1.compStore.length)
    (hcsim : compSim L0 L1 (e1.compStore.getD ref defaultComponent)
      (e2.compStore.getD ref defaultComponent))
    (hcb : slotsInBlock L0 F (e1.compStore.getD ref defaultComponent)) :
    blockSim L0 L1 F (phase4Step e1 ref).nodeStore
      (phase4Step e2 ref).nodeStore ∧
    compSim L0 L1 ((phase4Step e1 ref).compStore.getD ref
        defaultComponent)
      ((phase4Step e2 ref).compStore.getD ref defaultComponent) ∧
    slotsInBlock L0 F ((phase4Step e1 ref).compStore.getD ref
      defaultComponent) ∧
    (∀ q, q ≠ ref →
      (phase4Step e1 ref).compStore.getD q defaultComponent =
        e1.compStore.getD q defaultComponent ∧
      (phase4Step e2 ref).compStore.getD q defaultComponent =
        e2.compStore.getD q defaultComponent) := by
  obtain ⟨hid, hty, hre, hvo, hop, hsp, hns⟩ := hcsim
  have hfs := findSlots_sim L0 L1 F hL
    (e1.compStore.getD ref defaultComponent).nodes
    (e1.nodeStore, []) (e2.nodeStore, []) hsim hwf hcb rfl
  simp only [phase4Step]
  rw [hns]
  refine ⟨hfs.1, ?_, ?_, ?_⟩
  · rw [getD_set, getD_set]
    by_cases href : ref < e1.compStore.length
    · rw [if_pos ⟨rfl, href⟩, if_pos ⟨rfl, by rw [hclen]; exact href⟩]
      exact ⟨hid, hty, hre, hvo, hop, hsp, by
        show (findSlots (e2.nodeStore, [])
            ((e1.compStore.getD ref defaultComponent).nodes.map
              (slotShift L0 L1))).2 = _
        rw [hfs.2.1]⟩
    · rw [if_neg (fun hc => href hc.2),
        if_neg (fun hc => href (by rw [← hclen]; exact hc.2))]
      exact ⟨hid, hty, hre, hvo, hop, hsp, hns⟩
  · rw [getD_set]
    by_cases href : ref < e1.compStore.length
    · rw [if_pos ⟨rfl, href⟩]
      intro x hx
      rcases hfs.2.2 x hx with hin | hblk
      · exact absurd hin (List.not_mem_nil _)
      · exact hblk
    · rw [if_neg (fun hc => href hc.2)]
      exact hcb
  · intro q hq
    rw [getD_set, getD_set, if_neg (fun hc => hq hc.1),
      if_neg (fun hc => hq hc.1)]
    exact ⟨rfl, rfl⟩

theorem phase4Aux_sim (L0 L1 F : Nat) (hL : L0 ≤ L1) :
    ∀ (refs : List Nat) (e1 e2 : CircuitEngine),
      blockSim L0 L1 F e1.nodeStore e2.nodeStore →
      WFstore e1.nodeStore → slotsWF e1 →
      e2.compStore.length = e1.compStore.length →
      (∀ ref ∈ refs,
        compSim L0 L1 (e1.compStore.getD ref defaultComponent)
          (e2.compStore.getD ref defaultComponent) ∧
        slotsInBlock L0 F (e1.compStore.getD ref defaultComponent)) →
      blockSim L0 L1 F (phase4Aux e1 refs).nodeStore
        (phase4Aux e2 refs).nodeStore ∧
      (∀ ref ∈ refs,
        compSim L0 L1
          ((phase4Aux e1 refs).compStore.getD ref defaultComponent)
          ((phase4Aux e2 refs).compStore.getD ref defaultComponent) ∧
        slotsInBlock L0 F
          ((phase4Aux e1 refs).compStore.getD ref defaultComponent)) ∧
      (∀ q, q ∉ refs →
        (phase4Aux e1 refs).compStore.getD q defaultComponent =
          e1.compStore.getD q defaultComponent ∧
        (phase4Aux e2 refs).compStore.getD q defaultComponent =
          e2.compStore.getD q defaultComponent)
  | [], _, _, hsim, _, _, _, _ =>
    ⟨hsim, fun ref href => absurd href (List.not_mem_nil ref),
     fun _ _ => ⟨rfl, rfl⟩⟩
  | ref :: rest, e1, e2, hsim, hwf, hsl, hclen, hcomp => by
    have hstep := phase4Step_sim L0 L1 F hL e1 e2 ref hsim hwf hclen
      (hcomp ref (List.mem_cons_self ref rest)).1
      (hcomp ref (List.mem_cons_self ref rest)).2
    have hm1 := phase4Step_master e1 ref hwf hsl
    have hrest : ∀ q ∈ rest,
        compSim L0 L1
          ((phase4Step e1 ref).compStore.getD q defaultComponent)
          ((phase4Step e2 ref).compStore.getD q defaultComponent) ∧
        slotsInBlock L0 F
          ((phase4Step e1 ref).compStore.getD q defaultComponent) := by
      intro q hq
      by_cases hqr : q = ref
      · rw [hqr]
        exact ⟨hstep.2.1, hstep.2.2.1⟩
      · rw [(hstep.2.2.2 q hqr).1, (hstep.2.2.2 q hqr).2]
        exact hcomp q (List.mem_cons_of_mem ref hq)
    have hclen2 : (phase4Step e2 ref).compStore.length =
        (phase4Step e1 ref).compStore.length := by
      rw [(phase4Step_fields e2 ref).2.2.2,
        (phase4Step_fields e1 ref).2.2.2, hclen]
    have ih := phase4Aux_sim L0 L1 F hL rest (phase4Step e1 ref)
      (phase4Step e2 ref) hstep.1 hm1.2.1 hm1.2.2.1 hclen2 hrest
    rw [phase4Aux, phase4Aux]
    refine ⟨ih.1, ?_, ?_⟩
    · intro q hq
      rcases List.mem_cons.mp hq with heq | hmem
      · by_cases hqrest : q ∈ rest
        · exact ih.2.1 q hqrest
        · rw [(ih.2.2 q hqrest).1, (ih.2.2 q hqrest).2, heq]
          exact ⟨hstep.2.1, hstep.2.2.1⟩
      · exact ih.2.1 q hmem
    · intro q hq
      have hqref : q ≠ ref :=
        fun hc => hq (hc ▸ List.mem_cons_self ref rest)
      have hqrest : q ∉ rest :=
        fun hc => hq (List.mem_cons_of_mem ref hc)
      rw [(ih.2.2 q hqrest).1, (ih.2.2 q hqrest).2,
        (hstep.2.2.2 q hqref).1, (hstep.2.2.2 q hqref).2]
      exact ⟨rfl, rfl⟩

theorem freshNodesFor_getD (cid : String) (base k i : Nat) (h : i < k) :
    (freshNodesFor cid base k).getD i defaultNode =
      { id := "n_" ++ cid ++ "_" ++ toString i, voltage := 0,
        isGND := false, parent := base + i } := by
  have hlen : i < (freshNodesFor cid base k).length := by
    rw [freshNodesFor_length]; exact h
  rw [freshNodesFor] at hlen ⊢
  rw [List.getD_eq_getElem _ _ hlen, List.getElem_map,
    List.getElem_range]

theorem phase1Step_fields (s : CircuitEngine) (ref : Nat) :
    (phase1Step s ref).components = s.components ∧
    (phase1Step s ref).nodes = s.nodes ∧
    (phase1Step s ref).visualWires = s.visualWires ∧
    (phase1Step s ref).compStore.length = s.compStore.length := by
  simp only [phase1Step]
  exact ⟨trivial, trivial, trivial, List.length_set _ _ _⟩

theorem phase1Step_sim (L0 L1 G : Nat) (_hL : L0 ≤ L1)
    (e1 e2 : CircuitEngine) (ref : Nat)
    (hsim : blockSim L0 L1 G e1.nodeStore e2.nodeStore)
    (hclen : e2.compStore.length = e1.compStore.length)
    (hpre : compPre (e1.compStore.getD ref defaultComponent)
      (e2.compStore.getD ref defaultComponent)) :
    blockSim L0 L1
      (G + (if (e1.compStore.getD ref defaultComponent).type = "spdt"
        then 3 else 2))
      (phase1Step e1 ref).nodeStore (phase1Step e2 ref).nodeStore ∧
    compSim L0 L1
      ((phase1Step e1 ref).compStore.getD ref defaultComponent)
      ((phase1Step e2 ref).compStore.getD ref defaultComponent) ∧
    slotsInBlock L0
      (G + (if (e1.compStore.getD ref defaultComponent).type = "spdt"
        then 3 else 2))
      ((phase1Step e1 ref).compStore.getD ref defaultComponent) ∧
    (∀ q, q ≠ ref →
      (phase1Step e1 ref).compStore.getD q defaultComponent =
        e1.compStore.getD q defaultComponent ∧
      (phase1Step e2 ref).compStore.getD q defaultComponent =
        e2.compStore.getD q defaultComponent) := by
  obtain ⟨hid, hty, hre, hvo, hop, hsp⟩ := hpre
  obtain ⟨hl1, hl2, hblk⟩ := hsim
  have hslots2 : (List.range (if (e2.compStore.getD ref
        defaultComponent).type = "spdt" then 3 else 2)).map
      (fun i => some (e2.nodeStore.length + i)) =
      ((List.range (if (e1.compStore.getD ref
          defaultComponent).type = "spdt" then 3 else 2)).map
        (fun i => some (e1.nodeStore.length + i))).map
        (slotShift L0 L1) := by
    rw [hty, List.map_map]
    refine List.map_congr_left ?_
    intro i _
    show some (e2.nodeStore.length + i) =
      slotShift L0 L1 (some (e1.nodeStore.length + i))
    rw [slotShift_some, hl1, hl2]
    congr 1
    omega
  simp only [phase1Step]
  refine ⟨⟨?_, ?_, ?_⟩, ?_, ?_, ?_⟩
  · rw [List.length_append, freshNodesFor_length, hl1]
    omega
  · rw [List.length_append, freshNodesFor_length, hl2, hty]
    omega
  · intro j hj
    by_cases hjG : j < G
    · have hj1 : L0 + j < e1.nodeStore.length := by omega
      have hj2 : L1 + j < e2.nodeStore.length := by omega
      rw [List.getD_append _ _ _ _ hj1, List.getD_append _ _ _ _ hj2]
      have hb := hblk j hjG
      refine ⟨hb.1, hb.2.1, hb.2.2.1, hb.2.2.2.1, by omega, hb.2.2.2.2.2⟩
    · have hge1 : e1.nodeStore.length ≤ L0 + j := by omega
      have hge2 : e2.nodeStore.length ≤ L1 + j := by omega
      rw [List.getD_append_right _ _ _ _ hge1,
        List.getD_append_right _ _ _ _ hge2,
        show L0 + j - e1.nodeStore.length = j - G from by omega,
        show L1 + j - e2.nodeStore.length = j - G from by omega, hid, hty]
      have hjk : j - G <
          (if (e1.compStore.getD ref defaultComponent).type = "spdt"
            then 3 else 2) := by omega
      rw [freshNodesFor_getD _ _ _ _ hjk, freshNodesFor_getD _ _ _ _ hjk]
      refine ⟨rfl, rfl, rfl, ?_, ?_, ?_⟩
      · show L0 ≤ e1.nodeStore.length + (j - G)
        omega
      · show e1.nodeStore.length + (j - G) <
          L0 + (G + (if (e1.compStore.getD ref
            defaultComponent).type = "spdt" then 3 else 2))
        omega
      · show e2.nodeStore.length + (j - G) =
          e1.nodeStore.length + (j - G) - L0 + L1
        omega
  · rw [getD_set, getD_set]
    by_cases href : ref < e1.compStore.length
    · have hc1 : ref = ref ∧ ref < e1.compStore.length := ⟨rfl, href⟩
      have hc2 : ref = ref ∧ ref < e2.compStore.length :=
        ⟨rfl, by rw [hclen]; exact href⟩
      rw [if_pos hc1, if_pos hc2]
      exact ⟨hid, hty, hre, hvo, hop, hsp, hslots2⟩
    · have hc1 : ¬ (ref = ref ∧ ref < e1.compStore.length) :=
        fun hc => href hc.2
      have hc2 : ¬ (ref = ref ∧ ref < e2.compStore.length) :=
        fun hc => href (by rw [← hclen]; exact hc.2)
      have hd1 : e1.compStore.getD ref defaultComponent =
          defaultComponent :=
        getD_of_length_le _ _ _ (Nat.le_of_not_lt href)
      have hd2 : e2.compStore.getD ref defaultComponent =
          defaultComponent :=
        getD_of_length_le _ _ _
          (by rw [hclen]; exact Nat.le_of_not_lt href)
      rw [if_neg hc1, if_neg hc2, hd1, hd2]
      exact ⟨rfl, rfl, rfl, rfl, rfl, rfl, rfl⟩
  · rw [getD_set]
    by_cases href : ref < e1.compStore.length
    · have hc1 : ref = ref ∧ ref < e1.compStore.length := ⟨rfl, href⟩
      rw [if_pos hc1]
      intro x hx
      rcases List.mem_map.mp hx with ⟨i, hi, hie⟩
      rw [List.mem_range] at hi
      have hxe : x = e1.nodeStore.length + i := (Option.some.inj hie).symm
      constructor
      · rw [hxe]
        omega
      · rw [hxe]
        omega
    · have hc1 : ¬ (ref = ref ∧ ref < e1.compStore.length) :=
        fun hc => href hc.2
      have hd1 : e1.compStore.getD ref defaultComponent =
          defaultComponent :=
        getD_of_length_le _ _ _ (Nat.le_of_not_lt href)
      rw [if_neg hc1, hd1]
      intro x hx
      exact absurd hx (by intro hc; simp [defaultComponent] at hc)
  · intro q hq
    have hc1 : ¬ (q = ref ∧ ref < e1.compStore.length) :=
      fun hc => hq hc.1
    have hc2 : ¬ (q = ref ∧ ref < e2.compStore.length) :=
      fun hc => hq hc.1
    rw [getD_set, getD_set, if_neg hc1, if_neg hc2]
    exact ⟨rfl, rfl⟩

theorem phase1Aux_fields :
    ∀ (refs : List Nat) (s : CircuitEngine),
      (phase1Aux s refs).components = s.components ∧
      (phase1Aux s refs).nodes = s.nodes ∧
      (phase1Aux s refs).visualWires = s.visualWires ∧
      (phase1Aux s refs).compStore.length = s.compStore.length
  | [], _ => ⟨rfl, rfl, rfl, rfl⟩
  | ref :: rest, s => by
    have h1 := phase1Step_fields s ref
    have h2 := phase1Aux_fields rest (phase1Step s ref)
    rw [phase1Aux]
    exact ⟨h2.1.trans h1.1, h2.2.1.trans h1.2.1,
      h2.2.2.1.trans h1.2.2.1, h2.2.2.2.trans h1.2.2.2⟩

theorem phase4Aux_fields :
    ∀ (refs : List Nat) (s : CircuitEngine),
      (phase4Aux s refs).components = s.components ∧
      (phase4Aux s refs).nodes = s.nodes ∧
      (phase4Aux s refs).visualWires = s.visualWires ∧
      (phase4Aux s refs).compStore.length = s.compStore.length
  | [], _ => ⟨rfl, rfl, rfl, rfl⟩
  | ref :: rest, s => by
    have h1 := phase4Step_fields s ref
    have h2 := phase4Aux_fields rest (phase4Step s ref)
    rw [phase4Aux]
    exact ⟨h2.1.trans h1.1, h2.2.1.trans h1.2.1,
      h2.2.2.1.trans h1.2.2.1, h2.2.2.2.trans h1.2.2.2⟩

theorem compSim_compPre (L0 L1 : Nat) (a b : Component)
    (h : compSim L0 L1 a b) : compPre a b :=
  ⟨h.1, h.2.1, h.2.2.1, h.2.2.2.1, h.2.2.2.2.1, h.2.2.2.2.2.1⟩

theorem slotsInBlock_mono (L0 G G2 : Nat) (c : Component)
    (h : slotsInBlock L0 G c) (hG : G ≤ G2) : slotsInBlock L0 G2 c := by
  intro x hx
  have := h x hx
  omega

theorem phase1Aux_sim (L0 L1 : Nat) (hL : L0 ≤ L1) :
    ∀ (refs : List Nat) (e1 e2 : CircuitEngine) (G : Nat),
      blockSim L0 L1 G e1.nodeStore e2.nodeStore →
      e2.compStore.length = e1.compStore.length →
      (∀ q, compPre (e1.compStore.getD q defaultComponent)
        (e2.compStore.getD q defaultComponent)) →
      ∃ G2, G ≤ G2 ∧
        blockSim L0 L1 G2 (phase1Aux e1 refs).nodeStore
          (phase1Aux e2 refs).nodeStore ∧
        (∀ q, compPre
          ((phase1Aux e1 refs).compStore.getD q defaultComponent)
          ((phase1Aux e2 refs).compStore.getD q defaultComponent)) ∧
        (∀ ref ∈ refs,
          compSim L0 L1
            ((phase1Aux e1 refs).compStore.getD ref defaultComponent)
            ((phase1Aux e2 refs).compStore.getD ref defaultComponent) ∧
          slotsInBlock L0 G2
            ((phase1Aux e1 refs).compStore.getD ref defaultComponent)) ∧
        (∀ q, q ∉ refs →
          (phase1Aux e1 refs).compStore.getD q defaultComponent =
            e1.compStore.getD q defaultComponent ∧
          (phase1Aux e2 refs).compStore.getD q defaultComponent =
            e2.compStore.getD q defaultComponent)
  | [], e1, e2, G, hsim, hclen, hpre =>
    ⟨G, Nat.le_refl G, hsim, hpre,
     fun ref href => absurd href (List.not_mem_nil ref),
     fun _ _ => ⟨rfl, rfl⟩⟩
  | ref :: rest, e1, e2, G, hsim, hclen, hpre => by
    have hstep := phase1Step_sim L0 L1 G hL e1 e2 ref hsim hclen
      (hpre ref)
    have hclen2 : (phase1Step e2 ref).compStore.length =
        (phase1Step e1 ref).compStore.length := by
      rw [(phase1Step_fields e2 ref).2.2.2,
        (phase1Step_fields e1 ref).2.2.2, hclen]
    have hpre2 : ∀ q, compPre
        ((phase1Step e1 ref).compStore.getD q defaultComponent)
        ((phase1Step e2 ref).compStore.getD q defaultComponent) := by
      intro q
      by_cases hq : q = ref
      · rw [hq]
        exact compSim_compPre L0 L1 _ _ hstep.2.1
      · rw [(hstep.2.2.2 q hq).1, (hstep.2.2.2 q hq).2]
        exact hpre q
    have ih := phase1Aux_sim L0 L1 hL rest (phase1Step e1 ref)
      (phase1Step e2 ref)
      (G + (if (e1.compStore.getD ref defaultComponent).type = "spdt"
        then 3 else 2)) hstep.1 hclen2 hpre2
    obtain ⟨G2, hG2, ihsim, ihpre, ihrefs, ihkeep⟩ := ih
    rw [phase1Aux, phase1Aux]
    refine ⟨G2, by omega, ihsim, ihpre, ?_, ?_⟩
    · intro q hq
      rcases List.mem_cons.mp hq with heq | hmem
      · by_cases hqrest : q ∈ rest
        · exact ihrefs q hqrest
        · rw [(ihkeep q hqrest).1, (ihkeep q hqrest).2, heq]
          exact ⟨hstep.2.1,
            slotsInBlock_mono _ _ _ _ hstep.2.2.1 (by omega)⟩
      · exact ihrefs q hmem
    · intro q hq
      have hqref : q ≠ ref :=
        fun hc => hq (hc ▸ List.mem_cons_self ref rest)
      have hqrest : q ∉ rest :=
        fun hc => hq (List.mem_cons_of_mem ref hc)
      rw [(ihkeep q hqrest).1, (ihkeep q hqrest).2,
        (hstep.2.2.2 q hqref).1, (hstep.2.2.2 q hqref).2]
      exact ⟨rfl, rfl⟩

theorem blockSim_getD (L0 L1 F : Nat) (s1 s2 : List Node)
    (hsim : blockSim L0 L1 F s1 s2) (r : Nat) (h1 : L0 ≤ r)
    (h2 : r < L0 + F) :
    (s2.getD (r - L0 + L1) defaultNode).id =
      (s1.getD r defaultNode).id ∧
    (s2.getD (r - L0 + L1) defaultNode).voltage =
      (s1.getD r defaultNode).voltage ∧
    (s2.getD (r - L0 + L1) defaultNode).isGND =
      (s1.getD r defaultNode).isGND ∧
    L0 ≤ (s1.getD r defaultNode).parent ∧
    (s1.getD r defaultNode).parent < L0 + F ∧
    (s2.getD (r - L0 + L1) defaultNode).parent =
      (s1.getD r defaultNode).parent - L0 + L1 := by
  have hi : r - L0 < F := by omega
  have e1 : L1 + (r - L0) = r - L0 + L1 := by omega
  have e2 : L0 + (r - L0) = r := by omega
  have h := hsim.2.2 (r - L0) hi
  rw [e1, e2] at h
  exact h

theorem blockSim_set (L0 L1 F : Nat) (s1 s2 : List Node)
    (hsim : blockSim L0 L1 F s1 s2) (r : Nat) (h1 : L0 ≤ r)
    (_h2 : r < L0 + F) (v1 v2 : Node) (hid : v2.id = v1.id)
    (hvo : v2.voltage = v1.voltage) (hgn : v2.isGND = v1.isGND)
    (hpl : L0 ≤ v1.parent) (hpu : v1.parent < L0 + F)
    (hpp : v2.parent = v1.parent - L0 + L1) :
    blockSim L0 L1 F (s1.set r v1) (s2.set (r - L0 + L1) v2) := by
  obtain ⟨hl1, hl2, hblk⟩ := hsim
  refine ⟨by rw [List.length_set]; exact hl1,
    by rw [List.length_set]; exact hl2, ?_⟩
  intro i hi
  rw [getD_set, getD_set]
  by_cases hc1 : L0 + i = r
  · have e1 : L0 + i = r ∧ r < s1.length := ⟨hc1, by omega⟩
    have e2 : L1 + i = r - L0 + L1 ∧ r - L0 + L1 < s2.length :=
      ⟨by omega, by rw [hl2]; omega⟩
    rw [if_pos e2, if_pos e1]
    exact ⟨hid, hvo, hgn, hpl, hpu, hpp⟩
  · have e2 : ¬ (L1 + i = r - L0 + L1 ∧ r - L0 + L1 < s2.length) := by
      intro hc
      exact hc1 (by omega)
    rw [if_neg e2, if_neg (fun hc => hc1 hc.1)]
    exact hblk i hi

theorem compPre_rfl (a : Component) : compPre a a :=
  ⟨rfl, rfl, rfl, rfl, rfl, rfl⟩

theorem compPre_trans {a b c : Component} (h1 : compPre a b)
    (h2 : compPre b c) : compPre a c :=
  ⟨h2.1.trans h1.1, h2.2.1.trans h1.2.1, h2.2.2.1.trans h1.2.2.1,
   h2.2.2.2.1.trans h1.2.2.2.1, h2.2.2.2.2.1.trans h1.2.2.2.2.1,
   h2.2.2.2.2.2.trans h1.2.2.2.2.2⟩

theorem compFrame_compPre {a b : Component} (h : compFrame a b) :
    compPre a b := by
  rw [compFrame] at h
  rw [h]
  exact ⟨rfl, rfl, rfl, rfl, rfl, rfl⟩

theorem phase1Step_compPre (s : CircuitEngine) (ref q : Nat) :
    compPre (s.compStore.getD q defaultComponent)
      ((phase1Step s ref).compStore.getD q defaultComponent) := by
  simp only [phase1Step]
  rw [getD_set]
  by_cases hc : q = ref ∧ ref < s.compStore.length
  · rw [if_pos hc, hc.1]
    exact ⟨rfl, rfl, rfl, rfl, rfl, rfl⟩
  · rw [if_neg hc]
    exact compPre_rfl _

theorem phase1Aux_compPre :
    ∀ (refs : List Nat) (s : CircuitEngine) (q : Nat),
      compPre (s.compStore.getD q defaultComponent)
        ((phase1Aux s refs).compStore.getD q defaultComponent)
  | [], _, _ => compPre_rfl _
  | ref :: rest, s, q => by
    rw [phase1Aux]
    exact compPre_trans (phase1Step_compPre s ref q)
      (phase1Aux_compPre rest (phase1Step s ref) q)

theorem phase4Step_compPre (s : CircuitEngine) (ref q : Nat) :
    compPre (s.compStore.getD q defaultComponent)
      ((phase4Step s ref).compStore.getD q defaultComponent) := by
  simp only [phase4Step]
  rw [getD_set]
  by_cases hc : q = ref ∧ ref < s.compStore.length
  · rw [if_pos hc, hc.1]
    exact ⟨rfl, rfl, rfl, rfl, rfl, rfl⟩
  · rw [if_neg hc]
    exact compPre_rfl _

theorem phase4Aux_compPre :
    ∀ (refs : List Nat) (s : CircuitEngine) (q : Nat),
      compPre (s.compStore.getD q defaultComponent)
        ((phase4Aux s refs).compStore.getD q defaultComponent)
  | [], _, _ => compPre_rfl _
  | ref :: rest, s, q => by
    rw [phase4Aux]
    exact compPre_trans (phase4Step_compPre s ref q)
      (phase4Aux_compPre rest (phase4Step s ref) q)

theorem findN_length : ∀ (fuel : Nat) (s : List Node) (x : Nat),
    (findN fuel s x).1.length = s.length
  | 0, _, _ => rfl
  | fuel + 1, s, x => by
    simp only [findN]
    by_cases h : (s.getD x defaultNode).parent = x
    · rw [if_pos h]
    · rw [if_neg h]
      show ((findN fuel s (s.getD x defaultNode).parent).1.set x
        _).length = s.length
      rw [List.length_set]
      exact findN_length fuel s _

theorem unionN_length (s : List Node) (a b : Nat) :
    (unionN s a b).length = s.length := by
  simp only [unionN]
  by_cases h : (findN s.length s a).2 ≠
      (findN (findN s.length s a).1.length (findN s.length s a).1 b).2
  · rw [if_pos h, List.length_set, findN_length, findN_length]
  · rw [if_neg h, findN_length, findN_length]

theorem wireStep_length (cs : List Component) (s : List Node) (w : Wire) :
    (wireStep cs s w).length = s.length := by
  simp only [wireStep]
  rcases hsa : (cs.getD w.startComp defaultComponent).nodes.getD
      w.startTerm none with _ | a
  · rfl
  · rcases hsb : (cs.getD w.endComp defaultComponent).nodes.getD
        w.endTerm none with _ | b
    · rfl
    · exact unionN_length s a b

theorem processWires_length (cs : List Component) :
    ∀ (ws : List Wire) (s : List Node),
      (processWires cs s ws).length = s.length
  | [], _ => rfl
  | w :: rest, s => by
    rw [processWires]
    exact (processWires_length cs rest _).trans (wireStep_length cs s w)

theorem findSlots_length :
    ∀ (slots : List (Option Nat)) (acc : List Node × List (Option Nat)),
      (findSlots acc slots).1.length = acc.1.length
  | [], _ => rfl
  | none :: rest, acc => findSlots_length rest (acc.1, acc.2 ++ [none])
  | some x :: rest, acc => by
    show (findSlots ((findN acc.1.length acc.1 x).1,
      acc.2 ++ [some (findN acc.1.length acc.1 x).2]) rest).1.length =
      acc.1.length
    rw [findSlots_length rest _]
    exact findN_length _ _ _

theorem phase4Step_nlen (s : CircuitEngine) (ref : Nat) :
    (phase4Step s ref).nodeStore.length = s.nodeStore.length := by
  simp only [phase4Step]
  exact findSlots_length _ _

theorem phase4Aux_nlen :
    ∀ (refs : List Nat) (s : CircuitEngine),
      (phase4Aux s refs).nodeStore.length = s.nodeStore.length
  | [], _ => rfl
  | ref :: rest, s => by
    rw [phase4Aux]
    exact (phase4Aux_nlen rest _).trans (phase4Step_nlen s ref)

theorem phase1Aux_nlen :
    ∀ (refs : List Nat) (s : CircuitEngine),
      s.nodeStore.length ≤ (phase1Aux s refs).nodeStore.length
  | [], _ => Nat.le_refl _
  | ref :: rest, s => by
    rw [phase1Aux]
    refine Nat.le_trans ?_ (phase1Aux_nlen rest (phase1Step s ref))
    simp only [phase1Step, List.length_append]
    omega

theorem rebuildPre_master (st : CircuitEngine) :
    (rebuildPre st).components = st.components ∧
    (rebuildPre st).visualWires = st.visualWires ∧
    (rebuildPre st).compStore.length = st.compStore.length ∧
    st.nodeStore.length ≤ (rebuildPre st).nodeStore.length ∧
    (∀ q, compPre (st.compStore.getD q defaultComponent)
      ((rebuildPre st).compStore.getD q defaultComponent)) := by
  let s1 : CircuitEngine := phase1 st
  let s3 : CircuitEngine := { s1 with
    nodeStore := processWires s1.compStore s1.nodeStore s1.visualWires }
  let s4 : CircuitEngine := phase4 s3
  let s5 : CircuitEngine := { s4 with nodes := collectNodes s4 }
  let s5b : CircuitEngine :=
    { s5 with nodeStore := assignIds s5.nodeStore s5.nodes }
  have hr : rebuildPre st = phase6 s5b := rfl
  rw [hr]
  have h6 := phase6_frame s5b
  have h4f := phase4Aux_fields s3.components s3
  have h1f := phase1Aux_fields st.components st
  refine ⟨h6.1.trans (h4f.1.trans h1f.1), ?_, ?_, ?_, ?_⟩
  · have h6v : (phase6 s5b).visualWires = s5b.visualWires := by
      rw [phase6]
      split
      · split
        · rfl
        · rfl
      · rfl
    exact h6v.trans (h4f.2.2.1.trans h1f.2.2.1)
  · have hcl : (phase6 s5b).compStore.length = s5b.compStore.length := by
      rw [h6.2.2.1]
    exact hcl.trans (h4f.2.2.2.trans h1f.2.2.2)
  · have ha : st.nodeStore.length ≤ s1.nodeStore.length :=
      phase1Aux_nlen st.components st
    have hb : s3.nodeStore.length = s1.nodeStore.length :=
      processWires_length s1.compStore s1.visualWires s1.nodeStore
    have hc : s4.nodeStore.length = s3.nodeStore.length :=
      phase4Aux_nlen s3.components s3
    have hd : s5b.nodeStore.length = s4.nodeStore.length :=
      (assignIdsAux_frame s5.nodes.enum s5.nodeStore).1
    have he : (phase6 s5b).nodeStore.length = s5b.nodeStore.length :=
      h6.2.2.2.1
    omega
  · intro q
    rw [h6.2.2.1]
    exact compPre_trans (phase1Aux_compPre st.components st q)
      (phase4Aux_compPre s3.components s3 q)

theorem mem_map_shift (L0 L1 : Nat) (l : List Nat) (x : Nat)
    (hx : L0 ≤ x) (hl : ∀ y ∈ l, L0 ≤ y) :
    ((x - L0 + L1) ∈ l.map (fun y => y - L0 + L1)) ↔ x ∈ l := by
  constructor
  · intro h
    rcases List.mem_map.mp h with ⟨y, hy, heq⟩
    have hy0 := hl y hy
    have hyx : y = x := by omega
    rwa [← hyx]
  · intro h
    exact List.mem_map.mpr ⟨x, h, rfl⟩

theorem collectSlots_sim (L0 L1 : Nat) :
    ∀ (slots : List (Option Nat)) (acc : List Nat),
      (∀ y ∈ acc, L0 ≤ y) → (∀ x : Nat, some x ∈ slots → L0 ≤ x) →
      collectSlots (acc.map (fun y => y - L0 + L1))
          (slots.map (slotShift L0 L1)) =
        (collectSlots acc slots).map (fun y => y - L0 + L1) ∧
      (∀ y ∈ collectSlots acc slots, L0 ≤ y)
  | [], acc, hacc, _ => by
    rw [List.map_nil]
    exact ⟨rfl, hacc⟩
  | none :: rest, acc, hacc, hsl => by
    rw [List.map_cons, slotShift_none]
    rw [collectSlots, collectSlots]
    exact collectSlots_sim L0 L1 rest acc hacc
      (fun x hx => hsl x (List.mem_cons_of_mem none hx))
  | some r :: rest, acc, hacc, hsl => by
    rw [List.map_cons, slotShift_some]
    rw [collectSlots, collectSlots]
    have hr := hsl r (List.mem_cons_self (some r) rest)
    have hmem := mem_map_shift L0 L1 acc r hr hacc
    by_cases hin : r ∈ acc
    · rw [if_pos hin, if_pos (hmem.mpr hin)]
      exact collectSlots_sim L0 L1 rest acc hacc
        (fun x hx => hsl x (List.mem_cons_of_mem (some r) hx))
    · rw [if_neg hin, if_neg (fun hc => hin (hmem.mp hc))]
      have ih := collectSlots_sim L0 L1 rest (acc ++ [r])
        (fun y hy => by
          rcases List.mem_append.mp hy with h | h
          · exact hacc y h
          · rw [List.mem_singleton.mp h]
            exact hr)
        (fun x hx => hsl x (List.mem_cons_of_mem (some r) hx))
      have e : (acc ++ [r]).map (fun y => y - L0 + L1) =
          acc.map (fun y => y - L0 + L1) ++ [r - L0 + L1] := by
        rw [List.map_append]
        rfl
      rw [e] at ih
      exact ih

theorem collectNodesAux_sim (L0 L1 : Nat) (cs1 cs2 : List Component) :
    ∀ (refs : List Nat) (acc : List Nat),
      (∀ y ∈ acc, L0 ≤ y) →
      (∀ ref ∈ refs,
        (cs2.getD ref defaultComponent).nodes =
          (cs1.getD ref defaultComponent).nodes.map (slotShift L0 L1) ∧
        (∀ x : Nat, some x ∈ (cs1.getD ref defaultComponent).nodes →
          L0 ≤ x)) →
      collectNodesAux cs2 (acc.map (fun y => y - L0 + L1)) refs =
        (collectNodesAux cs1 acc refs).map (fun y => y - L0 + L1)
  | [], _, _, _ => by rw [collectNodesAux, collectNodesAux]
  | ref :: rest, acc, hacc, hc => by
    rw [collectNodesAux, collectNodesAux]
    have h1 := hc ref (List.mem_cons_self ref rest)
    have hcs := collectSlots_sim L0 L1
      (cs1.getD ref defaultComponent).nodes acc hacc h1.2
    rw [h1.1, hcs.1]
    exact collectNodesAux_sim L0 L1 cs1 cs2 rest
      (collectSlots acc (cs1.getD ref defaultComponent).nodes)
      hcs.2 (fun q hq => hc q (List.mem_cons_of_mem ref hq))

theorem enumFrom_map {α β : Type} (f : α → β) :
    ∀ (l : List α) (n : Nat),
      List.enumFrom n (l.map f) =
        (List.enumFrom n l).map (fun p => (p.1, f p.2))
  | [], _ => rfl
  | a :: rest, n => by
    show (n, f a) :: List.enumFrom (n + 1) (rest.map f) =
      ((n, a) :: List.enumFrom (n + 1) rest).map (fun p => (p.1, f p.2))
    rw [List.map_cons, enumFrom_map f rest (n + 1)]

theorem enumFrom_snd_mem {α : Type} :
    ∀ (l : List α) (n : Nat) (p : Nat × α),
      p ∈ List.enumFrom n l → p.2 ∈ l
  | [], _, _, h => absurd h (List.not_mem_nil _)
  | a :: rest, n, p, h => by
    have h2 : p ∈ (n, a) :: List.enumFrom (n + 1) rest := h
    rcases List.mem_cons.mp h2 with heq | hmem
    · rw [heq]
      exact List.mem_cons_self a rest
    · exact List.mem_cons_of_mem a (enumFrom_snd_mem rest (n + 1) p hmem)

theorem enum_map_shift (L0 L1 : Nat) (l : List Nat) :
    (l.map (fun y => y - L0 + L1)).enum =
      l.enum.map (fun p => (p.1, p.2 - L0 + L1)) := by
  show List.enumFrom 0 (l.map (fun y => y - L0 + L1)) =
    (List.enumFrom 0 l).map (fun p => (p.1, p.2 - L0 + L1))
  rw [enumFrom_map (fun y => y - L0 + L1) l 0]

theorem assignIdsAux_sim (L0 L1 F : Nat) :
    ∀ (ps : List (Nat × Nat)) (s1 s2 : List Node),
      blockSim L0 L1 F s1 s2 →
      (∀ p ∈ ps, L0 ≤ p.2 ∧ p.2 < L0 + F) →
      blockSim L0 L1 F (assignIdsAux s1 ps)
        (assignIdsAux s2 (ps.map (fun p => (p.1, p.2 - L0 + L1))))
  | [], _, _, hsim, _ => hsim
  | p :: rest, s1, s2, hsim, hps => by
    rw [List.map_cons]
    simp only [assignIdsAux]
    have hp := hps p (List.mem_cons_self p rest)
    have hgd := blockSim_getD L0 L1 F s1 s2 hsim p.2 hp.1 hp.2
    have hset := blockSim_set L0 L1 F s1 s2 hsim p.2 hp.1 hp.2
      { s1.getD p.2 defaultNode with id := "node_" ++ toString p.1 }
      { s2.getD (p.2 - L0 + L1) defaultNode with
        id := "node_" ++ toString p.1 }
      rfl hgd.2.1 hgd.2.2.1 hgd.2.2.2.1 hgd.2.2.2.2.1 hgd.2.2.2.2.2
    exact assignIdsAux_sim L0 L1 F rest _ _ hset
      (fun q hq => hps q (List.mem_cons_of_mem p hq))

theorem forceGND_sim (L0 L1 F : Nat) :
    ∀ (refs : List Nat) (s1 s2 : List Node),
      blockSim L0 L1 F s1 s2 →
      (∀ r ∈ refs, L0 ≤ r ∧ r < L0 + F) →
      blockSim L0 L1 F (forceGND s1 refs)
        (forceGND s2 (refs.map (fun y => y - L0 + L1)))
  | [], _, _, hsim, _ => hsim
  | r :: rest, s1, s2, hsim, hrs => by
    rw [List.map_cons]
    simp only [forceGND]
    have hr := hrs r (List.mem_cons_self r rest)
    have hgd := blockSim_getD L0 L1 F s1 s2 hsim r hr.1 hr.2
    by_cases hg : (s1.getD r defaultNode).isGND = true
    · rw [if_pos hg, if_pos (by rw [hgd.2.2.1]; exact hg)]
      have hset := blockSim_set L0 L1 F s1 s2 hsim r hr.1 hr.2
        { s1.getD r defaultNode with voltage := 0 }
        { s2.getD (r - L0 + L1) defaultNode with voltage := 0 }
        hgd.1 rfl hgd.2.2.1 hgd.2.2.2.1 hgd.2.2.2.2.1 hgd.2.2.2.2.2
      exact forceGND_sim L0 L1 F rest _ _ hset
        (fun q hq => hrs q (List.mem_cons_of_mem r hq))
    · rw [if_neg hg, if_neg (by rw [hgd.2.2.1]; exact hg)]
      exact forceGND_sim L0 L1 F rest _ _ hsim
        (fun q hq => hrs q (List.mem_cons_of_mem r hq))

theorem find?_congr_list {α : Type} (p q : α → Bool) :
    ∀ (l : List α), (∀ a ∈ l, p a = q a) → l.find? p = l.find? q
  | [], _ => rfl
  | a :: rest, h => by
    by_cases hpa : p a = true
    · rw [List.find?_cons_of_pos rest hpa, List.find?_cons_of_pos rest
        (by rw [← h a (List.mem_cons_self a rest)]; exact hpa)]
    · rw [List.find?_cons_of_neg rest hpa, List.find?_cons_of_neg rest
        (by rw [← h a (List.mem_cons_self a rest)]; exact hpa)]
      exact find?_congr_list p q rest
        (fun b hb => h b (List.mem_cons_of_mem a hb))

theorem phase6_none (st : CircuitEngine)
    (hf : st.components.find? (fun r =>
      (st.compStore.getD r defaultComponent).type = "battery") = none) :
    phase6 st = st := by
  simp only [phase6]
  rw [hf]

theorem phase6_some (st : CircuitEngine) (bref : Nat)
    (hf : st.components.find? (fun r =>
      (st.compStore.getD r defaultComponent).type = "battery") =
      some bref) :
    phase6 st =
      match (st.compStore.getD bref defaultComponent).nodes.getD 1 none
          with
      | some nref => { st with nodeStore := st.nodeStore.set nref { st.nodeStore.getD nref defaultNode with isGND := true } }
      | none => st := by
  simp only [phase6]
  rw [hf]

theorem phase6_sim (L0 L1 F : Nat) (e1 e2 : CircuitEngine)
    (hsim : blockSim L0 L1 F e1.nodeStore e2.nodeStore)
    (hcomps : e2.components = e1.components)
    (hcsim : ∀ ref ∈ e1.components,
      compSim L0 L1 (e1.compStore.getD ref defaultComponent)
        (e2.compStore.getD ref defaultComponent) ∧
      slotsInBlock L0 F (e1.compStore.getD ref defaultComponent)) :
    blockSim L0 L1 F (phase6 e1).nodeStore (phase6 e2).nodeStore := by
  have hfind : e2.components.find? (fun r =>
      (e2.compStore.getD r defaultComponent).type = "battery") =
    e1.components.find? (fun r =>
      (e1.compStore.getD r defaultComponent).type = "battery") := by
    rw [hcomps]
    exact find?_congr_list _ _ e1.components
      (fun r hr => congrArg (fun t => decide (t = "battery"))
        (hcsim r hr).1.2.1)
  rcases hf : e1.components.find? (fun r =>
      (e1.compStore.getD r defaultComponent).type = "battery")
    with _ | bref
  · rw [phase6_none e1 hf, phase6_none e2 (hfind.trans hf)]
    exact hsim
  · have q1 := phase6_some e1 bref hf
    have q2 := phase6_some e2 bref (hfind.trans hf)
    have hmem : bref ∈ e1.components := List.mem_of_find?_eq_some hf
    have hcs := (hcsim bref hmem).1
    have hsb := (hcsim bref hmem).2
    rw [hcs.2.2.2.2.2.2, getD_map_slotShift] at q2
    rcases hslot : (e1.compStore.getD bref defaultComponent).nodes.getD
        1 none with _ | nref
    · rw [hslot, slotShift_none] at q2
      rw [hslot] at q1
      rw [q1, q2]
      exact hsim
    · rw [hslot, slotShift_some] at q2
      rw [hslot] at q1
      have hnb := hsb nref (getD_some_mem _ _ _ hslot)
      have hgd := blockSim_getD L0 L1 F _ _ hsim nref hnb.1 hnb.2
      rw [q1, q2]
      exact blockSim_set L0 L1 F _ _ hsim nref hnb.1 hnb.2
        { e1.nodeStore.getD nref defaultNode with isGND := true }
        { e2.nodeStore.getD (nref - L0 + L1) defaultNode with
          isGND := true }
        hgd.1 hgd.2.1 rfl hgd.2.2.2.1 hgd.2.2.2.2.1 hgd.2.2.2.2.2

theorem phase1Aux_components (refs : List Nat) (s : CircuitEngine) :
    (phase1Aux s refs).components = s.components :=
  (phase1Aux_fields refs s).1

theorem phase1Aux_visual (refs : List Nat) (s : CircuitEngine) :
    (phase1Aux s refs).visualWires = s.visualWires :=
  (phase1Aux_fields refs s).2.2.1

theorem phase4Aux_components (refs : List Nat) (s : CircuitEngine) :
    (phase4Aux s refs).components = s.components :=
  (phase4Aux_fields refs s).1

theorem phase6_visual (st : CircuitEngine) :
    (phase6 st).visualWires = st.visualWires := by
  rw [phase6]
  split
  · split
    · rfl
    · rfl
  · rfl

theorem rebuildPre_staged (st : CircuitEngine) :
    rebuildPre st = rebuildStaged st st.components st.visualWires := by
  simp only [rebuildPre, rebuildStaged, phase1, phase4, collectNodes,
    phase1Aux_components, phase1Aux_visual, phase4Aux_components]

theorem rebuildStaged_sim (st R1 : CircuitEngine) (hwf : engineWF st)
    (hlive : wiresLive st)
    (hcomps : R1.components = st.components)
    (hwires : R1.visualWires = st.visualWires)
    (hclen : R1.compStore.length = st.compStore.length)
    (hpre : ∀ q, compPre (st.compStore.getD q defaultComponent)
      (R1.compStore.getD q defaultComponent))
    (hL : st.nodeStore.length ≤ R1.nodeStore.length) :
    ∃ F, engineSim st.nodeStore.length R1.nodeStore.length F
      (rebuildStaged st st.components st.visualWires)
      (rebuildStaged R1 st.components st.visualWires) := by
  have hsim0 : blockSim st.nodeStore.length R1.nodeStore.length 0
      st.nodeStore R1.nodeStore :=
    ⟨by omega, by omega, fun i hi => absurd hi (by omega)⟩
  obtain ⟨F, hF0, hsim1, hpre1, hrefs1, hkeep1⟩ :=
    phase1Aux_sim st.nodeStore.length R1.nodeStore.length hL
      st.components st R1 0 hsim0 hclen hpre
  have hwf1 := phase1Aux_wf st.components st hwf.1 hwf.2
  let A1 : CircuitEngine := phase1Aux st st.components
  let B1 : CircuitEngine := phase1Aux R1 st.components
  let A3 : CircuitEngine := { A1 with
    nodeStore := processWires A1.compStore A1.nodeStore st.visualWires }
  let B3 : CircuitEngine := { B1 with
    nodeStore := processWires B1.compStore B1.nodeStore st.visualWires }
  have hsim3 : blockSim st.nodeStore.length R1.nodeStore.length F
      A3.nodeStore B3.nodeStore :=
    processWires_sim st.nodeStore.length R1.nodeStore.length F
      A1.compStore B1.compStore st.components hL
      (fun ref href => ⟨(hrefs1 ref href).1.2.2.2.2.2.2,
        (hrefs1 ref href).2⟩)
      st.visualWires A1.nodeStore B1.nodeStore hsim1 hwf1.1 hwf1.2.1
      hlive
  have hw3 := processWires_wf A1.compStore st.visualWires A1.nodeStore
    hwf1.1 hwf1.2.1
  have hsl3 : slotsWF A3 := by
    intro cle hc r hr
    show r < (processWires A1.compStore A1.nodeStore
      st.visualWires).length
    rw [hw3.1]
    exact hwf1.2.1 cle hc r hr
  have hclen3 : B3.compStore.length = A3.compStore.length := by
    show (phase1Aux R1 st.components).compStore.length =
      (phase1Aux st st.components).compStore.length
    rw [(phase1Aux_fields st.components R1).2.2.2,
      (phase1Aux_fields st.components st).2.2.2, hclen]
  obtain ⟨hsim4, hrefs4, hkeep4⟩ :=
    phase4Aux_sim st.nodeStore.length R1.nodeStore.length F hL
      st.components A3 B3 hsim3 hw3.2 hsl3 hclen3
      (fun ref href => hrefs1 ref href)
  let A4 : CircuitEngine := phase4Aux A3 st.components
  let B4 : CircuitEngine := phase4Aux B3 st.components
  let CNa : List Nat := collectNodesAux A4.compStore [] st.components
  let CNb : List Nat := collectNodesAux B4.compStore [] st.components
  have hcoll0 : CNb = CNa.map
      (fun y => y - st.nodeStore.length + R1.nodeStore.length) := by
    have h := collectNodesAux_sim st.nodeStore.length
      R1.nodeStore.length A4.compStore B4.compStore st.components []
      (fun y hy => absurd hy (List.not_mem_nil y))
      (fun ref href => ⟨(hrefs4 ref href).1.2.2.2.2.2.2,
        fun x hx => ((hrefs4 ref href).2 x hx).1⟩)
    rw [List.map_nil] at h
    exact h
  have hmemCN : ∀ r ∈ CNa,
      st.nodeStore.length ≤ r ∧ r < st.nodeStore.length + F := by
    intro r hr
    rcases (collectNodesAux_mem A4.compStore st.components [] r).mp hr
      with h0 | ⟨ref, href, hslot⟩
    · exact absurd h0 (List.not_mem_nil r)
    · exact (hrefs4 ref href).2 r hslot
  have hsim5b : blockSim st.nodeStore.length R1.nodeStore.length F
      (assignIds A4.nodeStore CNa) (assignIds B4.nodeStore CNb) := by
    have h5 := assignIdsAux_sim st.nodeStore.length R1.nodeStore.length
      F CNa.enum A4.nodeStore B4.nodeStore hsim4
      (fun p hp => hmemCN p.2 (enumFrom_snd_mem CNa 0 p hp))
    have hBe : CNb.enum = CNa.enum.map
        (fun p => (p.1, p.2 - st.nodeStore.length +
          R1.nodeStore.length)) := by
      rw [hcoll0]
      exact enum_map_shift st.nodeStore.length R1.nodeStore.length CNa
    show blockSim st.nodeStore.length R1.nodeStore.length F
      (assignIdsAux A4.nodeStore CNa.enum)
      (assignIdsAux B4.nodeStore CNb.enum)
    rw [hBe]
    exact h5
  let A5 : CircuitEngine := { A4 with nodes := CNa, nodeStore := assignIds A4.nodeStore CNa }
  let B5 : CircuitEngine := { B4 with nodes := CNb, nodeStore := assignIds B4.nodeStore CNb }
  have hc4a : A4.components = st.components :=
    (phase4Aux_components st.components A3).trans
      (phase1Aux_components st.components st)
  have hc4b : B4.components = st.components :=
    (phase4Aux_components st.components B3).trans
      ((phase1Aux_components st.components R1).trans hcomps)
  have key : engineSim st.nodeStore.length R1.nodeStore.length F
      (phase6 A5) (phase6 B5) := by
    refine ⟨?_, ?_, ?_, ?_, ?_, ?_, ?_⟩
    · refine phase6_sim st.nodeStore.length R1.nodeStore.length F A5 B5
        hsim5b (hc4b.trans hc4a.symm) ?_
      intro ref href
      have href1 : ref ∈ A4.components := href
      exact hrefs4 ref (hc4a ▸ href1)
    · rw [(phase6_frame B5).1, (phase6_frame A5).1]
      show B4.components = A4.components
      rw [hc4a, hc4b]
    · rw [phase6_visual B5, phase6_visual A5]
      show (phase4Aux B3 st.components).visualWires =
        (phase4Aux A3 st.components).visualWires
      rw [(phase4Aux_fields st.components B3).2.2.1,
        (phase4Aux_fields st.components A3).2.2.1]
      show (phase1Aux R1 st.components).visualWires =
        (phase1Aux st st.components).visualWires
      rw [phase1Aux_visual st.components R1,
        phase1Aux_visual st.components st, hwires]
    · rw [(phase6_frame B5).2.1, (phase6_frame A5).2.1]
      exact hcoll0
    · rw [(phase6_frame B5).2.2.1, (phase6_frame A5).2.2.1]
      show (phase4Aux B3 st.components).compStore.length =
        (phase4Aux A3 st.components).compStore.length
      rw [(phase4Aux_fields st.components B3).2.2.2,
        (phase4Aux_fields st.components A3).2.2.2]
      exact hclen3
    · intro ref href
      rw [(phase6_frame A5).1] at href
      have href1 : ref ∈ A4.components := href
      have hr4 := hrefs4 ref (hc4a ▸ href1)
      rw [(phase6_frame B5).2.2.1, (phase6_frame A5).2.2.1]
      exact ⟨hr4.1, hr4.2⟩
    · intro r hr
      rw [(phase6_frame A5).2.1] at hr
      have hr1 : r ∈ CNa := hr
      exact hmemCN r hr1
  exact ⟨F, key⟩

theorem activeNodes_sim (L0 L1 F : Nat) (a b : CircuitEngine)
    (hsim : engineSim L0 L1 F a b) :
    activeNodes b = (activeNodes a).map (fun y => y - L0 + L1) ∧
    (∀ r ∈ activeNodes a, L0 ≤ r ∧ r < L0 + F) := by
  constructor
  · rw [activeNodes, activeNodes, hsim.2.2.2.1, List.filter_map]
    refine congrArg (List.map (fun y => y - L0 + L1))
      (List.filter_congr ?_)
    intro x hx
    have hxb := hsim.2.2.2.2.2.2 x hx
    have hg := blockSim_getD L0 L1 F a.nodeStore b.nodeStore hsim.1 x
      hxb.1 hxb.2
    show (!(b.nodeStore.getD (x - L0 + L1) defaultNode).isGND) =
      (!(a.nodeStore.getD x defaultNode).isGND)
    rw [hg.2.2.1]
  · intro r hr
    rw [activeNodes] at hr
    exact hsim.2.2.2.2.2.2 r (List.mem_of_mem_filter hr)

theorem batCount_sim (L0 L1 F : Nat) (a b : CircuitEngine)
    (hsim : engineSim L0 L1 F a b) : batCount b = batCount a := by
  rw [batCount, batCount, hsim.2.1]
  congr 1
  refine List.filter_congr ?_
  intro r hr
  exact congrArg (fun t => decide (t = "battery"))
    (hsim.2.2.2.2.2.1 r hr).1.2.1

theorem nodePairs_sim (L0 L1 F : Nat) (a b : CircuitEngine)
    (hsim : engineSim L0 L1 F a b) :
    nodePairs b (activeNodes b) = nodePairs a (activeNodes a) := by
  have hact := activeNodes_sim L0 L1 F a b hsim
  rw [nodePairs, nodePairs, hact.1, enum_map_shift L0 L1 (activeNodes a),
    List.map_map]
  refine List.map_congr_left ?_
  intro p hp
  have hpb := hact.2 p.2 (enumFrom_snd_mem (activeNodes a) 0 p hp)
  have hg := blockSim_getD L0 L1 F a.nodeStore b.nodeStore hsim.1 p.2
    hpb.1 hpb.2
  show ((b.nodeStore.getD (p.2 - L0 + L1) defaultNode).id, p.1) =
    ((a.nodeStore.getD p.2 defaultNode).id, p.1)
  rw [hg.1]

theorem getIdx_sim (L0 L1 F : Nat) (a b : CircuitEngine)
    (hbs : blockSim L0 L1 F a.nodeStore b.nodeStore)
    (pairs : List (String × Nat)) (sl : Option Nat)
    (hsl : ∀ r : Nat, sl = some r → L0 ≤ r ∧ r < L0 + F) :
    getIdx b pairs (slotShift L0 L1 sl) = getIdx a pairs sl := by
  rcases sl with _ | r
  · rfl
  · rw [slotShift_some]
    have hb := hsl r rfl
    have hg := blockSim_getD L0 L1 F a.nodeStore b.nodeStore hbs r
      hb.1 hb.2
    show (if (b.nodeStore.getD (r - L0 + L1) defaultNode).isGND then
        none else lookupLast pairs
          (b.nodeStore.getD (r - L0 + L1) defaultNode).id) =
      (if (a.nodeStore.getD r defaultNode).isGND then none else
        lookupLast pairs (a.nodeStore.getD r defaultNode).id)
    rw [hg.2.2.1, hg.1]

theorem slotV_sim (L0 L1 F : Nat) (s1 s2 : List Node)
    (hbs : blockSim L0 L1 F s1 s2) (sl : Option Nat)
    (hsl : ∀ r : Nat, sl = some r → L0 ≤ r ∧ r < L0 + F) :
    slotV s2 (slotShift L0 L1 sl) = slotV s1 sl := by
  rcases sl with _ | r
  · rfl
  · rw [slotShift_some]
    have hb := hsl r rfl
    exact (blockSim_getD L0 L1 F s1 s2 hbs r hb.1 hb.2).2.1

theorem slotShift_isSome (L0 L1 : Nat) (sl : Option Nat) :
    (slotShift L0 L1 sl).isSome = sl.isSome := by
  rcases sl with _ | r
  · rfl
  · rfl

theorem stampR_sim (L0 L1 F : Nat) (a b : CircuitEngine)
    (hbs : blockSim L0 L1 F a.nodeStore b.nodeStore)
    (iter : Nat) (c1 c2 : Component) (hcs : compSim L0 L1 c1 c2)
    (hblk : slotsInBlock L0 F c1) :
    stampR b iter c2 = stampR a iter c1 := by
  obtain ⟨hid, hty, hre, hvo, hop, hsp, hns⟩ := hcs
  simp only [stampR]
  rw [hty, hre, hop, hns, getD_map_slotShift, getD_map_slotShift,
    slotV_sim L0 L1 F a.nodeStore b.nodeStore hbs
      (c1.nodes.getD 0 none)
      (fun r hr => hblk r (getD_some_mem _ _ _ hr)),
    slotV_sim L0 L1 F a.nodeStore b.nodeStore hbs
      (c1.nodes.getD 1 none)
      (fun r hr => hblk r (getD_some_mem _ _ _ hr))]

theorem stampComponent_sim (L0 L1 F : Nat) (a b : CircuitEngine)
    (hbs : blockSim L0 L1 F a.nodeStore b.nodeStore)
    (pairs : List (String × Nat)) (N iter : Nat)
    (acc : Matrix × List ℚ × Nat) (ref : Nat)
    (hcs : compSim L0 L1 (a.compStore.getD ref defaultComponent)
      (b.compStore.getD ref defaultComponent))
    (hblk : slotsInBlock L0 F
      (a.compStore.getD ref defaultComponent)) :
    stampComponent b pairs N iter acc ref =
      stampComponent a pairs N iter acc ref := by
  simp only [stampComponent]
  rw [stampR_sim L0 L1 F a b hbs iter _ _ hcs hblk,
    hcs.2.1, hcs.2.2.2.1, hcs.2.2.2.2.2.1, hcs.2.2.2.2.2.2,
    getD_map_slotShift, getD_map_slotShift, getD_map_slotShift,
    getIdx_sim L0 L1 F a b hbs pairs
      ((a.compStore.getD ref defaultComponent).nodes.getD 0 none)
      (fun r hr => hblk r (getD_some_mem _ _ _ hr)),
    getIdx_sim L0 L1 F a b hbs pairs
      ((a.compStore.getD ref defaultComponent).nodes.getD 1 none)
      (fun r hr => hblk r (getD_some_mem _ _ _ hr)),
    getIdx_sim L0 L1 F a b hbs pairs
      ((a.compStore.getD ref defaultComponent).nodes.getD 2 none)
      (fun r hr => hblk r (getD_some_mem _ _ _ hr)),
    slotShift_isSome, slotShift_isSome]

theorem stampFold_sim (L0 L1 F : Nat) (a b : CircuitEngine)
    (hbs : blockSim L0 L1 F a.nodeStore b.nodeStore)
    (pairs : List (String × Nat)) (N iter : Nat) :
    ∀ (refs : List Nat) (acc : Matrix × List ℚ × Nat),
      (∀ ref ∈ refs,
        compSim L0 L1 (a.compStore.getD ref defaultComponent)
          (b.compStore.getD ref defaultComponent) ∧
        slotsInBlock L0 F (a.compStore.getD ref defaultComponent)) →
      stampFold b pairs N iter acc refs =
        stampFold a pairs N iter acc refs
  | [], _, _ => rfl
  | ref :: rest, acc, hc => by
    rw [stampFold, stampFold,
      stampComponent_sim L0 L1 F a b hbs pairs N iter acc ref
        (hc ref (List.mem_cons_self ref rest)).1
        (hc ref (List.mem_cons_self ref rest)).2]
    exact stampFold_sim L0 L1 F a b hbs pairs N iter rest _
      (fun q hq => hc q (List.mem_cons_of_mem ref hq))

theorem assembleSystem_sim (L0 L1 F : Nat) (a b : CircuitEngine)
    (hsim : engineSim L0 L1 F a b) (N size iter : Nat) :
    assembleSystem b (activeNodes b) N size iter =
      assembleSystem a (activeNodes a) N size iter := by
  simp only [assembleSystem]
  rw [nodePairs_sim L0 L1 F a b hsim, hsim.2.1]
  exact stampFold_sim L0 L1 F a b hsim.1
    (nodePairs a (activeNodes a)) N iter a.components _
    (fun ref href => hsim.2.2.2.2.2.1 ref href)

theorem updateVoltagesAux_sim (L0 L1 F : Nat) (result : List ℚ) :
    ∀ (ps : List (Nat × Nat)) (s1 s2 : List Node) (m : ℚ),
      blockSim L0 L1 F s1 s2 →
      (∀ p ∈ ps, L0 ≤ p.2 ∧ p.2 < L0 + F) →
      blockSim L0 L1 F (updateVoltagesAux result (s1, m) ps).1
        (updateVoltagesAux result (s2, m)
          (ps.map (fun p => (p.1, p.2 - L0 + L1)))).1 ∧
      (updateVoltagesAux result (s2, m)
        (ps.map (fun p => (p.1, p.2 - L0 + L1)))).2 =
        (updateVoltagesAux result (s1, m) ps).2
  | [], _, _, _, hsim, _ => ⟨hsim, rfl⟩
  | p :: rest, s1, s2, m, hsim, hps => by
    rw [List.map_cons]
    simp only [updateVoltagesAux]
    have hp := hps p (List.mem_cons_self p rest)
    have hgd := blockSim_getD L0 L1 F s1 s2 hsim p.2 hp.1 hp.2
    have hset := blockSim_set L0 L1 F s1 s2 hsim p.2 hp.1 hp.2
      { s1.getD p.2 defaultNode with voltage := result.getD p.1 0 }
      { s2.getD (p.2 - L0 + L1) defaultNode with
        voltage := result.getD p.1 0 }
      hgd.1 rfl hgd.2.2.1 hgd.2.2.2.1 hgd.2.2.2.2.1 hgd.2.2.2.2.2
    have hdiff : |(s2.getD (p.2 - L0 + L1) defaultNode).voltage -
        result.getD p.1 0| =
        |(s1.getD p.2 defaultNode).voltage - result.getD p.1 0| := by
      rw [hgd.2.1]
    rw [hdiff]
    exact updateVoltagesAux_sim L0 L1 F result rest _ _ _ hset
      (fun q hq => hps q (List.mem_cons_of_mem p hq))

theorem updateVoltages_sim (L0 L1 F : Nat) (s1 s2 : List Node)
    (hbs : blockSim L0 L1 F s1 s2) (active : List Nat)
    (result : List ℚ)
    (hact : ∀ r ∈ active, L0 ≤ r ∧ r < L0 + F) :
    blockSim L0 L1 F (updateVoltages s1 active result).1
      (updateVoltages s2 (active.map (fun y => y - L0 + L1))
        result).1 ∧
    (updateVoltages s2 (active.map (fun y => y - L0 + L1)) result).2 =
      (updateVoltages s1 active result).2 := by
  have h := updateVoltagesAux_sim L0 L1 F result active.enum s1 s2 0
    hbs (fun p hp => hact p.2 (enumFrom_snd_mem active 0 p hp))
  constructor
  · simp only [updateVoltages]
    rw [enum_map_shift L0 L1 active]
    exact h.1
  · simp only [updateVoltages]
    rw [enum_map_shift L0 L1 active]
    exact h.2

theorem compSim_of_frames {L0 L1 : Nat} {c1 c2 c1' c2' : Component}
    (h : compSim L0 L1 c1 c2) (f1 : compFrame c1 c1')
    (f2 : compFrame c2 c2') : compSim L0 L1 c1' c2' := by
  rw [compFrame] at f1 f2
  rw [f1, f2]
  exact ⟨h.1, h.2.1, h.2.2.1, h.2.2.2.1, h.2.2.2.2.1, h.2.2.2.2.2.1,
    h.2.2.2.2.2.2⟩

theorem slotsInBlock_frame (L0 F : Nat) (c c' : Component)
    (h : slotsInBlock L0 F c) (hf : compFrame c c') :
    slotsInBlock L0 F c' := by
  intro x hx
  rw [compFrame_nodes hf] at hx
  exact h x hx

theorem runPassTail_sim (L0 L1 F : Nat) (a b : CircuitEngine)
    (hsim : engineSim L0 L1 F a b) (result : List ℚ) (N : Nat) :
    engineSim L0 L1 F
      { a with nodeStore := forceGND (updateVoltages a.nodeStore (activeNodes a) result).1 a.nodes, compStore := updateCurrents (forceGND (updateVoltages a.nodeStore (activeNodes a) result).1 a.nodes) a.components result N a.compStore }
      (CircuitEngine.mk (forceGND (updateVoltages b.nodeStore ((activeNodes a).map (fun y => y - L0 + L1)) result).1 (a.nodes.map (fun y => y - L0 + L1))) (updateCurrents (forceGND (updateVoltages b.nodeStore ((activeNodes a).map (fun y => y - L0 + L1)) result).1 (a.nodes.map (fun y => y - L0 + L1))) a.components result N b.compStore) a.components (a.nodes.map (fun y => y - L0 + L1)) b.visualWires) := by
  have hact := activeNodes_sim L0 L1 F a b hsim
  have hUV := updateVoltages_sim L0 L1 F a.nodeStore b.nodeStore
    hsim.1 (activeNodes a) result hact.2
  have hSG := forceGND_sim L0 L1 F a.nodes
    (updateVoltages a.nodeStore (activeNodes a) result).1
    (updateVoltages b.nodeStore
      ((activeNodes a).map (fun y => y - L0 + L1)) result).1
    hUV.1 hsim.2.2.2.2.2.2
  refine ⟨hSG, rfl, hsim.2.2.1, rfl, ?_, ?_, ?_⟩
  · show (updateCurrentsAux _ a.components result N b.compStore
      a.components).length = (updateCurrentsAux _ a.components result N
      a.compStore a.components).length
    rw [updateCurrentsAux_length, updateCurrentsAux_length]
    exact hsim.2.2.2.2.1
  · intro ref href
    have h1 := hsim.2.2.2.2.2.1 ref href
    constructor
    · exact compSim_of_frames h1.1
        (updateCurrentsAux_frame _ _ _ _ _ _ ref)
        (updateCurrentsAux_frame _ _ _ _ _ _ ref)
    · exact slotsInBlock_frame L0 F _ _ h1.2
        (updateCurrentsAux_frame _ _ _ _ _ _ ref)
  · intro r hr
    exact hsim.2.2.2.2.2.2 r hr

theorem runPass_sim (L0 L1 F : Nat) (a b : CircuitEngine)
    (hsim : engineSim L0 L1 F a b) (iter : Nat) :
    (runPass a iter = none ∧ runPass b iter = none) ∨
    (∃ p1 p2 : CircuitEngine × ℚ, runPass a iter = some p1 ∧
      runPass b iter = some p2 ∧ engineSim L0 L1 F p1.1 p2.1 ∧
      p2.2 = p1.2) := by
  have hact := activeNodes_sim L0 L1 F a b hsim
  have hbat := batCount_sim L0 L1 F a b hsim
  have hN : (activeNodes b).length = (activeNodes a).length := by
    rw [hact.1, List.length_map]
  by_cases hz : (activeNodes a).length + batCount a = 0
  · left
    constructor
    · simp only [runPass]
      rw [if_pos hz]
    · simp only [runPass]
      rw [if_pos (show (activeNodes b).length + batCount b = 0 by
        rw [hN, hbat]; exact hz)]
  · right
    have hzb : ¬ ((activeNodes b).length + batCount b = 0) := by
      rw [hN, hbat]; exact hz
    have hAZ : assembleSystem b (activeNodes b) (activeNodes a).length
        ((activeNodes a).length + batCount a) iter =
        assembleSystem a (activeNodes a) (activeNodes a).length
        ((activeNodes a).length + batCount a) iter :=
      assembleSystem_sim L0 L1 F a b hsim _ _ iter
    have h1 : ∃ p1, runPass a iter = some p1 := by
      simp only [runPass]
      rw [if_neg hz]
      exact ⟨_, rfl⟩
    have h2 : ∃ p2, runPass b iter = some p2 := by
      simp only [runPass]
      rw [if_neg hzb]
      exact ⟨_, rfl⟩
    obtain ⟨p1, hp1⟩ := h1
    obtain ⟨p2, hp2⟩ := h2
    have q1 := hp1
    simp only [runPass] at q1
    rw [if_neg hz] at q1
    have e1 := Option.some.inj q1
    have q2 := hp2
    simp only [runPass] at q2
    rw [if_neg hzb] at q2
    have e2 := Option.some.inj q2
    refine ⟨p1, p2, hp1, hp2, ?_, ?_⟩
    · rw [← e1, ← e2, hN, hbat, hAZ, hact.1, hsim.2.2.2.1, hsim.2.1]
      exact runPassTail_sim L0 L1 F a b hsim _ _
    · rw [← e1, ← e2, hN, hbat, hAZ, hact.1]
      exact (updateVoltages_sim L0 L1 F a.nodeStore b.nodeStore hsim.1
        (activeNodes a) _ hact.2).2

theorem solveAux_sim (L0 L1 F : Nat) :
    ∀ (fuel iter : Nat) (a b : CircuitEngine), engineSim L0 L1 F a b →
      engineSim L0 L1 F (solveAux fuel iter a).1
        (solveAux fuel iter b).1
  | 0, _, _, _, hsim => hsim
  | fuel + 1, iter, a, b, hsim => by
    rw [solveAux, solveAux]
    rcases runPass_sim L0 L1 F a b hsim iter with ⟨ha, hb⟩ |
      ⟨p1, p2, ha, hb, hps, hmc⟩
    · rw [ha, hb]
      exact hsim
    · rw [ha, hb]
      show engineSim L0 L1 F
        (if iter > 0 ∧ p1.2 < 1/1000 then (p1.1, iter + 1)
          else solveAux fuel (iter + 1) p1.1).1
        (if iter > 0 ∧ p2.2 < 1/1000 then (p2.1, iter + 1)
          else solveAux fuel (iter + 1) p2.1).1
      by_cases hc : iter > 0 ∧ p1.2 < 1/1000
      · rw [if_pos hc, if_pos (show iter > 0 ∧ p2.2 < 1/1000 by
          rw [hmc]; exact hc)]
        exact hps
      · rw [if_neg hc, if_neg (show ¬ (iter > 0 ∧ p2.2 < 1/1000) by
          rw [hmc]; exact hc)]
        exact solveAux_sim L0 L1 F fuel (iter + 1) p1.1 p2.1 hps

theorem solve_sim (L0 L1 F : Nat) (a b : CircuitEngine)
    (hsim : engineSim L0 L1 F a b) :
    engineSim L0 L1 F (solve a) (solve b) :=
  solveAux_sim L0 L1 F 10 0 a b hsim

/-- **C7.** On a well-formed heap whose visual wires all name listed
components, running `rebuildCircuit` twice in succession (the component
list and wire list are unchanged between the runs — `rebuildCircuit`
itself never modifies them) yields bit-for-bit identical node voltages:
reading the voltages along the rebuilt node list after the second run
gives exactly the list read after the first run.  (The second run's node
objects are fresh — allocated at a higher heap address — so the claim is
positional: node `i` of the second run's list carries the same voltage
as node `i` of the first run's.) -/
theorem c7_rebuild_twice_same_voltages (st : CircuitEngine)
    (hwf : engineWF st) (hlive : wiresLive st) :
    (rebuildCircuit (rebuildCircuit st)).nodes.map
      (fun r => ((rebuildCircuit (rebuildCircuit st)).nodeStore.getD r
        defaultNode).voltage) =
    (rebuildCircuit st).nodes.map
      (fun r => ((rebuildCircuit st).nodeStore.getD r
        defaultNode).voltage) := by
  have hm := rebuildPre_master st
  have hf := solve_frame (rebuildPre st)
  have hcomps : (rebuildCircuit st).components = st.components :=
    hf.1.trans hm.1
  have hwires : (rebuildCircuit st).visualWires = st.visualWires :=
    hf.2.2.1.trans hm.2.1
  have hclen : (rebuildCircuit st).compStore.length =
      st.compStore.length := hf.2.2.2.2.2.1.trans hm.2.2.1
  have hpre : ∀ q, compPre (st.compStore.getD q defaultComponent)
      ((rebuildCircuit st).compStore.getD q defaultComponent) :=
    fun q => compPre_trans (hm.2.2.2.2 q)
      (compFrame_compPre (hf.2.2.2.2.2.2 q))
  have hL : st.nodeStore.length ≤
      (rebuildCircuit st).nodeStore.length := by
    have h1 := hm.2.2.2.1
    have h2 : (rebuildCircuit st).nodeStore.length =
        (rebuildPre st).nodeStore.length := hf.2.2.2.1
    omega
  obtain ⟨F, hsim⟩ := rebuildStaged_sim st (rebuildCircuit st) hwf
    hlive hcomps hwires hclen hpre hL
  have hsim2 : engineSim st.nodeStore.length
      (rebuildCircuit st).nodeStore.length F (rebuildPre st)
      (rebuildPre (rebuildCircuit st)) := by
    rw [rebuildPre_staged st, rebuildPre_staged (rebuildCircuit st),
      hcomps, hwires]
    exact hsim
  have hsolve := solve_sim st.nodeStore.length
    (rebuildCircuit st).nodeStore.length F (rebuildPre st)
    (rebuildPre (rebuildCircuit st)) hsim2
  have hnodes : (rebuildCircuit (rebuildCircuit st)).nodes =
      (rebuildCircuit st).nodes.map (fun y => y - st.nodeStore.length +
        (rebuildCircuit st).nodeStore.length) := hsolve.2.2.2.1
  rw [hnodes, List.map_map]
  refine List.map_congr_left ?_
  intro r hr
  have hrb := hsolve.2.2.2.2.2.2 r hr
  have hgd := blockSim_getD st.nodeStore.length
    (rebuildCircuit st).nodeStore.length F
    (rebuildCircuit st).nodeStore
    (rebuildCircuit (rebuildCircuit st)).nodeStore hsolve.1 r hrb.1
    hrb.2
  show ((rebuildCircuit (rebuildCircuit st)).nodeStore.getD
      (r - st.nodeStore.length + (rebuildCircuit st).nodeStore.length)
      defaultNode).voltage =
    ((rebuildCircuit st).nodeStore.getD r defaultNode).voltage
  exact hgd.2.1

/-- Witness: the three-resistor chain `exChain` satisfies the
hypotheses, and rebuilding it twice reproduces the first rebuild's node
voltages. -/
theorem c7_rebuild_twice_same_voltages_witness :
    engineWF exChain ∧ wiresLive exChain ∧
    (rebuildCircuit (rebuildCircuit exChain)).nodes.map
      (fun r => ((rebuildCircuit (rebuildCircuit exChain)).nodeStore.getD
        r defaultNode).voltage) =
    (rebuildCircuit exChain).nodes.map
      (fun r => ((rebuildCircuit exChain).nodeStore.getD r
        defaultNode).voltage) := by
  have hwf : engineWF exChain := by
    constructor
    · exact ⟨fun _ => 0, fun x hx => absurd hx (Nat.not_lt_zero x),
        fun x hx => absurd hx (Nat.not_lt_zero x)⟩
    · intro c hc r hr
      have hnodes : c.nodes = [none, none] := by
        rcases List.mem_cons.mp hc with h | h
        · rw [h]; decide
        · rcases List.mem_cons.mp h with h2 | h2
          · rw [h2]; decide
          · rw [List.mem_singleton.mp h2]; decide
      rw [hnodes] at hr
      rcases List.mem_cons.mp hr with h | h
      · exact absurd h (fun hc2 => Option.noConfusion hc2)
      · rcases List.mem_cons.mp h with h2 | h2
        · exact absurd h2 (fun hc2 => Option.noConfusion hc2)
        · exact absurd h2 (List.not_mem_nil _)
  have hlive : wiresLive exChain := by
    intro w hw
    rcases List.mem_cons.mp hw with h | h
    · rw [h]
      exact ⟨by decide, by decide⟩
    · rcases List.mem_cons.mp h with h2 | h2
      · rw [h2]
        exact ⟨by decide, by decide⟩
      · exact absurd h2 (List.not_mem_nil _)
  exact ⟨hwf, hlive, c7_rebuild_twice_same_voltages exChain hwf hlive⟩

end Circ
